import Mathlib

/-!
# Lambdawg compiler: a shallow embedding for specification checking

This file embeds, in Lean 4, the parts of the Lambdawg compiler
(TypeScript sources: `src/source.ts`, `src/errors.ts`, `src/compiler.ts`,
`src/lexer/lexer.ts`, `src/lexer/tokens.ts`, `src/parser/ast.ts`,
`src/types/types.ts`, `src/types/checker.ts`, `src/codegen/emitter.ts`)
that the specification's claims are about, and proves or refutes each claim.

Modelling conventions:
* TypeScript numbers that are used as counters/indices are `Nat`.
* JavaScript `Map` objects are association lists; `Map.get` is first-match
  lookup, `Map.set` is replace-in-place-or-append.
* Mutable `TypeVar` objects are modelled as heap cells: a type variable
  carries a `cell` (its JS object identity, a fresh allocation index) and an
  `id` (its immutable `id` field).  The mutable `instance` slots live in a
  cell-indexed association list inside the checker state.  `a !== b` on two
  type variables is cell inequality; `type.id === typeVar.id` is id equality,
  exactly as in the source.
* Loops whose termination is not structural take a fuel argument; the
  compiler's own loops always terminate on the inputs considered, and fuel is
  chosen generously so that evaluation on concrete inputs agrees with the
  source.
-/

namespace Lambdawg

set_option maxRecDepth 40000

/-! ## source.ts : positions and spans -/

structure Position where
  line : Nat
  column : Nat
  offset : Nat
deriving DecidableEq, Repr

structure Span where
  start : Position
  stop : Position
deriving DecidableEq, Repr

def createPosition (line column offset : Nat) : Position :=
  { line := line, column := column, offset := offset }

def createSpan (start stop : Position) : Span :=
  { start := start, stop := stop }

def mergeSpans (a b : Span) : Span :=
  { start := if a.start.offset < b.start.offset then a.start else b.start,
    stop := if a.stop.offset > b.stop.offset then a.stop else b.stop }

/-- A default span used when building concrete test programs. -/
def sp0 : Span := createSpan (createPosition 1 1 0) (createPosition 1 1 0)

/-! ## errors.ts : diagnostics -/

inductive Severity where
  | error
  | warning
  | info
deriving DecidableEq, Repr

structure Diag where
  severity : Severity
  code : String
  message : String
  span : Span
  source : Option String := none
  filename : Option String := none
  hints : List String := []
deriving DecidableEq, Repr

def createError (code message : String) (span : Span)
    (hints : List String := []) : Diag :=
  { severity := .error, code := code, message := message, span := span,
    hints := hints }

def createWarning (code message : String) (span : Span)
    (hints : List String := []) : Diag :=
  { severity := .warning, code := code, message := message, span := span,
    hints := hints }

/-! ## compiler.ts : the driver

`compile` runs lexer → parser → (optional) type checker → emitter, attaching
the source and filename to every diagnostic and splitting diagnostics into
`errors` (severity ≠ warning) and `warnings`.  The driver's control flow
depends on the stages only through the diagnostic lists they return and the
code the emitter returns, so it is embedded as a function of those stage
outputs. -/

structure CompileResult where
  success : Bool
  code : Option String
  errors : List Diag
  warnings : List Diag
  hasAst : Bool
deriving DecidableEq, Repr

/-- `attachSource` from `compile`: annotate each diagnostic with the source
and filename and push it onto `errors` or `warnings` by severity. -/
def attachSource (source : String) (filename : Option String)
    (acc : List Diag × List Diag) (ds : List Diag) : List Diag × List Diag :=
  ds.foldl
    (fun ew d =>
      let d := { d with source := some source, filename := filename }
      if d.severity = .warning then (ew.1, ew.2 ++ [d])
      else (ew.1 ++ [d], ew.2))
    acc

/-- `compile(source, options)` from `compiler.ts`, as a function of the
diagnostics each stage would report and the code the emitter would produce. -/
def compileDriver (source : String) (filename : Option String)
    (skipTypeCheck : Bool)
    (lexErrs parseErrs typeErrs : List Diag) (emittedCode : String) :
    CompileResult :=
  -- Phase 1: Lexical Analysis
  let ew := attachSource source filename ([], []) lexErrs
  if ew.1.length > 0 then
    { success := false, code := none, errors := ew.1, warnings := ew.2,
      hasAst := false }
  else
    -- Phase 2: Parsing
    let ew := attachSource source filename ew parseErrs
    if ew.1.length > 0 then
      { success := false, code := none, errors := ew.1, warnings := ew.2,
        hasAst := true }
    else
      -- Phase 3: Type Checking
      if !skipTypeCheck then
        let ew := attachSource source filename ew typeErrs
        if ew.1.length > 0 then
          { success := false, code := none, errors := ew.1, warnings := ew.2,
            hasAst := true }
        else
          -- Phase 4: Code Generation
          { success := true, code := some emittedCode, errors := ew.1,
            warnings := ew.2, hasAst := true }
      else
        -- Phase 4: Code Generation
        { success := true, code := some emittedCode, errors := ew.1,
          warnings := ew.2, hasAst := true }

/-! ## errors.ts : stable error codes -/

namespace ErrorCodes

def UNEXPECTED_CHARACTER := "L001"
def UNTERMINATED_STRING := "L002"
def UNTERMINATED_COMMENT := "L003"
def INVALID_NUMBER := "L004"
def INVALID_ESCAPE := "L005"
def UNEXPECTED_TOKEN := "P001"
def EXPECTED_EXPRESSION := "P002"
def EXPECTED_IDENTIFIER := "P003"
def EXPECTED_TYPE := "P004"
def UNCLOSED_PAREN := "P005"
def UNCLOSED_BRACE := "P006"
def UNCLOSED_BRACKET := "P007"
def INVALID_PATTERN := "P008"
def INVALID_ASSIGNMENT := "P009"
def TYPE_MISMATCH := "T001"
def UNDEFINED_VARIABLE := "T002"
def UNDEFINED_TYPE := "T003"
def NOT_A_FUNCTION := "T004"
def WRONG_ARITY := "T005"
def INFINITE_TYPE := "T006"
def DUPLICATE_FIELD := "T007"
def MISSING_FIELD := "T008"
def NON_EXHAUSTIVE := "T009"
def EFFECT_OUTSIDE_DO := "T010"
def UNRESOLVED_AMBIENT := "T011"

end ErrorCodes

/-! ## lexer/tokens.ts : token vocabulary -/

inductive TokenType where
  | INT | FLOAT | STRING | CHAR
  | IDENT | TYPE_IDENT
  | LET | TYPE | MODULE | IMPORT | PRIVATE | IF | THEN | ELSE | MATCH | WITH
  | DO | IN | PROVIDE | PROVIDING | SEQ | TRUE | FALSE | JS | AS
  | PLUS | MINUS | STAR | SLASH | PERCENT | EQ | EQEQ | NEQ | LT | GT
  | LTE | GTE | AND | OR | NOT | PIPE | ARROW | FAT_ARROW | QUESTION
  | COLON | COMMA | DOT | DOTDOTDOT | UNDERSCORE | AT | BANG
  | LPAREN | RPAREN | LBRACE | RBRACE | LBRACKET | RBRACKET
  | NEWLINE | EOF
deriving DecidableEq, Repr

/-- Decoded literal values attached to tokens.  JavaScript `parseFloat` (IEEE
semantics) is not modelled: float tokens carry their cleaned lexeme instead;
no claim depends on float values. -/
inductive LitVal where
  | intVal (n : Nat)
  | floatRaw (s : String)
  | strVal (s : String)
  | charVal (s : String)
deriving DecidableEq, Repr

structure Token where
  type : TokenType
  lexeme : String
  span : Span
  value : Option LitVal
deriving DecidableEq, Repr

def createToken (type : TokenType) (lexeme : String) (span : Span)
    (value : Option LitVal) : Token :=
  { type := type, lexeme := lexeme, span := span, value := value }

def KEYWORDS : List (String × TokenType) :=
  [("let", .LET), ("type", .TYPE), ("module", .MODULE), ("import", .IMPORT),
   ("private", .PRIVATE), ("if", .IF), ("then", .THEN), ("else", .ELSE),
   ("match", .MATCH), ("with", .WITH), ("do", .DO), ("in", .IN),
   ("provide", .PROVIDE), ("providing", .PROVIDING), ("seq", .SEQ),
   ("true", .TRUE), ("false", .FALSE), ("js", .JS), ("as", .AS)]

/-! ## lexer/lexer.ts : the lexer

The `Lexer` class fields become `LexState`; each private method becomes a
function on `LexState`.  `while` loops take fuel; every loop advances
`current` at least once per iteration, so fuel `source.length + 1` is always
enough. -/

structure LexState where
  source : List Char
  tokens : List Token
  errors : List Diag
  start : Nat
  current : Nat
  line : Nat
  column : Nat
  lineStart : Nat
deriving Repr

def initLexState (source : List Char) : LexState :=
  { source := source, tokens := [], errors := [], start := 0, current := 0,
    line := 1, column := 1, lineStart := 0 }

def LexState.isAtEnd (st : LexState) : Bool :=
  st.current ≥ st.source.length

def LexState.charAt (st : LexState) (i : Nat) : Char :=
  st.source.getD i '\x00'

def LexState.advance (st : LexState) : Char × LexState :=
  (st.charAt st.current,
   { st with current := st.current + 1, column := st.column + 1 })

def LexState.peek (st : LexState) : Char :=
  if st.isAtEnd then '\x00' else st.charAt st.current

def LexState.peekNext (st : LexState) : Char :=
  if st.current + 1 ≥ st.source.length then '\x00'
  else st.charAt (st.current + 1)

def LexState.matchCh (st : LexState) (expected : Char) : Bool × LexState :=
  if st.isAtEnd then (false, st)
  else if st.charAt st.current != expected then (false, st)
  else (true, { st with current := st.current + 1, column := st.column + 1 })

def LexState.newlineAdj (st : LexState) : LexState :=
  { st with line := st.line + 1, column := 1, lineStart := st.current + 1 }

/-- The two position-computing loops of `Lexer.createSpan`: walk `n`
characters, tracking line and column. -/
def posScan : List Char → Nat → Nat × Nat → Nat × Nat
  | _, 0, lc => lc
  | [], _ + 1, lc => lc
  | c :: rest, n + 1, (l, col) =>
      if c = '\n' then posScan rest n (l + 1, 1) else posScan rest n (l, col + 1)

def LexState.mkSpan (st : LexState) : Span :=
  let s := posScan st.source st.start (1, 1)
  let e := posScan (st.source.drop st.start) (st.current - st.start) s
  createSpan (createPosition s.1 s.2 st.start) (createPosition e.1 e.2 st.current)

def LexState.lexemeChars (st : LexState) : List Char :=
  (st.source.drop st.start).take (st.current - st.start)

def LexState.addToken (st : LexState) (type : TokenType)
    (value : Option LitVal) : LexState :=
  { st with tokens :=
      st.tokens ++ [createToken type (String.mk st.lexemeChars) st.mkSpan value] }

def LexState.unexpectedCharacter (st : LexState) (c : Char) : LexState :=
  { st with errors := st.errors ++
      [createError ErrorCodes.UNEXPECTED_CHARACTER
        ("Unexpected character: \x27" ++ String.mk [c] ++ "\x27") st.mkSpan] }

def lineComment : Nat → LexState → LexState
  | 0, st => st
  | fuel + 1, st =>
    if st.peek != '\n' && !st.isAtEnd then lineComment fuel (st.advance).2
    else st

def blockCommentLoop : Nat → Nat → LexState → Nat × LexState
  | 0, depth, st => (depth, st)
  | fuel + 1, depth, st =>
    if depth > 0 && !st.isAtEnd then
      if st.peek == '\x7b' && st.peekNext == '-' then
        let st := (st.advance).2
        let st := (st.advance).2
        blockCommentLoop fuel (depth + 1) st
      else if st.peek == '-' && st.peekNext == '\x7d' then
        let st := (st.advance).2
        let st := (st.advance).2
        blockCommentLoop fuel (depth - 1) st
      else
        let st := if st.peek == '\n' then st.newlineAdj else st
        blockCommentLoop fuel depth (st.advance).2
    else (depth, st)

def blockComment (fuel : Nat) (st : LexState) : LexState :=
  let r := blockCommentLoop fuel 1 st
  if r.1 > 0 then
    { r.2 with errors := r.2.errors ++
        [createError ErrorCodes.UNTERMINATED_COMMENT "Unterminated block comment"
          r.2.mkSpan ["Block comments start with \x7b- and end with -\x7d"]] }
  else r.2

def parseEscapeSequence (st : LexState) : Option String × LexState :=
  let p := st.advance
  let c := p.1
  let st := p.2
  if c == 'n' then (some "\n", st)
  else if c == 't' then (some "\t", st)
  else if c == 'r' then (some "\r", st)
  else if c == '\\' then (some "\\", st)
  else if c == '\x22' then (some "\x22", st)
  else if c == '\x27' then (some "\x27", st)
  else if c == '0' then (some (String.mk ['\x00']), st)
  else
    (none, { st with errors := st.errors ++
      [createError ErrorCodes.INVALID_ESCAPE
        ("Invalid escape sequence: \\" ++ String.mk [c]) st.mkSpan
        ["Valid escape sequences: \\n, \\t, \\r, \\\\, \\\x22, \\\x27"]] })

def stringLoop : Nat → String → LexState → String × LexState
  | 0, value, st => (value, st)
  | fuel + 1, value, st =>
    if st.peek != '\x22' && !st.isAtEnd then
      let st := if st.peek == '\n' then st.newlineAdj else st
      if st.peek == '\\' then
        let st := (st.advance).2
        let r := parseEscapeSequence st
        let value := match r.1 with
          | some e => value ++ e
          | none => value
        stringLoop fuel value r.2
      else
        let p := st.advance
        stringLoop fuel (value ++ String.mk [p.1]) p.2
    else (value, st)

def lexString (fuel : Nat) (st : LexState) : LexState :=
  let r := stringLoop fuel "" st
  let value := r.1
  let st := r.2
  if st.isAtEnd then
    { st with errors := st.errors ++
        [createError ErrorCodes.UNTERMINATED_STRING "Unterminated string"
          st.mkSpan ["Strings must be closed with a double quote (\x22)"]] }
  else
    let st := (st.advance).2
    st.addToken TokenType.STRING (some (LitVal.strVal value))

def lexChar (st : LexState) : LexState :=
  if st.isAtEnd then
    { st with errors := st.errors ++
        [createError ErrorCodes.UNTERMINATED_STRING
          "Unterminated character literal" st.mkSpan] }
  else
    let vst : String × LexState :=
      if st.peek == '\\' then
        let st := (st.advance).2
        let r := parseEscapeSequence st
        (r.1.getD "\\", r.2)
      else
        let p := st.advance
        (String.mk [p.1], p.2)
    let value := vst.1
    let st := vst.2
    if st.peek != '\x27' then
      { st with errors := st.errors ++
          [createError ErrorCodes.UNTERMINATED_STRING
            "Unterminated character literal" st.mkSpan
            ["Character literals must contain exactly one character and end with \x27"]] }
    else
      let st := (st.advance).2
      st.addToken TokenType.CHAR (some (LitVal.charVal value))

def isDigitCh (c : Char) : Bool := c ≥ '0' && c ≤ '9'

def isHexDigitCh (c : Char) : Bool :=
  isDigitCh c || (c ≥ 'a' && c ≤ 'f') || (c ≥ 'A' && c ≤ 'F')

def isOctalDigitCh (c : Char) : Bool := c ≥ '0' && c ≤ '7'

def isAlphaCh (c : Char) : Bool :=
  (c ≥ 'a' && c ≤ 'z') || (c ≥ 'A' && c ≤ 'Z') || c == '_'

def isAlphaNumericCh (c : Char) : Bool := isAlphaCh c || isDigitCh c

def isUppercaseCh (c : Char) : Bool := c ≥ 'A' && c ≤ 'Z'

/-- The body of each `while (cond) this.advance();` loop of the lexer. -/
def consumeWhile : Nat → (LexState → Bool) → LexState → LexState
  | 0, _, st => st
  | fuel + 1, p, st => if p st then consumeWhile fuel p (st.advance).2 else st

def digitVal (c : Char) : Nat :=
  if isDigitCh c then c.toNat - '0'.toNat
  else if c ≥ 'a' && c ≤ 'f' then c.toNat - 'a'.toNat + 10
  else if c ≥ 'A' && c ≤ 'F' then c.toNat - 'A'.toNat + 10
  else 0

/-- `parseInt(lexeme, radix)` on a string of valid digits (the lexer only
hands it valid digits; the NaN result on an empty digit string is not
modelled — no claim depends on it). -/
def parseIntRadix (s : List Char) (radix : Nat) : Nat :=
  s.foldl (fun acc c => acc * radix + digitVal c) 0

def hexNumber (fuel : Nat) (st : LexState) : LexState :=
  let st := consumeWhile fuel (fun s => isHexDigitCh s.peek || s.peek == '_') st
  let lexeme := ((st.source.drop (st.start + 2)).take
      (st.current - (st.start + 2))).filter (fun c => c != '_')
  st.addToken TokenType.INT (some (LitVal.intVal (parseIntRadix lexeme 16)))

def binaryNumber (fuel : Nat) (st : LexState) : LexState :=
  let st := consumeWhile fuel
      (fun s => s.peek == '0' || s.peek == '1' || s.peek == '_') st
  let lexeme := ((st.source.drop (st.start + 2)).take
      (st.current - (st.start + 2))).filter (fun c => c != '_')
  st.addToken TokenType.INT (some (LitVal.intVal (parseIntRadix lexeme 2)))

def octalNumber (fuel : Nat) (st : LexState) : LexState :=
  let st := consumeWhile fuel (fun s => isOctalDigitCh s.peek || s.peek == '_') st
  let lexeme := ((st.source.drop (st.start + 2)).take
      (st.current - (st.start + 2))).filter (fun c => c != '_')
  st.addToken TokenType.INT (some (LitVal.intVal (parseIntRadix lexeme 8)))

def decimalTail (fuel : Nat) (st : LexState) : LexState :=
  let st := consumeWhile fuel (fun s => isDigitCh s.peek || s.peek == '_') st
  if st.peek == '.' && isDigitCh st.peekNext then
    let st := (st.advance).2
    let st := consumeWhile fuel (fun s => isDigitCh s.peek || s.peek == '_') st
    let st :=
      if st.peek == 'e' || st.peek == 'E' then
        let st := (st.advance).2
        let st := if st.peek == '+' || st.peek == '-' then (st.advance).2 else st
        consumeWhile fuel (fun s => isDigitCh s.peek) st
      else st
    let lexeme := String.mk (st.lexemeChars.filter (fun c => c != '_'))
    st.addToken TokenType.FLOAT (some (LitVal.floatRaw lexeme))
  else
    let lexeme := st.lexemeChars.filter (fun c => c != '_')
    st.addToken TokenType.INT (some (LitVal.intVal (parseIntRadix lexeme 10)))

def lexNumber (fuel : Nat) (st : LexState) : LexState :=
  if st.charAt st.start == '0' then
    let next := st.peek
    if next == 'x' || next == 'X' then hexNumber fuel (st.advance).2
    else if next == 'b' || next == 'B' then binaryNumber fuel (st.advance).2
    else if next == 'o' || next == 'O' then octalNumber fuel (st.advance).2
    else decimalTail fuel st
  else decimalTail fuel st

def lexIdentifier (fuel : Nat) (st : LexState) : LexState :=
  let st := consumeWhile fuel (fun s => isAlphaNumericCh s.peek) st
  let text := String.mk st.lexemeChars
  match KEYWORDS.lookup text with
  | some kw => st.addToken kw none
  | none =>
    let t := if isUppercaseCh (st.lexemeChars.headD '\x00') then
        TokenType.TYPE_IDENT
      else TokenType.IDENT
    st.addToken t none

def scanToken (fuel : Nat) (st0 : LexState) : LexState :=
  let p := st0.advance
  let c := p.1
  let st := p.2
  if c == '(' then st.addToken .LPAREN none
  else if c == ')' then st.addToken .RPAREN none
  else if c == '\x7b' then
    let m := st.matchCh '-'
    if m.1 then blockComment fuel m.2 else m.2.addToken .LBRACE none
  else if c == '\x7d' then st.addToken .RBRACE none
  else if c == '[' then st.addToken .LBRACKET none
  else if c == ']' then st.addToken .RBRACKET none
  else if c == ',' then st.addToken .COMMA none
  else if c == ':' then st.addToken .COLON none
  else if c == '+' then st.addToken .PLUS none
  else if c == '*' then st.addToken .STAR none
  else if c == '%' then st.addToken .PERCENT none
  else if c == '?' then st.addToken .QUESTION none
  else if c == '@' then st.addToken .AT none
  else if c == '_' then
    if isAlphaNumericCh st.peek then lexIdentifier fuel st
    else st.addToken .UNDERSCORE none
  else if c == '-' then
    let m := st.matchCh '-'
    if m.1 then lineComment fuel m.2
    else
      let m2 := m.2.matchCh '>'
      if m2.1 then m2.2.addToken .ARROW none else m2.2.addToken .MINUS none
  else if c == '/' then st.addToken .SLASH none
  else if c == '|' then
    let m := st.matchCh '>'
    if m.1 then m.2.addToken .PIPE none
    else
      let m2 := m.2.matchCh '|'
      if m2.1 then m2.2.addToken .OR none
      -- Single | is used in type definitions
      else m2.2.addToken .PIPE none
  else if c == '&' then
    let m := st.matchCh '&'
    if m.1 then m.2.addToken .AND none else m.2.unexpectedCharacter c
  else if c == '=' then
    let m := st.matchCh '='
    if m.1 then m.2.addToken .EQEQ none
    else
      let m2 := m.2.matchCh '>'
      if m2.1 then m2.2.addToken .FAT_ARROW none else m2.2.addToken .EQ none
  else if c == '!' then
    let m := st.matchCh '='
    if m.1 then m.2.addToken .NEQ none else m.2.addToken .BANG none
  else if c == '<' then
    let m := st.matchCh '='
    if m.1 then m.2.addToken .LTE none else m.2.addToken .LT none
  else if c == '>' then
    let m := st.matchCh '='
    if m.1 then m.2.addToken .GTE none else m.2.addToken .GT none
  else if c == '.' then
    -- `if (this.match('.') && this.match('.'))` with JS short-circuiting:
    -- the first successful match consumes its dot even when the second fails.
    let m1 := st.matchCh '.'
    if m1.1 then
      let m2 := m1.2.matchCh '.'
      if m2.1 then m2.2.addToken .DOTDOTDOT none
      else m2.2.addToken .DOT none
    else m1.2.addToken .DOT none
  else if c == ' ' || c == '\r' || c == '\t' then st
  else if c == '\n' then st.newlineAdj
  else if c == '\x22' then lexString fuel st
  else if c == '\x27' then lexChar st
  else if isDigitCh c then lexNumber fuel st
  else if isAlphaCh c then lexIdentifier fuel st
  else st.unexpectedCharacter c

def tokenizeLoop : Nat → LexState → LexState
  | 0, st => st
  | fuel + 1, st =>
    if !st.isAtEnd then
      tokenizeLoop fuel
        (scanToken (st.source.length + 1) { st with start := st.current })
    else st

structure LexerResult where
  tokens : List Token
  errors : List Diag
deriving DecidableEq, Repr

def tokenize (source : String) : LexerResult :=
  let chars := source.toList
  let st := tokenizeLoop (chars.length + 1) (initLexState chars)
  -- the EOF token is created with an explicit empty lexeme
  { tokens := st.tokens ++ [createToken TokenType.EOF "" st.mkSpan none],
    errors := st.errors }

/-! ## Properties of the driver (claim C1) -/

theorem attach_errors_eq (s : String) (f : Option String) (e w : List Diag)
    (ds : List Diag) :
    (attachSource s f (e, w) ds).1 =
      e ++ (ds.filter (fun d => !(d.severity = .warning : Bool))).map
        (fun d => { d with source := some s, filename := f }) := by
  induction ds generalizing e w with
  | nil => simp [attachSource]
  | cons d ds ih =>
    simp only [attachSource, List.foldl_cons] at *
    by_cases h : d.severity = .warning
    · simp [h, ih]
    · simp [h, ih]

theorem attach_errors_ne_nil (s : String) (f : Option String) (e w : List Diag)
    (ds : List Diag) (d : Diag) (hd : d ∈ ds) (hsev : d.severity ≠ .warning) :
    (attachSource s f (e, w) ds).1 ≠ [] := by
  rw [attach_errors_eq]
  intro hcontra
  rcases List.append_eq_nil.mp hcontra with ⟨-, h2⟩
  rw [List.map_eq_nil_iff] at h2
  have : d ∈ ds.filter (fun d => !(d.severity = .warning : Bool)) := by
    rw [List.mem_filter]
    exact ⟨hd, by simpa using hsev⟩
  rw [h2] at this
  exact List.not_mem_nil d this

theorem attach_all_warnings (s : String) (f : Option String) (e w : List Diag)
    (ds : List Diag) (h : ∀ d ∈ ds, d.severity = .warning) :
    (attachSource s f (e, w) ds).1 = e := by
  rw [attach_errors_eq]
  have : ds.filter (fun d => !(d.severity = .warning : Bool)) = [] := by
    rw [List.filter_eq_nil_iff]
    intro d hd
    simp [h d hd]
  simp [this]

/-- **C1.** For every source string and options, `compile`'s result has
`success = true` iff its `errors` vector is empty; the driver short-circuits
at the earliest stage (lexer, parser, type checker) that produced at least
one error-severity diagnostic, so that the result does not depend on any
later stage's output and no code is emitted; and warning-severity
diagnostics alone never prevent emission (`success` stays `true` and `code`
is present). -/
theorem compile_success_iff_no_errors_and_short_circuit
    (source : String) (filename : Option String) (skip : Bool)
    (lexErrs parseErrs typeErrs : List Diag) (code : String) :
    ((compileDriver source filename skip lexErrs parseErrs typeErrs code).success
        = true ↔
      (compileDriver source filename skip lexErrs parseErrs typeErrs code).errors
        = []) ∧
    ((∃ d ∈ lexErrs, d.severity = .error) →
      (∀ parseErrs' typeErrs' code',
        compileDriver source filename skip lexErrs parseErrs typeErrs code =
          compileDriver source filename skip lexErrs parseErrs' typeErrs' code') ∧
      (compileDriver source filename skip lexErrs parseErrs typeErrs code).code
        = none) ∧
    ((∀ d ∈ lexErrs, d.severity = .warning) →
      (∃ d ∈ parseErrs, d.severity = .error) →
      (∀ typeErrs' code',
        compileDriver source filename skip lexErrs parseErrs typeErrs code =
          compileDriver source filename skip lexErrs parseErrs typeErrs' code') ∧
      (compileDriver source filename skip lexErrs parseErrs typeErrs code).code
        = none) ∧
    ((∀ d ∈ lexErrs, d.severity = .warning) →
      (∀ d ∈ parseErrs, d.severity = .warning) →
      (∃ d ∈ typeErrs, d.severity = .error) → skip = false →
      (∀ code',
        compileDriver source filename skip lexErrs parseErrs typeErrs code =
          compileDriver source filename skip lexErrs parseErrs typeErrs code') ∧
      (compileDriver source filename skip lexErrs parseErrs typeErrs code).code
        = none) ∧
    ((∀ d ∈ lexErrs ++ parseErrs ++ typeErrs, d.severity = .warning) →
      (compileDriver source filename skip lexErrs parseErrs typeErrs code).success
        = true ∧
      (compileDriver source filename skip lexErrs parseErrs typeErrs code).code
        = some code) := by
  refine ⟨?_, ?_, ?_, ?_, ?_⟩
  · have h : ∀ r : CompileResult,
        (r.success = false → r.errors ≠ []) → (r.success = true → r.errors = []) →
        (r.success = true ↔ r.errors = []) := by
      intro r h1 h2
      constructor
      · exact h2
      · intro he
        rcases hs : r.success with _ | _
        · exact absurd he (h1 hs)
        · rfl
    apply h
    · unfold compileDriver
      dsimp only
      repeat' split
      all_goals intro hs
      all_goals simp_all [← List.length_eq_zero]
      all_goals omega
    · unfold compileDriver
      dsimp only
      repeat' split
      all_goals intro hs
      all_goals simp_all [← List.length_eq_zero]
  · rintro ⟨d, hd, hsev⟩
    have hne : (attachSource source filename ([], []) lexErrs).1 ≠ [] :=
      attach_errors_ne_nil _ _ _ _ _ d hd (by simp [hsev])
    have hlen : (attachSource source filename ([], []) lexErrs).1.length > 0 :=
      List.length_pos.mpr hne
    constructor
    · intro parseErrs' typeErrs' code'
      unfold compileDriver
      simp [hlen]
    · unfold compileDriver
      simp [hlen]
  · intro hlex ⟨d, hd, hsev⟩
    have hlexe : (attachSource source filename ([], []) lexErrs).1 = [] :=
      attach_all_warnings _ _ _ _ _ hlex
    have hne : (attachSource source filename
        (attachSource source filename ([], []) lexErrs) parseErrs).1 ≠ [] := by
      rcases attachSource source filename ([], []) lexErrs with ⟨e, w⟩
      exact attach_errors_ne_nil _ _ _ _ _ d hd (by simp [hsev])
    have hlen := List.length_pos.mpr hne
    constructor
    · intro typeErrs' code'
      unfold compileDriver
      simp [hlexe, hlen]
    · unfold compileDriver
      simp [hlexe, hlen]
  · intro hlex hparse ⟨d, hd, hsev⟩ hskip
    have hlexe : (attachSource source filename ([], []) lexErrs).1 = [] :=
      attach_all_warnings _ _ _ _ _ hlex
    have hparse2 : (attachSource source filename
        (attachSource source filename ([], []) lexErrs) parseErrs).1 = [] := by
      rcases h : attachSource source filename ([], []) lexErrs with ⟨e, w⟩
      rw [h] at hlexe
      simp only at hlexe
      subst hlexe
      exact attach_all_warnings _ _ _ _ _ hparse
    have hne : (attachSource source filename
        (attachSource source filename
          (attachSource source filename ([], []) lexErrs) parseErrs) typeErrs).1
        ≠ [] := by
      rcases attachSource source filename
          (attachSource source filename ([], []) lexErrs) parseErrs with ⟨e, w⟩
      exact attach_errors_ne_nil _ _ _ _ _ d hd (by simp [hsev])
    have hlen := List.length_pos.mpr hne
    constructor
    · intro code'
      unfold compileDriver
      simp [hlexe, hparse2, hskip, hlen]
    · unfold compileDriver
      simp [hlexe, hparse2, hskip, hlen]
  · intro hall
    have hlex : ∀ d ∈ lexErrs, d.severity = .warning := by
      intro d hd; exact hall d (by simp [hd])
    have hparse : ∀ d ∈ parseErrs, d.severity = .warning := by
      intro d hd; exact hall d (by simp [hd])
    have htype : ∀ d ∈ typeErrs, d.severity = .warning := by
      intro d hd; exact hall d (by simp [hd])
    have h1 : (attachSource source filename ([], []) lexErrs).1 = [] :=
      attach_all_warnings _ _ _ _ _ hlex
    have h2 : (attachSource source filename
        (attachSource source filename ([], []) lexErrs) parseErrs).1 = [] := by
      rcases h : attachSource source filename ([], []) lexErrs with ⟨e, w⟩
      rw [h] at h1
      simp only at h1
      subst h1
      exact attach_all_warnings _ _ _ _ _ hparse
    have h3 : (attachSource source filename
        (attachSource source filename
          (attachSource source filename ([], []) lexErrs) parseErrs) typeErrs).1
        = [] := by
      rcases h : attachSource source filename
          (attachSource source filename ([], []) lexErrs) parseErrs with ⟨e, w⟩
      rw [h] at h2
      simp only at h2
      subst h2
      exact attach_all_warnings _ _ _ _ _ htype
    unfold compileDriver
    rcases skip with _ | _ <;> simp [h1, h2, h3]

/-- Witness for `compile_success_iff_no_errors_and_short_circuit` at concrete
inputs: one error-severity lexer diagnostic. -/
theorem compile_short_circuit_witness :
    ((compileDriver "x" none false [createError "L001" "m" sp0] [] [] "c").success
        = true ↔
      (compileDriver "x" none false [createError "L001" "m" sp0] [] [] "c").errors
        = []) ∧
    (compileDriver "x" none false [createError "L001" "m" sp0] [] [] "c").code
      = none := by
  have h := compile_success_iff_no_errors_and_short_circuit "x" none false
    [createError "L001" "m" sp0] [] [] "c"
  refine ⟨h.1, ?_⟩
  exact (h.2.1 ⟨createError "L001" "m" sp0, by simp, rfl⟩).2

/-! ## Properties of the lexer (claim C8) -/

/-- **C8 (counterexample).** The claim predicts that the two-character input
`".."` lexes as two consecutive one-byte `DOT` tokens.  In fact the lexer's
`if (this.match('.') && this.match('.'))` consumes the second dot even though
the three-dot match fails, and a single `DOT` token with lexeme `".."`
covering both bytes is produced. -/
theorem lexer_two_dots_counterexample :
    ¬ ((tokenize "..").tokens.map Token.type = [.DOT, .DOT, .EOF]) ∧
    (tokenize "..").tokens =
      [createToken .DOT ".."
        (createSpan (createPosition 1 1 0) (createPosition 1 3 2)) none,
       createToken .EOF ""
        (createSpan (createPosition 1 1 0) (createPosition 1 3 2)) none] := by
  constructor
  · decide
  · decide

/-- **C8 (amended).** Operator and punctuator recognition is maximal munch
among the listed two/three-character operators; however, a sequence of
exactly two dots is consumed whole and emitted as a *single* `DOT` token
whose lexeme is `".."`, covering two bytes (the failed three-dot match does
not back off); two dots separated by whitespace do lex as two one-byte `DOT`
tokens. -/
theorem lexer_maximal_munch_amended :
    (tokenize "==").tokens.map Token.type = [.EQEQ, .EOF] ∧
    (tokenize "!=").tokens.map Token.type = [.NEQ, .EOF] ∧
    (tokenize "<=").tokens.map Token.type = [.LTE, .EOF] ∧
    (tokenize ">=").tokens.map Token.type = [.GTE, .EOF] ∧
    (tokenize "&&").tokens.map Token.type = [.AND, .EOF] ∧
    (tokenize "||").tokens.map Token.type = [.OR, .EOF] ∧
    (tokenize "=>").tokens.map Token.type = [.FAT_ARROW, .EOF] ∧
    (tokenize "->").tokens.map Token.type = [.ARROW, .EOF] ∧
    (tokenize "|>").tokens.map Token.type = [.PIPE, .EOF] ∧
    (tokenize "...").tokens.map Token.type = [.DOTDOTDOT, .EOF] ∧
    (tokenize ".").tokens =
      [createToken .DOT "."
        (createSpan (createPosition 1 1 0) (createPosition 1 2 1)) none,
       createToken .EOF ""
        (createSpan (createPosition 1 1 0) (createPosition 1 2 1)) none] ∧
    (tokenize "..").tokens =
      [createToken .DOT ".."
        (createSpan (createPosition 1 1 0) (createPosition 1 3 2)) none,
       createToken .EOF ""
        (createSpan (createPosition 1 1 0) (createPosition 1 3 2)) none] ∧
    (tokenize ". .").tokens.map Token.type = [.DOT, .DOT, .EOF] ∧
    (tokenize "a==b").tokens.map Token.type = [.IDENT, .EQEQ, .IDENT, .EOF] := by
  refine ⟨?_, ?_, ?_, ?_, ?_, ?_, ?_, ?_, ?_, ?_, ?_, ?_, ?_, ?_⟩ <;> decide

/-! ## types/types.ts : internal type representation

A TypeScript `TypeVar` is a mutable heap object `{ kind, id, instance }`.
It is modelled as `Ty.tvar cell id` where `cell` is the object's identity (a
fresh allocation index) and `id` its immutable `id` field; the mutable
`instance` slots live in the cell-indexed association list `TCState.inst`.
The module-global `typeVarCounter` lives in `TCState.typeVarCounter`.
`TCState.allocated` is pure instrumentation (not in the source): it records,
in order, the `(cell, id)` of every type variable `freshTypeVar` returns. -/

inductive Ty where
  | tvar (cell : Nat) (id : Nat)
  | tconst (name : String)
  | tfunc (params : List Ty) (returnType : Ty)
  | trecord (fields : List (String × Ty)) (isOpen : Bool)
  | tlist (elementType : Ty)
  | tapp (ctor : String) (args : List Ty)

structure TCState where
  typeVarCounter : Nat
  nextCell : Nat
  inst : List (Nat × Ty)
  errors : List Diag
  allocated : List (Nat × Nat)

def initTCState (counter : Nat) : TCState :=
  { typeVarCounter := counter, nextCell := 0, inst := [], errors := [],
    allocated := [] }

def resetTypeVarCounter (st : TCState) : TCState :=
  { st with typeVarCounter := 0 }

def freshTypeVar (st : TCState) : Ty × TCState :=
  (.tvar st.nextCell st.typeVarCounter,
   { st with typeVarCounter := st.typeVarCounter + 1,
             nextCell := st.nextCell + 1,
             allocated := st.allocated ++ [(st.nextCell, st.typeVarCounter)] })

/-- `Map.set`-style update of an association list. -/
def setAssoc {α : Type} [BEq α] {β : Type} (l : List (α × β)) (k : α) (v : β) :
    List (α × β) :=
  match l with
  | [] => [(k, v)]
  | (k2, v2) :: rest =>
      if k2 == k then (k2, v) :: rest else (k2, v2) :: setAssoc rest k v

def pushErr (st : TCState) (d : Diag) : TCState :=
  { st with errors := st.errors ++ [d] }

def TYPE_INT : Ty := .tconst "Int"
def TYPE_FLOAT : Ty := .tconst "Float"
def TYPE_STRING : Ty := .tconst "String"
def TYPE_CHAR : Ty := .tconst "Char"
def TYPE_BOOL : Ty := .tconst "Bool"
def TYPE_UNIT : Ty := .tconst "Unit"

def createFuncType (params : List Ty) (returnType : Ty) : Ty :=
  .tfunc params returnType

def createRecordType (fields : List (String × Ty)) (isOpen : Bool) : Ty :=
  .trecord fields isOpen

def createListType (elementType : Ty) : Ty := .tlist elementType

def createTypeApp (ctor : String) (args : List Ty) : Ty := .tapp ctor args

/-- `prune`: resolve a type variable's instance chain to the actual type.
The source's path compression only rewrites interior links; the endpoint
returned is the same.  Chains are acyclic (the occurs check prevents
cycles), so `inst.length + 1` steps always reach the endpoint. -/
def pruneGo : Nat → List (Nat × Ty) → Ty → Ty
  | 0, _, t => t
  | fuel + 1, inst, t =>
    match t with
    | .tvar cell id =>
      match inst.lookup cell with
      | some t2 => pruneGo fuel inst t2
      | none => .tvar cell id
    | t => t

def prune (st : TCState) (t : Ty) : Ty := pruneGo (st.inst.length + 1) st.inst t

/-- Deep-resolution fuel for the recursive type utilities (`occursIn`,
`typeToString`, `copyType`, `freeTypeVars`); the source recursions have no
bound, and 200 is ample for every run considered here. -/
def tcFuel : Nat := 200

/-- `occursIn(typeVar, type)`: does a variable **with the same id** occur in
`type`?  (The source compares `type.id === typeVar.id`.) -/
def occursIn : Nat → TCState → Nat → Ty → Bool
  | 0, _, _, _ => false
  | fuel + 1, st, tvId, t =>
    match prune st t with
    | .tvar _ id => id == tvId
    | .tconst _ => false
    | .tfunc ps r =>
        ps.any (fun p => occursIn fuel st tvId p) || occursIn fuel st tvId r
    | .trecord fs _ => fs.any (fun f => occursIn fuel st tvId f.2)
    | .tlist e => occursIn fuel st tvId e
    | .tapp _ args => args.any (fun a => occursIn fuel st tvId a)

def typeToString : Nat → TCState → Ty → String
  | 0, _, _ => ""
  | fuel + 1, st, t =>
    match prune st t with
    | .tvar _ id => "t" ++ toString id
    | .tconst name => name
    | .tfunc ps r =>
        "(" ++ String.intercalate ", " (ps.map (typeToString fuel st)) ++
          ") -> " ++ typeToString fuel st r
    | .trecord fs _ =>
        "\x7b " ++ String.intercalate ", "
          (fs.map (fun f => f.1 ++ ": " ++ typeToString fuel st f.2)) ++ " \x7d"
    | .tlist e => "List " ++ typeToString fuel st e
    | .tapp ctor args =>
        if args.length == 0 then ctor
        else ctor ++ " " ++ String.intercalate " " (args.map (typeToString fuel st))

/- `copyType(type, mapping)`: deep copy for instantiation.  The mapping is
keyed by the variable's **id** (as in the source) and every variable —
quantified or not — is replaced by its mapped/fresh copy. -/
mutual

def copyType : Nat → Ty → List (Nat × Ty) → TCState →
    Ty × List (Nat × Ty) × TCState
  | 0, t, mapping, st => (t, mapping, st)
  | fuel + 1, t, mapping, st =>
    match prune st t with
    | .tvar _ id =>
      (match mapping.lookup id with
       | some copy => (copy, mapping, st)
       | none =>
         let r := freshTypeVar st
         (r.1, mapping ++ [(id, r.1)], r.2))
    | .tconst name => (.tconst name, mapping, st)
    | .tfunc ps ret =>
      let r := copyTypeList fuel ps mapping st
      let r2 := copyType fuel ret r.2.1 r.2.2
      (.tfunc r.1 r2.1, r2.2.1, r2.2.2)
    | .trecord fs isOpen =>
      let r := copyTypeFields fuel fs mapping st
      (.trecord r.1 isOpen, r.2.1, r.2.2)
    | .tlist e =>
      let r := copyType fuel e mapping st
      (.tlist r.1, r.2.1, r.2.2)
    | .tapp ctor args =>
      let r := copyTypeList fuel args mapping st
      (.tapp ctor r.1, r.2.1, r.2.2)

def copyTypeList : Nat → List Ty → List (Nat × Ty) → TCState →
    List Ty × List (Nat × Ty) × TCState
  | _, [], mapping, st => ([], mapping, st)
  | 0, t :: rest, mapping, st => (t :: rest, mapping, st)
  | fuel + 1, t :: rest, mapping, st =>
    let r := copyType fuel t mapping st
    let rr := copyTypeList fuel rest r.2.1 r.2.2
    (r.1 :: rr.1, rr.2.1, rr.2.2)

def copyTypeFields : Nat → List (String × Ty) → List (Nat × Ty) → TCState →
    List (String × Ty) × List (Nat × Ty) × TCState
  | _, [], mapping, st => ([], mapping, st)
  | 0, (n, t) :: rest, mapping, st => ((n, t) :: rest, mapping, st)
  | fuel + 1, (n, t) :: rest, mapping, st =>
    let r := copyType fuel t mapping st
    let rr := copyTypeFields fuel rest r.2.1 r.2.2
    ((n, r.1) :: rr.1, rr.2.1, rr.2.2)

end

/-! ### Type schemes -/

structure TypeScheme where
  typeVars : List Nat
  type : Ty

def createScheme (typeVars : List Nat) (type : Ty) : TypeScheme :=
  { typeVars := typeVars, type := type }

/-- `instantiate(scheme)`: fresh variables for every quantified id, then a
deep copy. -/
def instantiate (scheme : TypeScheme) (st : TCState) : Ty × TCState :=
  let ms := scheme.typeVars.foldl
    (fun (acc : List (Nat × Ty) × TCState) id =>
      let r := freshTypeVar acc.2
      (setAssoc acc.1 id r.1, r.2))
    ([], st)
  let r := copyType tcFuel scheme.type ms.1 ms.2
  (r.1, r.2.2)

/-- Set-insertion preserving first-insertion order (JS `Set.add`). -/
def addIfAbsent (l : List Nat) (x : Nat) : List Nat :=
  if l.contains x then l else l ++ [x]

/-- `freeTypeVars(type)`: all free variable ids, in first-traversal order. -/
def freeTyVars : Nat → TCState → Ty → List Nat → List Nat
  | 0, _, _, acc => acc
  | fuel + 1, st, t, acc =>
    match prune st t with
    | .tvar _ id => addIfAbsent acc id
    | .tconst _ => acc
    | .tfunc ps r =>
      let acc := ps.foldl (fun a p => freeTyVars fuel st p a) acc
      freeTyVars fuel st r acc
    | .trecord fs _ => fs.foldl (fun a f => freeTyVars fuel st f.2 a) acc
    | .tlist e => freeTyVars fuel st e acc
    | .tapp _ args => args.foldl (fun a x => freeTyVars fuel st x a) acc

/-- `generalize(type, envTypeVars)`. -/
def generalize (st : TCState) (t : Ty) (envTypeVars : List Nat) : TypeScheme :=
  let freeVars := freeTyVars tcFuel st t []
  createScheme (freeVars.filter (fun id => !envTypeVars.contains id)) t

/-- `tvarId` projects the id of a variable produced by `freshTypeVar`. -/
def tvarId : Ty → Nat
  | .tvar _ id => id
  | _ => 0

/-! ## types/checker.ts : unification

`TypeChecker.unify(a, b, span)` with its three inner loops (function
parameters, record fields, type-application arguments; the parameter and
argument loops have identical bodies and share one helper here).  The
recursion is not structural (pruning can substitute larger types), so it
takes fuel; the checker's own recursion terminates on all runs considered
and fuel is chosen generously. -/

mutual

def unify : Nat → Ty → Ty → Span → TCState → Bool × TCState
  | 0, _, _, _, st => (false, st)
  | fuel + 1, a0, b0, span, st =>
    let a := prune st a0
    let b := prune st b0
    match a, b with
    | .tvar aCell aId, b =>
      -- `if (a !== b)`: object identity is cell equality
      let same : Bool :=
        match b with
        | .tvar bCell _ => aCell == bCell
        | _ => false
      if same then (true, st)
      else if occursIn tcFuel st aId b then
        (false, pushErr st (createError ErrorCodes.INFINITE_TYPE
          ("Infinite type: " ++ typeToString tcFuel st a ++ " = " ++
            typeToString tcFuel st b) span))
      else (true, { st with inst := setAssoc st.inst aCell b })
    | a, .tvar bCell bId => unify fuel (.tvar bCell bId) a span st
    | .tconst aName, .tconst bName =>
      if aName != bName then
        (false, pushErr st (createError ErrorCodes.TYPE_MISMATCH
          ("Type mismatch: expected " ++ aName ++ ", got " ++ bName) span))
      else (true, st)
    | .tfunc aPs aRet, .tfunc bPs bRet =>
      if aPs.length != bPs.length then
        (false, pushErr st (createError ErrorCodes.WRONG_ARITY
          ("Function arity mismatch: expected " ++ toString aPs.length ++
            " args, got " ++ toString bPs.length) span))
      else
        let r := unifyPairs fuel aPs bPs span st
        if r.1 then unify fuel aRet bRet span r.2 else (false, r.2)
    | .trecord aFields _, .trecord bFields bOpen =>
      -- unify common fields; a field of `a` missing from a closed `b` is an
      -- error; extra fields of `b` are not examined
      unifyRecordFields fuel aFields bFields bOpen span st
    | .tlist aElem, .tlist bElem => unify fuel aElem bElem span st
    | .tapp aCtor aArgs, .tapp bCtor bArgs =>
      if aCtor != bCtor then
        (false, pushErr st (createError ErrorCodes.TYPE_MISMATCH
          ("Type mismatch: " ++ aCtor ++ " vs " ++ bCtor) span))
      else if aArgs.length != bArgs.length then (false, st)
      else unifyPairs fuel aArgs bArgs span st
    | a, b =>
      (false, pushErr st (createError ErrorCodes.TYPE_MISMATCH
        ("Type mismatch: " ++ typeToString tcFuel st a ++ " vs " ++
          typeToString tcFuel st b) span))

def unifyPairs : Nat → List Ty → List Ty → Span → TCState → Bool × TCState
  | _, [], _, _, st => (true, st)
  | _, _ :: _, [], _, st => (true, st)
  | 0, _ :: _, _ :: _, _, st => (false, st)
  | fuel + 1, a :: as2, b :: bs, span, st =>
    let r := unify fuel a b span st
    if r.1 then unifyPairs fuel as2 bs span r.2 else (false, r.2)

def unifyRecordFields : Nat → List (String × Ty) → List (String × Ty) →
    Bool → Span → TCState → Bool × TCState
  | _, [], _, _, _, st => (true, st)
  | 0, _ :: _, _, _, _, st => (false, st)
  | fuel + 1, (name, aType) :: rest, bFields, bOpen, span, st =>
    match bFields.lookup name with
    | some bType =>
      let r := unify fuel aType bType span st
      if r.1 then unifyRecordFields fuel rest bFields bOpen span r.2
      else (false, r.2)
    | none =>
      if !bOpen then
        (false, pushErr st (createError ErrorCodes.MISSING_FIELD
          ("Missing field: " ++ name) span))
      else unifyRecordFields fuel rest bFields bOpen span st

end

/-! ## parser/ast.ts : the syntactic fragment the claims mention

Only the AST variants the claims exercise are embedded (literals,
identifiers, lists, functions, calls, binary operators, pipelines,
placeholders; identifier and wildcard patterns; let- and
expression-statements; modules).  The omitted variants (match, do, blocks,
provide, records, member/index/unary, spread, imports, type definitions) are
orthogonal to every claim. -/

inductive LitKind where
  | int | float | string | char | bool | unit
deriving DecidableEq, Repr

inductive LitValue where
  | num (n : Int)
  | str (s : String)
  | boolean (b : Bool)
  | nullV
deriving DecidableEq, Repr

inductive Pattern where
  | identifierPat (name : String) (span : Span)
  | wildcardPat (span : Span)
deriving DecidableEq, Repr

inductive Expr where
  | lit (kind : LitKind) (value : LitValue) (span : Span)
  | ident (name : String) (span : Span)
  | listE (elements : List Expr) (span : Span)
  | funcE (params : List Pattern) (body : Expr) (span : Span)
  | call (callee : Expr) (args : List Expr) (span : Span)
  | binary (op : String) (left right : Expr) (span : Span)
  | pipeline (left right : Expr) (span : Span)
  | placeholder (span : Span)

theorem Expr.sizeOf_pos (e : Expr) : 0 < sizeOf e := by
  cases e <;> simp_arith

theorem list_sizeOf_pos {α : Type} [SizeOf α] (l : List α) : 0 < sizeOf l := by
  cases l <;> simp_arith

def Expr.span : Expr → Span
  | .lit _ _ s => s
  | .ident _ s => s
  | .listE _ s => s
  | .funcE _ _ s => s
  | .call _ _ s => s
  | .binary _ _ _ s => s
  | .pipeline _ _ s => s
  | .placeholder s => s

inductive TypeExpr where
  | typeIdent (name : String) (span : Span)
  | funcType (params : List TypeExpr) (returnType : TypeExpr) (span : Span)
  | recordType (fields : List (String × TypeExpr)) (span : Span)
  | listType (elementType : TypeExpr) (span : Span)
  | genericType (name : String) (args : List TypeExpr) (span : Span)
  | parenType (t : TypeExpr) (span : Span)

inductive Stmt where
  | letStmt (isPrivate : Bool) (name : String)
      ( typeAnnotation : Option TypeExpr) (value : Expr) (span : Span)
  | exprStmt (e : Expr) (span : Span)

structure ModuleDecl where
  name : String
  body : List Stmt
  span : Span

structure Program where
  modules : List ModuleDecl
  statements : List Stmt

/-! ## types/checker.ts : environments -/

abbrev Scope := List (String × TypeScheme)
abbrev TypeEnv := List Scope

/-- `TypeEnv.define` (mutates the innermost scope; `Map.set` then first-match
lookup is modelled by cons-to-front). -/
def envDefine (env : TypeEnv) (name : String) (scheme : TypeScheme) : TypeEnv :=
  match env with
  | scope :: rest => ((name, scheme) :: scope) :: rest
  | [] => [[(name, scheme)]]

/-- `TypeEnv.lookup`: innermost scope first, walking outward. -/
def envLookup (env : TypeEnv) (name : String) : Option TypeScheme :=
  match env with
  | [] => none
  | scope :: rest =>
    match scope.lookup name with
    | some s => some s
    | none => envLookup rest name

def envExtend (env : TypeEnv) : TypeEnv := [] :: env

/-- `TypeEnv.freeTypeVars`: every id free in some scheme's type and not
quantified by that scheme, over all scopes.  Only membership in the result
is ever used (by `generalize`). -/
def envFreeTypeVars (st : TCState) (env : TypeEnv) : List Nat :=
  env.foldl
    (fun acc scope =>
      scope.foldl
        (fun acc b =>
          (freeTyVars tcFuel st b.2.type []).foldl
            (fun acc v =>
              if b.2.typeVars.contains v then acc else addIfAbsent acc v)
            acc)
        acc)
    []

/-! ## types/checker.ts : type expression resolution -/

/-- `TypeChecker.resolveTypeName`: the six built-in names resolve to their
constant types; anything else — "Could be a type parameter or user-defined
type" — becomes a fresh type variable. -/
def resolveTypeName (name : String) (st : TCState) : Ty × TCState :=
  if name == "Int" then (TYPE_INT, st)
  else if name == "Float" then (TYPE_FLOAT, st)
  else if name == "String" then (TYPE_STRING, st)
  else if name == "Char" then (TYPE_CHAR, st)
  else if name == "Bool" then (TYPE_BOOL, st)
  else if name == "Unit" then (TYPE_UNIT, st)
  else freshTypeVar st

/-- Fuel for the type-expression translation (structural in the source;
fuel makes the recursion kernel-computable). -/
def teFuel : Nat := 100

mutual

def typeExprToType : Nat → TypeExpr → TCState → Ty × TCState
  | 0, _, st => (TYPE_UNIT, st)
  | fuel + 1, te, st =>
    match te with
    | .typeIdent name _ => resolveTypeName name st
    | .funcType params returnType _ =>
      let r := typeExprListToTypes fuel params st
      let r2 := typeExprToType fuel returnType r.2
      (createFuncType r.1 r2.1, r2.2)
    | .recordType fields _ =>
      let r := typeExprFieldsToTypes fuel fields st
      (createRecordType r.1 false, r.2)
    | .listType elementType _ =>
      let r := typeExprToType fuel elementType st
      (createListType r.1, r.2)
    | .genericType name args _ =>
      let r := typeExprListToTypes fuel args st
      (createTypeApp name r.1, r.2)
    | .parenType t _ => typeExprToType fuel t st

def typeExprListToTypes : Nat → List TypeExpr → TCState → List Ty × TCState
  | _, [], st => ([], st)
  | 0, ts, st => (ts.map (fun _ => TYPE_UNIT), st)
  | fuel + 1, t :: rest, st =>
    let r := typeExprToType fuel t st
    let rr := typeExprListToTypes fuel rest r.2
    (r.1 :: rr.1, rr.2)

def typeExprFieldsToTypes : Nat → List (String × TypeExpr) → TCState →
    List (String × Ty) × TCState
  | _, [], st => ([], st)
  | 0, fs, st => (fs.map (fun f => (f.1, TYPE_UNIT)), st)
  | fuel + 1, (n, t) :: rest, st =>
    let r := typeExprToType fuel t st
    let rr := typeExprFieldsToTypes fuel rest r.2
    ((n, r.1) :: rr.1, rr.2)

end

/-! ## types/checker.ts : inference -/

/-- Fuel handed to `unify` by every inference rule. -/
def unifyFuel : Nat := 200

def isPlaceholderExpr : Expr → Bool
  | .placeholder _ => true
  | _ => false

/-- The loop of `inferCall`'s partial-application case: walk the arguments
(paired with their already-inferred types); at each placeholder allocate a
fresh variable, pushing it onto both `remainingParams` and `filledArgs`; at
each filled argument push its inferred type onto `filledArgs` only. -/
def placeholderLoop : List (Expr × Ty) → TCState →
    List Ty × List Ty × TCState
  | [], st => ([], [], st)
  | (a, t) :: rest, st =>
    if isPlaceholderExpr a then
      let f := freshTypeVar st
      let r := placeholderLoop rest f.2
      (f.1 :: r.1, f.1 :: r.2.1, r.2.2)
    else
      let r := placeholderLoop rest st
      (r.1, t :: r.2.1, r.2.2)

def inferLiteral (kind : LitKind) : Ty :=
  match kind with
  | .int => TYPE_INT
  | .float => TYPE_FLOAT
  | .string => TYPE_STRING
  | .char => TYPE_CHAR
  | .bool => TYPE_BOOL
  | .unit => TYPE_UNIT

def inferIdentifier (name : String) (span : Span) (env : TypeEnv)
    (st : TCState) : Ty × TCState :=
  match envLookup env name with
  | none =>
    let st := pushErr st (createError ErrorCodes.UNDEFINED_VARIABLE
      ("Undefined variable: " ++ name) span)
    freshTypeVar st
  | some scheme => instantiate scheme st

/-- `checkPattern` (the identifier and wildcard cases; `define` mutates the
given scope, so the updated environment is returned). -/
def checkPattern (p : Pattern) (expectedType : Ty) (env : TypeEnv)
    (st : TCState) : TypeEnv × TCState :=
  match p with
  | .identifierPat name _ =>
    (envDefine env name (createScheme [] expectedType), st)
  | .wildcardPat _ => (env, st)

def bindPattern (p : Pattern) (t : Ty) (env : TypeEnv) (st : TCState) :
    TypeEnv × TCState :=
  checkPattern p t env st

/-- The parameter loop of `inferFunction`: each parameter gets a fresh
variable, pushed and bound in order. -/
def inferFuncParams : List Pattern → TypeEnv → TCState →
    List Ty × TypeEnv × TCState
  | [], env, st => ([], env, st)
  | p :: rest, env, st =>
    let f := freshTypeVar st
    let b := bindPattern p f.1 env f.2
    let r := inferFuncParams rest b.1 b.2
    (f.1 :: r.1, r.2.1, r.2.2)

/-- Fuel for the expression-inference recursion (structural on the AST in
the source; every helper consumes one unit per hop, and 200 covers every
program considered here). -/
def inferFuel : Nat := 200

mutual

def inferExpr : Nat → Expr → TypeEnv → TCState → Ty × TCState
  | 0, _, _, st => (TYPE_UNIT, st)
  | fuel + 1, e, env, st =>
    match e with
    | .lit kind _ _ => (inferLiteral kind, st)
    | .ident name span => inferIdentifier name span env st
    | .listE elements span => inferList fuel elements span env st
    | .funcE params body _ => inferFunction fuel params body env st
    | .call callee args span => inferCall fuel callee args span env st
    | .binary op l r span => inferBinary fuel op l r span env st
    | .pipeline l r span => inferPipeline fuel l r span env st
    | .placeholder _ => freshTypeVar st

def inferExprList : Nat → List Expr → TypeEnv → TCState → List Ty × TCState
  | _, [], _, st => ([], st)
  | 0, _ :: _, _, st => ([], st)
  | fuel + 1, e :: rest, env, st =>
    let r := inferExpr fuel e env st
    let rr := inferExprList fuel rest env r.2
    (r.1 :: rr.1, rr.2)

def inferList : Nat → List Expr → Span → TypeEnv → TCState → Ty × TCState
  | _, [], _, _, st =>
    let r := freshTypeVar st
    (createListType r.1, r.2)
  | 0, _ :: _, _, _, st => (TYPE_UNIT, st)
  | fuel + 1, e0 :: rest, _, env, st =>
    let r := inferExpr fuel e0 env st
    let st2 := inferListRest fuel rest r.1 env r.2
    (createListType r.1, st2)

def inferListRest : Nat → List Expr → Ty → TypeEnv → TCState → TCState
  | _, [], _, _, st => st
  | 0, _ :: _, _, _, st => st
  | fuel + 1, e :: rest, elementType, env, st =>
    let r := inferExpr fuel e env st
    let u := unify unifyFuel elementType r.1 e.span r.2
    inferListRest fuel rest elementType env u.2

def inferFunction : Nat → List Pattern → Expr → TypeEnv → TCState →
    Ty × TCState
  | 0, _, _, _, st => (TYPE_UNIT, st)
  | fuel + 1, params, body, env, st =>
    let funcEnv := envExtend env
    let r := inferFuncParams params funcEnv st
    let rb := inferExpr fuel body r.2.1 r.2.2
    (createFuncType r.1 rb.1, rb.2)

def inferCall : Nat → Expr → List Expr → Span → TypeEnv → TCState →
    Ty × TCState
  | 0, _, _, _, _, st => (TYPE_UNIT, st)
  | fuel + 1, callee, args, span, env, st =>
    let rc := inferExpr fuel callee env st
    let calleeType := prune rc.2 rc.1
    let ra := inferExprList fuel args env rc.2
    let argTypes := ra.1
    let rret := freshTypeVar ra.2
    let returnType := rret.1
    let st1 := rret.2
    let hasPlaceholders := args.any isPlaceholderExpr
    if hasPlaceholders then
      let lp := placeholderLoop (args.zip argTypes) st1
      let expectedFunc := createFuncType lp.2.1 returnType
      let u := unify unifyFuel calleeType expectedFunc span lp.2.2
      (createFuncType lp.1 returnType, u.2)
    else
      let expectedFunc := createFuncType argTypes returnType
      let u := unify unifyFuel calleeType expectedFunc span st1
      (returnType, u.2)

def inferBinary : Nat → String → Expr → Expr → Span → TypeEnv → TCState →
    Ty × TCState
  | 0, _, _, _, _, _, st => (TYPE_UNIT, st)
  | fuel + 1, op, left, right, span, env, st =>
    let rl := inferExpr fuel left env st
    let rr := inferExpr fuel right env rl.2
    let leftType := rl.1
    let rightType := rr.1
    let st1 := rr.2
    if op == "+" || op == "-" || op == "*" || op == "/" || op == "%" then
      let u := unify unifyFuel leftType rightType span st1
      (leftType, u.2)
    else if op == "==" || op == "!=" then
      let u := unify unifyFuel leftType rightType span st1
      (TYPE_BOOL, u.2)
    else if op == "<" || op == ">" || op == "<=" || op == ">=" then
      let u := unify unifyFuel leftType rightType span st1
      (TYPE_BOOL, u.2)
    else if op == "&&" || op == "||" then
      let u := unify unifyFuel leftType TYPE_BOOL left.span st1
      let u2 := unify unifyFuel rightType TYPE_BOOL right.span u.2
      (TYPE_BOOL, u2.2)
    else if op == "?" then
      -- Error propagation: returns the left type ("Simplified for now")
      (leftType, st1)
    else freshTypeVar st1

def inferPipeline : Nat → Expr → Expr → Span → TypeEnv → TCState →
    Ty × TCState
  | 0, _, _, _, _, st => (TYPE_UNIT, st)
  | fuel + 1, left, right, span, env, st =>
    let rl := inferExpr fuel left env st
    let rr := inferExpr fuel right env rl.2
    let leftType := rl.1
    let rightType := prune rr.2 rr.1
    let rret := freshTypeVar rr.2
    let returnType := rret.1
    let st1 := rret.2
    match rightType with
    | .tfunc params funcRet =>
      (match params.getLast? with
       | some lastParamType =>
         -- Pipeline passes left as the last argument
         let u := unify unifyFuel lastParamType leftType span st1
         (funcRet, u.2)
       | none =>
         let expectedFunc := createFuncType [leftType] returnType
         let u := unify unifyFuel rightType expectedFunc span st1
         (returnType, u.2))
    | _ =>
      let expectedFunc := createFuncType [leftType] returnType
      let u := unify unifyFuel rightType expectedFunc span st1
      (returnType, u.2)

end

/-! ## types/checker.ts : statements, modules, the check entry point -/

def checkLetStatement (name : String) (ann : Option TypeExpr) (value : Expr)
    (span : Span) (env : TypeEnv) (st : TCState) : TypeEnv × TCState :=
  -- If there's a type annotation, use it
  let rd : Option Ty × TCState :=
    match ann with
    | some te =>
      let r := typeExprToType teFuel te st
      (some r.1, r.2)
    | none => (none, st)
  -- Infer the type of the value
  let ri := inferExpr inferFuel value env rd.2
  let inferredType := ri.1
  -- Unify with declared type if present
  let st1 :=
    match rd.1 with
    | some dt => (unify unifyFuel dt inferredType span ri.2).2
    | none => ri.2
  -- Generalize and add to environment
  let scheme := generalize st1 inferredType (envFreeTypeVars st1 env)
  (envDefine env name scheme, st1)

def checkStatement (s : Stmt) (env : TypeEnv) (st : TCState) :
    TypeEnv × TCState :=
  match s with
  | .letStmt _ name ann value span => checkLetStatement name ann value span env st
  | .exprStmt e _ =>
    let r := inferExpr inferFuel e env st
    (env, r.2)

def checkStatements : List Stmt → TypeEnv → TCState → TypeEnv × TCState
  | [], env, st => (env, st)
  | s :: rest, env, st =>
    let r := checkStatement s env st
    checkStatements rest r.1 r.2

def checkModule (m : ModuleDecl) (env : TypeEnv) (st : TCState) : TCState :=
  let moduleEnv := envExtend env
  (checkStatements m.body moduleEnv st).2

def checkModules : List ModuleDecl → TypeEnv → TCState → TCState
  | [], _, st => st
  | m :: rest, env, st => checkModules rest env (checkModule m env st)

/-- The `TypeChecker` constructor's `createGlobalEnv`: pre-populate the
global scope with the built-in combinator schemes, allocating their type
variables from the current (module-global) counter. -/
def createGlobalEnv (st : TCState) : TypeEnv × TCState :=
  let env : TypeEnv := [[]]
  -- map: ((a) -> b, List a) -> List b
  let ra := freshTypeVar st
  let rb := freshTypeVar ra.2
  let a := ra.1
  let b := rb.1
  let env := envDefine env "map" (createScheme [tvarId a, tvarId b]
    (createFuncType [createFuncType [a] b, createListType a]
      (createListType b)))
  -- filter: ((a) -> Bool, List a) -> List a
  let ra2 := freshTypeVar rb.2
  let a2 := ra2.1
  let env := envDefine env "filter" (createScheme [tvarId a2]
    (createFuncType [createFuncType [a2] TYPE_BOOL, createListType a2]
      (createListType a2)))
  -- fold: ((b, a) -> b, b, List a) -> b
  let ra3 := freshTypeVar ra2.2
  let rb3 := freshTypeVar ra3.2
  let a3 := ra3.1
  let b3 := rb3.1
  let env := envDefine env "fold" (createScheme [tvarId a3, tvarId b3]
    (createFuncType [createFuncType [b3, a3] b3, b3, createListType a3] b3))
  -- sum: List Int -> Int
  let env := envDefine env "sum" (createScheme []
    (createFuncType [createListType TYPE_INT] TYPE_INT))
  -- length: List a -> Int
  let ra4 := freshTypeVar rb3.2
  let a4 := ra4.1
  let env := envDefine env "length" (createScheme [tvarId a4]
    (createFuncType [createListType a4] TYPE_INT))
  -- show: a -> String
  let ra5 := freshTypeVar ra4.2
  let a5 := ra5.1
  let env := envDefine env "show" (createScheme [tvarId a5]
    (createFuncType [a5] TYPE_STRING))
  -- identity: a -> a
  let ra6 := freshTypeVar ra5.2
  let a6 := ra6.1
  let env := envDefine env "identity" (createScheme [tvarId a6]
    (createFuncType [a6] a6))
  -- head: List a -> Option a
  let ra7 := freshTypeVar ra6.2
  let a7 := ra7.1
  let env := envDefine env "head" (createScheme [tvarId a7]
    (createFuncType [createListType a7] (createTypeApp "Option" [a7])))
  -- tail: List a -> Option (List a)
  let ra8 := freshTypeVar ra7.2
  let a8 := ra8.1
  let env := envDefine env "tail" (createScheme [tvarId a8]
    (createFuncType [createListType a8]
      (createTypeApp "Option" [createListType a8])))
  -- tap: ((a) -> Unit, a) -> a
  let ra9 := freshTypeVar ra8.2
  let a9 := ra9.1
  let env := envDefine env "tap" (createScheme [tvarId a9]
    (createFuncType [createFuncType [a9] TYPE_UNIT, a9] a9))
  (env, ra9.2)

structure TCRunResult where
  errors : List Diag
  env : TypeEnv
  state : TCState

/-- One run of `typeCheck(program)` (a fresh `TypeChecker` whose constructor
builds the global environment from the current module-global counter, then
`check`, which resets the counter and visits top-level statements, then
modules).  `initialCounter` is the value the module-global `typeVarCounter`
has when the run starts; the node-to-type annotation map is not modelled (no
claim mentions it). -/
def typeCheckRun (initialCounter : Nat) (p : Program) : TCRunResult :=
  let g := createGlobalEnv (initTCState initialCounter)
  let st := resetTypeVarCounter g.2
  let r := checkStatements p.statements g.1 st
  let st2 := checkModules p.modules r.1 r.2
  { errors := st2.errors, env := r.1, state := st2 }

/-- Fully resolve a type through the instance substitution (an analysis
helper for stating theorems; not part of the source). -/
def resolveTy : Nat → TCState → Ty → Ty
  | 0, _, t => t
  | fuel + 1, st, t =>
    match prune st t with
    | .tvar c i => .tvar c i
    | .tconst n => .tconst n
    | .tfunc ps r => .tfunc (ps.map (resolveTy fuel st)) (resolveTy fuel st r)
    | .trecord fs o =>
        .trecord (fs.map (fun f => (f.1, resolveTy fuel st f.2))) o
    | .tlist e => .tlist (resolveTy fuel st e)
    | .tapp c args => .tapp c (args.map (resolveTy fuel st))

/-! ## parser/parser.ts : the top-level loop of `Parser.parse`

The parser pushes module declarations and other top-level statements into
two separate arrays (`modules` and `statements`), losing their interleaved
source order.  Error recovery and the statement/expression grammar are not
needed by any claim. -/

inductive TopItem where
  | moduleItem (m : ModuleDecl)
  | stmtItem (s : Stmt)

def parseTopLevel (items : List TopItem) : Program :=
  items.foldl
    (fun (p : Program) item =>
      match item with
      | .moduleItem m => { p with modules := p.modules ++ [m] }
      | .stmtItem s => { p with statements := p.statements ++ [s] })
    { modules := [], statements := [] }

def TopItem.getModule : TopItem → Option ModuleDecl
  | .moduleItem m => some m
  | .stmtItem _ => none

def TopItem.getStmt : TopItem → Option Stmt
  | .moduleItem _ => none
  | .stmtItem s => some s

/-! ## codegen/emitter.ts : the JavaScript emitter

Each `emit…` method appends text to the output buffer; a method is modelled
as the string it appends.  The `if (i > 0) this.write(', ')` separators are
`String.intercalate ", "`.  Indentation is the `indent` parameter
(`getIndent` = two spaces per level); expression emission never uses it in
this fragment. -/

def reservedWords : List String :=
  ["var", "let", "const", "function", "class", "return", "if", "else", "for",
   "while", "do", "switch", "case", "break", "continue", "throw", "try",
   "catch", "finally", "new", "delete", "typeof", "void", "this", "super",
   "import", "export", "default", "from", "as", "async", "await", "yield",
   "static", "get", "set"]

/-- `Emitter.sanitizeIdentifier`: reserved words get a single leading
underscore. -/
def sanitizeIdentifier (name : String) : String :=
  if reservedWords.contains name then "_" ++ name else name

/-- `JSON.stringify` on a string (quote/backslash/control escapes; enough
for the emitted fragment). -/
def jsonStringify (s : String) : String :=
  "\x22" ++ String.join (s.toList.map (fun c =>
    if c = '\x22' then "\\\x22"
    else if c = '\\' then "\\\\"
    else if c = '\n' then "\\n"
    else if c = '\t' then "\\t"
    else if c = '\r' then "\\r"
    else String.mk [c])) ++ "\x22"

def emitLiteral (kind : LitKind) (value : LitValue) : String :=
  match kind, value with
  | .int, .num n => toString n
  | .float, .num n => toString n
  | .string, .str s => jsonStringify s
  | .char, .str s => jsonStringify s
  | .bool, .boolean b => if b then "true" else "false"
  | .unit, _ => "undefined"
  | _, _ => ""

def getIndent (indent : Nat) : String :=
  String.join (List.replicate indent "  ")

/-- `emitPattern` (identifier and wildcard cases; binder names are *not*
sanitized here, as in the source). -/
def emitPattern : Pattern → String
  | .identifierPat name _ => name
  | .wildcardPat _ => "_"

/-- Fuel for the emitter recursion (structural on the AST in the source). -/
def emitFuel : Nat := 200

mutual

def emitExpr : Nat → Expr → String
  | 0, _ => ""
  | fuel + 1, e =>
    match e with
    | .lit kind value _ => emitLiteral kind value
    | .ident name _ => sanitizeIdentifier name
    | .listE elements _ =>
        "[" ++ String.intercalate ", " (emitExprList fuel elements) ++ "]"
    | .funcE params body _ =>
        "(" ++ String.intercalate ", " (params.map emitPattern) ++ ") => " ++
          emitExpr fuel body
    | .call callee args _ => emitCallExpression fuel callee args
    | .binary op l r _ =>
        if op == "?" then "__lw.unwrap(" ++ emitExpr fuel l ++ ")"
        else "(" ++ emitExpr fuel l ++ " " ++ op ++ " " ++ emitExpr fuel r ++ ")"
    | .pipeline l r _ =>
        "__lw.pipe(" ++ emitExpr fuel l ++ ", " ++ emitExpr fuel r ++ ")"
    | .placeholder _ => "__placeholder__"

def emitExprList : Nat → List Expr → List String
  | _, [] => []
  | 0, _ :: _ => []
  | fuel + 1, e :: rest => emitExpr fuel e :: emitExprList fuel rest

/-- `emitCallExpression`: a call with a placeholder becomes a wrapper
closure `((__p0, …) => callee(…))` whose parameters are substituted at the
placeholders' original argument indices. -/
def emitCallExpression : Nat → Expr → List Expr → String
  | 0, _, _ => ""
  | fuel + 1, callee, args =>
    let hasPlaceholders := args.any isPlaceholderExpr
    if hasPlaceholders then
      let n := (args.filter isPlaceholderExpr).length
      let params := (List.range n).map (fun i => "__p" ++ toString i)
      "((" ++ String.intercalate ", " params ++ ") => " ++ emitExpr fuel callee ++
        "(" ++ String.intercalate ", " (emitCallArgs fuel args 0) ++ "))"
    else
      emitExpr fuel callee ++ "(" ++
        String.intercalate ", " (emitExprList fuel args) ++ ")"

/-- The argument loop of the placeholder branch, with its running
`placeholderIndex`. -/
def emitCallArgs : Nat → List Expr → Nat → List String
  | _, [], _ => []
  | 0, _ :: _, _ => []
  | fuel + 1, a :: rest, k =>
    if isPlaceholderExpr a then
      ("__p" ++ toString k) :: emitCallArgs fuel rest (k + 1)
    else emitExpr fuel a :: emitCallArgs fuel rest k

end

/-- `emitLetStatement` — note the binder is written with the **raw** name,
not `sanitizeIdentifier name` (the ambient branch is omitted: no claim
involves `with` clauses). -/
def emitLetStatement (indent : Nat) (name : String) (value : Expr) : String :=
  getIndent indent ++ "const " ++ name ++ " = " ++ emitExpr emitFuel value ++ ";\n"

def emitStatement (indent : Nat) : Stmt → String
  | .letStmt _ name _ value _ => emitLetStatement indent name value
  | .exprStmt e _ => getIndent indent ++ emitExpr emitFuel e ++ ";\n"

def moduleExports : List Stmt → List String
  | [] => []
  | .letStmt isPrivate name _ _ _ :: rest =>
      if isPrivate then moduleExports rest else name :: moduleExports rest
  | _ :: rest => moduleExports rest

/-- `emitModule`: a self-executing scope binding the module's statements and
returning a record of the non-private let names. -/
def emitModule (m : ModuleDecl) : String :=
  "// Module: " ++ m.name ++ "\n" ++
  "const " ++ m.name ++ " = (() => \x7b\n" ++
  String.join (m.body.map (emitStatement 1)) ++
  "  return \x7b " ++ String.intercalate ", " (moduleExports m.body) ++
    " \x7d;\n" ++
  "\x7d)();\n" ++
  "\n"

/-- The fixed runtime prelude `emitRuntimeHelpers` writes (transcribed from
its `writeLine` calls, two spaces per indent level). -/
def runtimeHelpers : String :=
  "// Lambdawg Runtime\n" ++
  "const __lw = \x7b\n" ++
  "  Ok: (value) => (\x7b __tag: \x22Ok\x22, value \x7d),\n" ++
  "  Error: (error) => (\x7b __tag: \x22Error\x22, error \x7d),\n" ++
  "  Some: (value) => (\x7b __tag: \x22Some\x22, value \x7d),\n" ++
  "  None: \x7b __tag: \x22None\x22 \x7d,\n" ++
  "  isOk: (r) => r.__tag === \x22Ok\x22,\n" ++
  "  isError: (r) => r.__tag === \x22Error\x22,\n" ++
  "  isSome: (o) => o.__tag === \x22Some\x22,\n" ++
  "  isNone: (o) => o.__tag === \x22None\x22,\n" ++
  "  unwrap: (r) => \x7b if (r.__tag === \x22Error\x22) throw r; return r.value; \x7d,\n" ++
  "  match: (value, cases) => \x7b\n" ++
  "    for (const [pattern, handler] of cases) \x7b\n" ++
  "      const result = pattern(value);\n" ++
  "      if (result.matched) return handler(result.bindings);\n" ++
  "    \x7d\n" ++
  "    throw new Error(\x22Non-exhaustive pattern match\x22);\n" ++
  "  \x7d,\n" ++
  "  map: (fn, list) => list.map(fn),\n" ++
  "  filter: (fn, list) => list.filter(fn),\n" ++
  "  fold: (fn, init, list) => list.reduce((acc, x) => fn(acc, x), init),\n" ++
  "  sum: (list) => list.reduce((a, b) => a + b, 0),\n" ++
  "  length: (list) => list.length,\n" ++
  "  head: (list) => list.length > 0 ? __lw.Some(list[0]) : __lw.None,\n" ++
  "  tail: (list) => list.length > 0 ? __lw.Some(list.slice(1)) : __lw.None,\n" ++
  "  show: (x) => JSON.stringify(x),\n" ++
  "  identity: (x) => x,\n" ++
  "  tap: (fn, x) => \x7b fn(x); return x; \x7d,\n" ++
  "  pipe: (value, fn) => fn(value),\n" ++
  "\x7d;\n" ++
  "\n" ++
  "const \x7b Ok, Error, Some, None \x7d = __lw;\n" ++
  "const \x7b map, filter, fold, sum, length, head, tail, show, identity, tap \x7d = __lw;\n" ++
  "\n"

/-- `Emitter.emit`: the runtime prelude, then every module, then every
top-level statement, in the order the two arrays hold them. -/
def emitProgram (p : Program) : String :=
  runtimeHelpers ++
  String.join (p.modules.map emitModule) ++
  String.join (p.statements.map (emitStatement 0))

/-! ## Concrete programs used by the theorems -/

def litInt (n : Int) : Expr := .lit .int (.num n) sp0

/-- `let nums = [1,2,3]` ; `let d = nums |> map((x) => x * 2, _)` — the
spec's pipeline/partial-application scenario. -/
def progPipelinePlaceholder : Program :=
  { modules := [],
    statements :=
      [ .letStmt false "nums" none (.listE [litInt 1, litInt 2, litInt 3] sp0) sp0,
        .letStmt false "d" none
          (.pipeline (.ident "nums" sp0)
            (.call (.ident "map" sp0)
              [.funcE [.identifierPat "x" sp0]
                 (.binary "*" (.ident "x" sp0) (litInt 2) sp0) sp0,
               .placeholder sp0] sp0) sp0) sp0 ] }

/-- `let h = (f) => 1 |> f` — a pipeline whose right side is (an instance
of) a type variable, exercising the expected-function fallback branch. -/
def progPipeIntoVar : Program :=
  { modules := [],
    statements :=
      [ .letStmt false "h" none
          (.funcE [.identifierPat "f" sp0]
            (.pipeline (litInt 1) (.ident "f" sp0) sp0) sp0) sp0 ] }

/-- `let x : Intt = 1` — a misspelled type annotation. -/
def progMisspelledAnnotation : Program :=
  { modules := [],
    statements :=
      [ .letStmt false "x" (some (.typeIdent "Intt" sp0)) (litInt 1) sp0 ] }

/-- `let dd = map((x) => x * 2, [1, 2])` — uses the built-in `map` scheme. -/
def progUsesMap : Program :=
  { modules := [],
    statements :=
      [ .letStmt false "dd" none
          (.call (.ident "map" sp0)
            [.funcE [.identifierPat "x" sp0]
               (.binary "*" (.ident "x" sp0) (litInt 2) sp0) sp0,
             .listE [litInt 1, litInt 2] sp0] sp0) sp0 ] }

/-- `let class = 1` ; `let y = class` — a JS-reserved binder name and a use
of it (`class` is not a Lambdawg keyword, so it lexes as an identifier). -/
def progReservedBinder : Program :=
  { modules := [],
    statements :=
      [ .letStmt false "class" none (litInt 1) sp0,
        .letStmt false "y" none (.ident "class" sp0) sp0 ] }

/-- `let x = y + 1` — an undefined variable, producing a `T002` error. -/
def progUndefinedVar : Program :=
  { modules := [],
    statements :=
      [ .letStmt false "x" none
          (.binary "+" (.ident "y" sp0) (litInt 1) sp0) sp0 ] }

/-! ## Claim C3 : pipeline typing -/

/-- **C3.**  `x |> f`: when the (pruned) type of `f` is a function with at
least one parameter, the left type is unified with its *last* parameter and
the result is `f`'s return type; otherwise `f`'s type is unified with the
expected type `(typeof x) → ρ` for a fresh `ρ`, which is returned.  Both
branches are exercised: `nums |> map((x) => x * 2, _)` type-checks with no
diagnostics, the placeholder call supplying a one-parameter function whose
parameter receives `nums : List Int`, so `d : List Int`; and piping into a
bare variable (`(f) => 1 |> f`) takes the fallback branch, returning the
fresh `ρ` (the resolved type of `h` is `(α) → ρ` with `ρ` exactly the fresh
result variable allocated by the pipeline rule). -/
theorem pipeline_typing_scenarios :
    (typeCheckRun 0 progPipelinePlaceholder).errors = [] ∧
    ((envLookup (typeCheckRun 0 progPipelinePlaceholder).env "d").map
      (fun s => resolveTy tcFuel (typeCheckRun 0 progPipelinePlaceholder).state
        s.type)) = some (.tlist (.tconst "Int")) ∧
    ((envLookup (typeCheckRun 0 progPipelinePlaceholder).env "nums").map
      (fun s => resolveTy tcFuel (typeCheckRun 0 progPipelinePlaceholder).state
        s.type)) = some (.tlist (.tconst "Int")) ∧
    (typeCheckRun 0 progPipeIntoVar).errors = [] ∧
    ((envLookup (typeCheckRun 0 progPipeIntoVar).env "h").map
      (fun s => resolveTy tcFuel (typeCheckRun 0 progPipeIntoVar).state
        s.type)) = some (.tfunc [.tvar 11 0] (.tvar 13 2)) :=
  ⟨rfl, rfl, rfl, rfl, rfl⟩

/-! ## Claim C4 : type-variable id uniqueness -/

/-- **C4 (counterexample).**  The `TypeChecker` constructor builds the
global environment — allocating the built-in schemes' type variables from
the current counter — and only afterwards does `check` reset the counter.
Starting a run with counter 0, the `map` scheme's first variable is
allocated with id 0 (heap cell 0), and the first variable allocated during
inference — after the reset — again has id 0 (heap cell 11): two distinct
type variables of the same run share an id, contradicting the claim.
(`allocated` records each `freshTypeVar` result as `(cell, id)` in
allocation order.) -/
theorem typevar_id_collision_counterexample :
    (0, 0) ∈ (typeCheckRun 0 progUsesMap).state.allocated ∧
    (11, 0) ∈ (typeCheckRun 0 progUsesMap).state.allocated ∧
    ((envLookup (typeCheckRun 0 progUsesMap).env "map").map
      TypeScheme.typeVars) = some [0, 1] ∧
    (typeCheckRun 0 progUsesMap).errors = [] := by
  refine ⟨by decide, by decide, rfl, rfl⟩

/-! ## Claim C5 : reserved-word binder renaming -/

/-- **C5 (code bug).**  `sanitizeIdentifier` renames reserved words with a
leading underscore and is applied at identifier *use* sites, but
`emitLetStatement` writes the binder name raw: `let class = 1` emits
`const class = 1;` (invalid JavaScript) while the use site emits `_class`,
so the emitted definition and its uses do not refer to the same name.  The
claim (and the spec's "applied uniformly at definition and use sites") is
the evident intent; the emitter's definition site misses the rewrite. -/
theorem reserved_binder_definition_not_sanitized :
    sanitizeIdentifier "class" = "_class" ∧
    emitExpr emitFuel (.ident "class" sp0) = "_class" ∧
    emitStatement 0 (.letStmt false "class" none (litInt 1) sp0)
      = "const class = 1;\n" ∧
    emitStatement 0 (.letStmt false "class" none (litInt 1) sp0)
      ≠ "const _class = 1;\n" ∧
    emitProgram progReservedBinder =
      runtimeHelpers ++ "const class = 1;\nconst y = _class;\n" := by
  refine ⟨rfl, rfl, rfl, by decide, rfl⟩

/-! ## Claim C6 : record unification -/

/-- **C6 (counterexample).**  The claim says a field present on one side
but absent from the other *closed* side is reported as `MISSING_FIELD`
(T008) *regardless of which of the two arguments carries the extra field*.
Unifying the closed empty record (first argument) with a closed record
carrying an extra field `x` (second argument) succeeds with no diagnostics:
the loop walks only the first argument's fields. -/
theorem record_unify_direction_counterexample :
    (unify unifyFuel (createRecordType [] false)
        (createRecordType [("x", TYPE_INT)] false) sp0 (initTCState 0)).1
      = true ∧
    (unify unifyFuel (createRecordType [] false)
        (createRecordType [("x", TYPE_INT)] false) sp0 (initTCState 0)).2.errors
      = [] :=
  ⟨rfl, rfl⟩

/-- **C6 (amended).**  Record unification is one-sided: the *first*
record's fields are unified with the matching fields of the second, and a
first-record field absent from a closed second record is reported as
`MISSING_FIELD` (T008); the second record's extra fields are never
examined, so a closed record type admits record types with additional
fields whenever it is the first argument. -/
theorem record_unify_one_sided
    (fuel : Nat) (name : String) (aType : Ty)
    (rest bFields : List (String × Ty)) (aOpen : Bool) (span : Span)
    (st : TCState) (hmiss : bFields.lookup name = none) :
    unify (fuel + 2) (createRecordType ((name, aType) :: rest) aOpen)
        (createRecordType bFields false) span st =
      (false, pushErr st (createError ErrorCodes.MISSING_FIELD
        ("Missing field: " ++ name) span)) ∧
    (∀ (bFields2 : List (String × Ty)) (bOpen : Bool),
      unify (fuel + 2) (createRecordType [] aOpen)
        (createRecordType bFields2 bOpen) span st = (true, st)) ∧
    (∀ (tb : Ty) (bFields3 : List (String × Ty)) (bOpen : Bool),
      bFields3.lookup name = some tb →
      unify (fuel + 2) (createRecordType [(name, aType)] aOpen)
        (createRecordType bFields3 bOpen) span st =
      (let r := unify fuel aType tb span st
       if r.1 then (true, r.2) else (false, r.2))) := by
  refine ⟨?_, ?_, ?_⟩
  · simp [unify, createRecordType, prune, pruneGo, unifyRecordFields, hmiss]
  · intro bFields2 bOpen
    simp [unify, createRecordType, prune, pruneGo, unifyRecordFields]
  · intro tb bFields3 bOpen hfound
    simp [unify, createRecordType, prune, pruneGo, unifyRecordFields, hfound]

/-- Witness for `record_unify_one_sided` at a concrete input. -/
theorem record_unify_one_sided_witness :
    ([] : List (String × Ty)).lookup "x" = none ∧
    unify unifyFuel (createRecordType [("x", TYPE_INT)] false)
        (createRecordType [] false) sp0 (initTCState 0) =
      (false, pushErr (initTCState 0) (createError ErrorCodes.MISSING_FIELD
        ("Missing field: " ++ "x") sp0)) :=
  ⟨rfl, (record_unify_one_sided 198 "x" TYPE_INT [] [] false sp0
    (initTCState 0) rfl).1⟩

/-! ## Claim C10 : unknown type names in annotations -/

theorem resolveTypeName_errors (name : String) (st : TCState) :
    (resolveTypeName name st).2.errors = st.errors := by
  unfold resolveTypeName freshTypeVar
  split_ifs <;> rfl

mutual

theorem typeExprToType_no_diag : ∀ (fuel : Nat) (te : TypeExpr) (st : TCState),
    (typeExprToType fuel te st).2.errors = st.errors
  | 0, _, st => rfl
  | fuel + 1, .typeIdent name _, st => by
      simp [typeExprToType, resolveTypeName_errors]
  | fuel + 1, .funcType ps rt _, st => by
      simp only [typeExprToType]
      rw [typeExprToType_no_diag fuel rt _, typeExprListToTypes_no_diag fuel ps st]
  | fuel + 1, .recordType fs _, st => by
      simp only [typeExprToType]
      rw [typeExprFieldsToTypes_no_diag fuel fs st]
  | fuel + 1, .listType et _, st => by
      simp only [typeExprToType]
      rw [typeExprToType_no_diag fuel et st]
  | fuel + 1, .genericType _ args _, st => by
      simp only [typeExprToType]
      rw [typeExprListToTypes_no_diag fuel args st]
  | fuel + 1, .parenType t _, st => by
      simp only [typeExprToType]
      rw [typeExprToType_no_diag fuel t st]

theorem typeExprListToTypes_no_diag : ∀ (fuel : Nat) (ts : List TypeExpr)
    (st : TCState), (typeExprListToTypes fuel ts st).2.errors = st.errors
  | _, [], st => by cases ‹Nat› <;> rfl
  | 0, _ :: _, st => rfl
  | fuel + 1, t :: rest, st => by
      simp only [typeExprListToTypes]
      rw [typeExprListToTypes_no_diag fuel rest _, typeExprToType_no_diag fuel t st]

theorem typeExprFieldsToTypes_no_diag : ∀ (fuel : Nat)
    (fs : List (String × TypeExpr)) (st : TCState),
    (typeExprFieldsToTypes fuel fs st).2.errors = st.errors
  | _, [], st => by cases ‹Nat› <;> rfl
  | 0, _ :: _, st => rfl
  | fuel + 1, (n, t) :: rest, st => by
      simp only [typeExprFieldsToTypes]
      rw [typeExprFieldsToTypes_no_diag fuel rest _, typeExprToType_no_diag fuel t st]

end

/-- **C10.**  A type annotation naming anything other than the six built-in
type names resolves to a fresh, unconstrained type variable;
no `UNDEFINED_TYPE` (T003) — indeed no diagnostic at all — is ever emitted
while resolving a type expression, and a let with a misspelled annotation
(`let x : Intt = 1`) checks with no errors, the unknown name imposing no
constraint (x still generalizes to `Int` from its value). -/
theorem unknown_type_annotation_fresh_var
    (name : String) (st : TCState)
    (h : ¬ name ∈ ["Int", "Float", "String", "Char", "Bool", "Unit"]) :
    resolveTypeName name st = freshTypeVar st ∧
    (resolveTypeName name st).1 = .tvar st.nextCell st.typeVarCounter ∧
    (∀ (fuel : Nat) (te : TypeExpr) (st2 : TCState),
      (typeExprToType fuel te st2).2.errors = st2.errors) ∧
    (typeCheckRun 0 progMisspelledAnnotation).errors = [] ∧
    ((envLookup (typeCheckRun 0 progMisspelledAnnotation).env "x").map
      (fun s => resolveTy tcFuel (typeCheckRun 0 progMisspelledAnnotation).state
        s.type)) = some (.tconst "Int") := by
  simp only [List.mem_cons, List.not_mem_nil, or_false, not_or] at h
  obtain ⟨h1, h2, h3, h4, h5, h6⟩ := h
  have hr : resolveTypeName name st = freshTypeVar st := by
    unfold resolveTypeName
    simp [beq_iff_eq, h1, h2, h3, h4, h5, h6]
  refine ⟨hr, ?_, typeExprToType_no_diag, rfl, rfl⟩
  rw [hr]
  rfl

/-- Witness for `unknown_type_annotation_fresh_var` at a concrete input. -/
theorem unknown_type_annotation_fresh_var_witness :
    ¬ "Intt" ∈ ["Int", "Float", "String", "Char", "Bool", "Unit"] ∧
    (resolveTypeName "Intt" (initTCState 0)).1 = .tvar 0 0 :=
  ⟨by decide,
   (unknown_type_annotation_fresh_var "Intt" (initTCState 0) (by decide)).2.1⟩

/-! ## Claim C7 : source order of top-level declarations -/

/-- A module with an erroring body (`module M { let v = w }`). -/
def modWithErr : ModuleDecl :=
  { name := "M", body := [.letStmt false "v" none (.ident "w" sp0) sp0],
    span := sp0 }

/-- An erroring top-level statement (`let u = q`). -/
def stmtWithErr : Stmt := .letStmt false "u" none (.ident "q" sp0) sp0

def modM : ModuleDecl := { name := "M", body := [], span := sp0 }

def stmtA : Stmt := .letStmt false "a" none (litInt 1) sp0

/-- **C7 (counterexample).**  With source order "statement `a`, then module
`M`", the emitted artifact contains `M` *before* `a` (the emitter walks all
modules, then all statements), not in source order as the claim states; and
with source order "module (whose body errors on `w`), then statement
(erroring on `q`)", inference reports the statement's diagnostic *first* —
it visits all top-level statements before any module. -/
theorem emit_order_counterexample :
    emitProgram (parseTopLevel [.stmtItem stmtA, .moduleItem modM]) ≠
      runtimeHelpers ++ emitStatement 0 stmtA ++ emitModule modM ∧
    emitProgram (parseTopLevel [.stmtItem stmtA, .moduleItem modM]) =
      runtimeHelpers ++ emitModule modM ++ emitStatement 0 stmtA ∧
    (typeCheckRun 0
        (parseTopLevel [.moduleItem modWithErr, .stmtItem stmtWithErr])).errors
      = [createError ErrorCodes.UNDEFINED_VARIABLE "Undefined variable: q" sp0,
         createError ErrorCodes.UNDEFINED_VARIABLE "Undefined variable: w" sp0] := by
  refine ⟨?_, rfl, rfl⟩
  intro hcontra
  have hd := congrArg String.data hcontra
  rw [String.data_append, String.data_append, List.append_assoc] at hd
  have h2 : (emitProgram (parseTopLevel
      [.stmtItem stmtA, .moduleItem modM])).data =
      runtimeHelpers.data ++
        ((emitModule modM).data ++ (emitStatement 0 stmtA).data) := by
    have h3 : emitProgram (parseTopLevel [.stmtItem stmtA, .moduleItem modM]) =
        runtimeHelpers ++ emitModule modM ++ emitStatement 0 stmtA := rfl
    rw [h3, String.data_append, String.data_append, List.append_assoc]
  rw [h2] at hd
  have hcancel := List.append_cancel_left hd
  have hstr : emitModule modM ++ emitStatement 0 stmtA =
      emitStatement 0 stmtA ++ emitModule modM := by
    apply String.ext
    rw [String.data_append, String.data_append]
    exact hcancel
  have hne : emitModule modM ++ emitStatement 0 stmtA ≠
      emitStatement 0 stmtA ++ emitModule modM := by decide
  exact hne hstr

theorem parseTopLevel_go (items : List TopItem) (p : Program) :
    (items.foldl
      (fun (p : Program) item =>
        match item with
        | .moduleItem m => { p with modules := p.modules ++ [m] }
        | .stmtItem s => { p with statements := p.statements ++ [s] }) p) =
    { modules := p.modules ++ items.filterMap TopItem.getModule,
      statements := p.statements ++ items.filterMap TopItem.getStmt } := by
  induction items generalizing p with
  | nil => simp
  | cons it rest ih =>
    cases it <;> simp [ih, TopItem.getModule, TopItem.getStmt]

/-- **C7 (amended).**  Relative source order is preserved *within each
category*: the parser appends modules and top-level statements to two
separate arrays in source order, and the emitted artifact is the runtime
prelude, then every module in source order, then every top-level statement
in source order.  Interleaved order across the two categories is not
preserved (all modules are emitted before all top-level statements, and
type inference visits all top-level statements before any module). -/
theorem emit_order_amended (items : List TopItem) :
    (parseTopLevel items).modules = items.filterMap TopItem.getModule ∧
    (parseTopLevel items).statements = items.filterMap TopItem.getStmt ∧
    emitProgram (parseTopLevel items) =
      runtimeHelpers ++
      String.join ((items.filterMap TopItem.getModule).map emitModule) ++
      String.join ((items.filterMap TopItem.getStmt).map (emitStatement 0)) := by
  have h := parseTopLevel_go items { modules := [], statements := [] }
  unfold parseTopLevel
  rw [h]
  simp [emitProgram]

/-! ## Claim C9 : determinism across successive invocations -/

structure ProgCompileResult where
  success : Bool
  code : Option String
  errors : List Diag
  warnings : List Diag
deriving DecidableEq, Repr

/-- `compile` on an already-parsed program (the lexer and parser keep no
state between invocations and are pure functions of the source; the only
module-global that survives an invocation is `typeVarCounter`, modelled by
`initialCounter`).  Returns the result together with the counter value the
run leaves behind for the next invocation. -/
def compileFromProgram (source : String) (filename : Option String)
    (initialCounter : Nat) (p : Program) : ProgCompileResult × Nat :=
  let tr := typeCheckRun initialCounter p
  let ew := attachSource source filename ([], []) tr.errors
  if ew.1.length > 0 then
    ({ success := false, code := none, errors := ew.1, warnings := ew.2 },
     tr.state.typeVarCounter)
  else
    ({ success := true, code := some (emitProgram p), errors := ew.1,
       warnings := ew.2 },
     tr.state.typeVarCounter)

set_option maxHeartbeats 1000000 in
/-- **C9 (two successive runs).**  Starting from a fresh process (counter
0), compiling the same program again — with the counter value the first
run left in the module-global (8 resp. 1) — produces a byte-identical
`code` string and identical `errors`/`warnings` vectors (same codes,
messages, severities, spans, in the same order) and the same `success`,
both for a clean program and for a program with a type diagnostic. -/
theorem compile_rerun_identical :
    (compileFromProgram "s" none 0 progPipelinePlaceholder).2 = 8 ∧
    ((compileFromProgram "s" none 0 progPipelinePlaceholder).1 =
      { success := true,
        code := some (runtimeHelpers ++
          "const nums = [1, 2, 3];\nconst d = __lw.pipe(nums, ((__p0) => map((x) => (x * 2), __p0)));\n"),
        errors := [], warnings := [] }) ∧
    ((compileFromProgram "s" none 8 progPipelinePlaceholder).1 =
      { success := true,
        code := some (runtimeHelpers ++
          "const nums = [1, 2, 3];\nconst d = __lw.pipe(nums, ((__p0) => map((x) => (x * 2), __p0)));\n"),
        errors := [], warnings := [] }) ∧
    (compileFromProgram "s" none 0 progUndefinedVar).2 = 1 ∧
    ((compileFromProgram "s" none 0 progUndefinedVar).1 =
      { success := false, code := none,
        errors := [{ createError ErrorCodes.UNDEFINED_VARIABLE
          "Undefined variable: y" sp0 with source := some "s" }],
        warnings := [] }) ∧
    ((compileFromProgram "s" none 1 progUndefinedVar).1 =
      { success := false, code := none,
        errors := [{ createError ErrorCodes.UNDEFINED_VARIABLE
          "Undefined variable: y" sp0 with source := some "s" }],
        warnings := [] }) := by
  exact ⟨rfl, rfl, rfl, rfl, rfl, rfl⟩

/-! ## Claim C2 : placeholder partial application -/

/-- (Spec-side, from the claim's wording.)  One fresh type variable per
placeholder argument, in order, allocation starting at cell `c`, id `i`. -/
def placeholderFreshVars : List (Expr × Ty) → Nat → Nat → List Ty
  | [], _, _ => []
  | (a, _) :: rest, c, i =>
    if isPlaceholderExpr a then
      .tvar c i :: placeholderFreshVars rest (c + 1) (i + 1)
    else placeholderFreshVars rest c i

/-- (Spec-side.)  The expected callee parameter list: the inferred type at
each filled position, the corresponding fresh variable at each placeholder
position. -/
def fillArgs : List (Expr × Ty) → Nat → Nat → List Ty
  | [], _, _ => []
  | (a, t) :: rest, c, i =>
    if isPlaceholderExpr a then
      .tvar c i :: fillArgs rest (c + 1) (i + 1)
    else t :: fillArgs rest c i

/-- `n` consecutive `freshTypeVar` allocations. -/
def allocN : Nat → TCState → TCState
  | 0, st => st
  | n + 1, st => allocN n (freshTypeVar st).2

/-- The elements of a list sitting at the placeholder positions of `args`. -/
def selectAtPlaceholders {α : Type} : List Expr → List α → List α
  | a :: as2, t :: ts =>
    if isPlaceholderExpr a then t :: selectAtPlaceholders as2 ts
    else selectAtPlaceholders as2 ts
  | _, _ => []

/-- The elements of a list sitting at the non-placeholder positions. -/
def selectAtFilled {α : Type} : List Expr → List α → List α
  | a :: as2, t :: ts =>
    if isPlaceholderExpr a then selectAtFilled as2 ts
    else t :: selectAtFilled as2 ts
  | _, _ => []

theorem placeholderLoop_eq_spec (pairs : List (Expr × Ty)) (st : TCState) :
    placeholderLoop pairs st =
      (placeholderFreshVars pairs st.nextCell st.typeVarCounter,
       fillArgs pairs st.nextCell st.typeVarCounter,
       allocN (pairs.countP (fun p => isPlaceholderExpr p.1)) st) := by
  induction pairs generalizing st with
  | nil =>
    simp [placeholderLoop, placeholderFreshVars, fillArgs, allocN]
  | cons p rest ih =>
    rcases p with ⟨a, t⟩
    by_cases h : isPlaceholderExpr a
    · simp [placeholderLoop, placeholderFreshVars, fillArgs, h, ih,
        List.countP_cons, freshTypeVar, allocN]
    · simp [placeholderLoop, placeholderFreshVars, fillArgs, h, ih,
        List.countP_cons]

theorem fillArgs_select (pairs : List (Expr × Ty)) (c i : Nat) :
    selectAtPlaceholders (pairs.map Prod.fst) (fillArgs pairs c i) =
      placeholderFreshVars pairs c i := by
  induction pairs generalizing c i with
  | nil => simp [selectAtPlaceholders, fillArgs, placeholderFreshVars]
  | cons p rest ih =>
    rcases p with ⟨a, t⟩
    by_cases h : isPlaceholderExpr a <;>
      simp [selectAtPlaceholders, fillArgs, placeholderFreshVars, h, ih]

theorem fillArgs_filled (pairs : List (Expr × Ty)) (c i : Nat) :
    selectAtFilled (pairs.map Prod.fst) (fillArgs pairs c i) =
      selectAtFilled (pairs.map Prod.fst) (pairs.map Prod.snd) := by
  induction pairs generalizing c i with
  | nil => simp [selectAtFilled, fillArgs]
  | cons p rest ih =>
    rcases p with ⟨a, t⟩
    by_cases h : isPlaceholderExpr a <;>
      simp [selectAtFilled, fillArgs, h, ih]

theorem fillArgs_length (pairs : List (Expr × Ty)) (c i : Nat) :
    (fillArgs pairs c i).length = pairs.length := by
  induction pairs generalizing c i with
  | nil => simp [fillArgs]
  | cons p rest ih =>
    rcases p with ⟨a, t⟩
    by_cases h : isPlaceholderExpr a <;> simp [fillArgs, h, ih]

theorem placeholderFreshVars_ids (pairs : List (Expr × Ty)) (c i : Nat) :
    (placeholderFreshVars pairs c i).map tvarId =
      List.range' i (pairs.countP (fun p => isPlaceholderExpr p.1)) := by
  induction pairs generalizing c i with
  | nil => simp [placeholderFreshVars]
  | cons p rest ih =>
    rcases p with ⟨a, t⟩
    by_cases h : isPlaceholderExpr a
    · simp [placeholderFreshVars, h, ih, List.countP_cons, tvarId,
        List.range'_succ]
    · simp [placeholderFreshVars, h, ih, List.countP_cons]

theorem placeholderFreshVars_nodup (pairs : List (Expr × Ty)) (c i : Nat) :
    (placeholderFreshVars pairs c i).Nodup := by
  have hids := placeholderFreshVars_ids pairs c i
  have hnd : ((placeholderFreshVars pairs c i).map tvarId).Nodup := by
    rw [hids]
    exact List.nodup_range' _ _
  exact hnd.of_map

theorem emitCallArgs_select (fuel : Nat) (args : List Expr) (k : Nat)
    (h : args.length ≤ fuel) :
    selectAtPlaceholders args (emitCallArgs fuel args k) =
      (List.range (args.countP isPlaceholderExpr)).map
        (fun i => "__p" ++ toString (k + i)) := by
  induction args generalizing fuel k with
  | nil => cases fuel <;> simp [emitCallArgs, selectAtPlaceholders]
  | cons a rest ih =>
    cases fuel with
    | zero => simp at h
    | succ f =>
      by_cases hp : isPlaceholderExpr a
      · simp only [emitCallArgs, hp, if_true, selectAtPlaceholders,
          List.countP_cons, hp]
        rw [ih f (k + 1) (by simpa using h)]
        simp [List.range_succ_eq_map, Function.comp, Nat.add_assoc,
          Nat.add_comm 1]
      · simp only [emitCallArgs, hp, if_false, selectAtPlaceholders,
          List.countP_cons]
        rw [ih f k (by simpa using h)]
        simp [hp]

theorem emitCallArgs_filled (fuel : Nat) (args : List Expr) (k : Nat) :
    selectAtFilled args (emitCallArgs fuel args k) =
      selectAtFilled args (emitExprList fuel args) := by
  induction args generalizing fuel k with
  | nil => cases fuel <;> simp [emitCallArgs, emitExprList]
  | cons a rest ih =>
    cases fuel with
    | zero => simp [emitCallArgs, emitExprList]
    | succ f =>
      by_cases hp : isPlaceholderExpr a <;>
        simp [emitCallArgs, emitExprList, hp, selectAtFilled, ih]

theorem countP_zip_fst {β : Type} (args : List Expr) (bs : List β)
    (hlen : args.length = bs.length) :
    (args.zip bs).countP (fun p => isPlaceholderExpr p.1) =
      args.countP isPlaceholderExpr := by
  induction args generalizing bs with
  | nil => simp
  | cons a rest ih =>
    cases bs with
    | nil => simp at hlen
    | cons b bs2 =>
      simp only [List.zip_cons_cons, List.countP_cons]
      rw [ih bs2 (by simpa using hlen)]

theorem inferExprList_length (fuel : Nat) (es : List Expr) (env : TypeEnv)
    (st : TCState) (h : es.length ≤ fuel) :
    (inferExprList fuel es env st).1.length = es.length := by
  induction es generalizing fuel st with
  | nil => cases fuel <;> simp [inferExprList]
  | cons e rest ih =>
    cases fuel with
    | zero => simp at h
    | succ f =>
      simp only [inferExprList, List.length_cons]
      rw [ih f _ (by simpa using h)]

/-- **C2.**  For a call with at least one placeholder argument:
* inference unifies the (pruned) callee type against a function type whose
  parameters are the inferred types of the filled arguments with a fresh
  variable at each placeholder position (`fillArgs`), and the call's result
  type is a function from exactly the placeholder variables, in order
  (`placeholderFreshVars`), to the same fresh result variable `ρ`;
* the fresh placeholder variables sit in the expected parameter list
  exactly at the placeholders' original argument indices, in order, carry
  consecutive fresh ids, and are pairwise distinct, while filled positions
  keep their inferred types;
* the emitter lowers the same call to a fresh closure
  `((__p0, …, __p(n-1)) => callee(…))` with one parameter per placeholder;
  in the emitted argument list, `__pj` sits exactly at the `j`-th
  placeholder's original index, and non-placeholder arguments are emitted
  exactly as they would be on their own, at their original positions. -/
theorem call_placeholder_partial_application
    (fuel : Nat) (callee : Expr) (args : List Expr) (span : Span)
    (env : TypeEnv) (st : TCState)
    (h : args.any isPlaceholderExpr = true) :
    (inferExpr (fuel + 2) (.call callee args span) env st =
      (let rc := inferExpr fuel callee env st
       let ra := inferExprList fuel args env rc.2
       let rret := freshTypeVar ra.2
       let pairs := args.zip ra.1
       (createFuncType
          (placeholderFreshVars pairs rret.2.nextCell rret.2.typeVarCounter)
          rret.1,
        (unify unifyFuel (prune rc.2 rc.1)
          (createFuncType
            (fillArgs pairs rret.2.nextCell rret.2.typeVarCounter) rret.1)
          span
          (allocN (pairs.countP (fun p => isPlaceholderExpr p.1)) rret.2)).2))) ∧
    (∀ (pairs : List (Expr × Ty)) (c i : Nat),
      selectAtPlaceholders (pairs.map Prod.fst) (fillArgs pairs c i) =
        placeholderFreshVars pairs c i ∧
      selectAtFilled (pairs.map Prod.fst) (fillArgs pairs c i) =
        selectAtFilled (pairs.map Prod.fst) (pairs.map Prod.snd) ∧
      (fillArgs pairs c i).length = pairs.length ∧
      (placeholderFreshVars pairs c i).map tvarId =
        List.range' i (pairs.countP (fun p => isPlaceholderExpr p.1)) ∧
      (placeholderFreshVars pairs c i).Nodup) ∧
    (args.length ≤ fuel →
      (args.zip (inferExprList fuel args env
          (inferExpr fuel callee env st).2).1).countP
          (fun p => isPlaceholderExpr p.1) =
        (args.filter isPlaceholderExpr).length) ∧
    (emitExpr (fuel + 2) (.call callee args span) =
      "((" ++ String.intercalate ", "
          ((List.range (args.filter isPlaceholderExpr).length).map
            (fun i => "__p" ++ toString i)) ++ ") => " ++
        emitExpr fuel callee ++ "(" ++
        String.intercalate ", " (emitCallArgs fuel args 0) ++ "))") ∧
    (args.length ≤ fuel →
      selectAtPlaceholders args (emitCallArgs fuel args 0) =
        (List.range (args.countP isPlaceholderExpr)).map
          (fun i => "__p" ++ toString i)) ∧
    (selectAtFilled args (emitCallArgs fuel args 0) =
      selectAtFilled args (emitExprList fuel args)) := by
  refine ⟨?_, ?_, ?_, ?_, ?_, ?_⟩
  · show inferCall (fuel + 1) callee args span env st = _
    simp only [inferCall, h, if_true]
    rw [placeholderLoop_eq_spec]
  · intro pairs c i
    exact ⟨fillArgs_select pairs c i, fillArgs_filled pairs c i,
      fillArgs_length pairs c i, placeholderFreshVars_ids pairs c i,
      placeholderFreshVars_nodup pairs c i⟩
  · intro hlen
    have hzl : (inferExprList fuel args env
        (inferExpr fuel callee env st).2).1.length = args.length :=
      inferExprList_length fuel args env _ hlen
    rw [countP_zip_fst args _ hzl.symm, List.countP_eq_length_filter]
  · show emitCallExpression (fuel + 1) callee args = _
    simp only [emitCallExpression, h, if_true]
  · intro hlen
    have := emitCallArgs_select fuel args 0 hlen
    simpa using this
  · exact emitCallArgs_filled fuel args 0

/-- Witness for `call_placeholder_partial_application` at `f(_, 2)`. -/
theorem call_placeholder_partial_application_witness :
    ([(.placeholder sp0 : Expr), litInt 2].any isPlaceholderExpr = true) ∧
    emitExpr 12 (.call (.ident "f" sp0) [.placeholder sp0, litInt 2] sp0) =
      "((__p0) => f(__p0, 2))" := by
  have h := call_placeholder_partial_application 10 (.ident "f" sp0)
    [.placeholder sp0, litInt 2] sp0 [] (initTCState 0) (by decide)
  exact ⟨by decide, h.2.2.2.1.trans (by rfl)⟩

/-! ## Claim C4 (amended) : allocation discipline of the counter

`Evolves st st2` captures how the checker's state moves forward: the
counter only grows, the ids recorded in the allocation trace extend by
exactly the counter's interval (so post-reset ids are consecutive), and
errors are append-only.  `NoAlloc st st2` is the special case of a
transition that allocates nothing. -/

def Evolves (st st2 : TCState) : Prop :=
  st.typeVarCounter ≤ st2.typeVarCounter ∧
  st2.allocated.map Prod.snd = st.allocated.map Prod.snd ++
    List.range' st.typeVarCounter (st2.typeVarCounter - st.typeVarCounter) ∧
  ∃ ds, st2.errors = st.errors ++ ds

def NoAlloc (st st2 : TCState) : Prop :=
  st2.typeVarCounter = st.typeVarCounter ∧
  st2.allocated = st.allocated ∧
  ∃ ds, st2.errors = st.errors ++ ds

theorem noAlloc_refl (st : TCState) : NoAlloc st st :=
  ⟨rfl, rfl, [], by simp⟩

theorem noAlloc_trans {st1 st2 st3 : TCState} (h1 : NoAlloc st1 st2)
    (h2 : NoAlloc st2 st3) : NoAlloc st1 st3 := by
  obtain ⟨hc1, ha1, ds1, he1⟩ := h1
  obtain ⟨hc2, ha2, ds2, he2⟩ := h2
  exact ⟨hc2.trans hc1, ha2.trans ha1, ds1 ++ ds2,
    by rw [he2, he1, List.append_assoc]⟩

theorem noAlloc_pushErr (st : TCState) (d : Diag) : NoAlloc st (pushErr st d) :=
  ⟨rfl, rfl, [d], rfl⟩

theorem noAlloc_instSet (st : TCState) (inst2 : List (Nat × Ty)) :
    NoAlloc st { st with inst := inst2 } :=
  ⟨rfl, rfl, [], by simp⟩

theorem evolves_refl (st : TCState) : Evolves st st := by
  refine ⟨le_refl _, ?_, [], by simp⟩
  simp

theorem noAlloc_evolves {st1 st2 : TCState} (h : NoAlloc st1 st2) :
    Evolves st1 st2 := by
  obtain ⟨hc, ha, ds, he⟩ := h
  refine ⟨le_of_eq hc.symm, ?_, ds, he⟩
  rw [ha, hc]
  simp

theorem evolves_trans {st1 st2 st3 : TCState} (h1 : Evolves st1 st2)
    (h2 : Evolves st2 st3) : Evolves st1 st3 := by
  obtain ⟨hc1, ha1, ds1, he1⟩ := h1
  obtain ⟨hc2, ha2, ds2, he2⟩ := h2
  refine ⟨hc1.trans hc2, ?_, ds1 ++ ds2,
    by rw [he2, he1, List.append_assoc]⟩
  rw [ha2, ha1, List.append_assoc]
  congr 1
  have hr : List.range' st1.typeVarCounter
      (st2.typeVarCounter - st1.typeVarCounter) ++
      List.range' st2.typeVarCounter
        (st3.typeVarCounter - st2.typeVarCounter) =
      List.range' st1.typeVarCounter
        (st3.typeVarCounter - st1.typeVarCounter) := by
    have := List.range'_append st1.typeVarCounter
      (st2.typeVarCounter - st1.typeVarCounter)
      (st3.typeVarCounter - st2.typeVarCounter) 1
    simp only [one_mul, Nat.add_sub_cancel' hc1] at this
    rw [this]
    congr 1
    omega
  exact hr

theorem evolves_fresh (st : TCState) : Evolves st (freshTypeVar st).2 := by
  refine ⟨by simp [freshTypeVar], ?_, [], by simp [freshTypeVar]⟩
  simp [freshTypeVar, List.range']

theorem noAlloc_evolves_trans {st1 st2 st3 : TCState} (h1 : Evolves st1 st2)
    (h2 : NoAlloc st2 st3) : Evolves st1 st3 :=
  evolves_trans h1 (noAlloc_evolves h2)

/- Unification never allocates: it only reads the instance table, extends it,
and pushes diagnostics. -/

mutual

theorem unify_noAlloc : ∀ (fuel : Nat) (a b : Ty) (span : Span)
    (st : TCState), NoAlloc st (unify fuel a b span st).2
  | 0, _, _, _, st => noAlloc_refl st
  | fuel + 1, a0, b0, span, st => by
    simp only [unify]
    repeat' split
    all_goals
      first
        | exact noAlloc_refl st
        | exact noAlloc_pushErr st _
        | exact noAlloc_instSet st _
        | exact unify_noAlloc fuel _ _ span st
        | exact unifyRecordFields_noAlloc fuel _ _ _ span st
        | exact unifyPairs_noAlloc fuel _ _ span st
        | exact noAlloc_trans (unifyPairs_noAlloc fuel _ _ span st)
            (unify_noAlloc fuel _ _ span _)

theorem unifyPairs_noAlloc : ∀ (fuel : Nat) (as2 bs : List Ty) (span : Span)
    (st : TCState), NoAlloc st (unifyPairs fuel as2 bs span st).2
  | fuel, [], _, _, st => by cases fuel <;> exact noAlloc_refl st
  | fuel, _ :: _, [], _, st => by cases fuel <;> exact noAlloc_refl st
  | 0, _ :: _, _ :: _, _, st => noAlloc_refl st
  | fuel + 1, a :: as2, b :: bs, span, st => by
    simp only [unifyPairs]
    split
    · exact noAlloc_trans (unify_noAlloc fuel a b span st)
        (unifyPairs_noAlloc fuel as2 bs span _)
    · exact unify_noAlloc fuel a b span st

theorem unifyRecordFields_noAlloc : ∀ (fuel : Nat)
    (aFields bFields : List (String × Ty)) (bOpen : Bool) (span : Span)
    (st : TCState), NoAlloc st (unifyRecordFields fuel aFields bFields bOpen span st).2
  | fuel, [], _, _, _, st => by cases fuel <;> exact noAlloc_refl st
  | 0, _ :: _, _, _, _, st => noAlloc_refl st
  | fuel + 1, (name, aType) :: rest, bFields, bOpen, span, st => by
    simp only [unifyRecordFields]
    split
    · split
      · exact noAlloc_trans (unify_noAlloc fuel _ _ span st)
          (unifyRecordFields_noAlloc fuel rest bFields bOpen span _)
      · exact unify_noAlloc fuel _ _ span st
    · split
      · exact noAlloc_pushErr st _
      · exact unifyRecordFields_noAlloc fuel rest bFields bOpen span st

end

/- `copyType` (hence `instantiate`) allocates fresh variables, but always at
the current counter. -/

mutual

theorem copyType_evolves : ∀ (fuel : Nat) (t : Ty) (m : List (Nat × Ty))
    (st : TCState), Evolves st (copyType fuel t m st).2.2
  | 0, _, _, st => evolves_refl st
  | fuel + 1, t, m, st => by
    simp only [copyType]
    repeat' split
    all_goals
      first
        | exact evolves_refl st
        | exact evolves_fresh st
        | exact copyType_evolves fuel _ m st
        | exact copyTypeList_evolves fuel _ m st
        | exact copyTypeFields_evolves fuel _ m st
        | exact evolves_trans (copyTypeList_evolves fuel _ m st)
            (copyType_evolves fuel _ _ _)

theorem copyTypeList_evolves : ∀ (fuel : Nat) (ts : List Ty)
    (m : List (Nat × Ty)) (st : TCState),
    Evolves st (copyTypeList fuel ts m st).2.2
  | fuel, [], _, st => by cases fuel <;> exact evolves_refl st
  | 0, _ :: _, _, st => evolves_refl st
  | fuel + 1, t :: rest, m, st => by
    simp only [copyTypeList]
    exact evolves_trans (copyType_evolves fuel t m st)
      (copyTypeList_evolves fuel rest _ _)

theorem copyTypeFields_evolves : ∀ (fuel : Nat) (fs : List (String × Ty))
    (m : List (Nat × Ty)) (st : TCState),
    Evolves st (copyTypeFields fuel fs m st).2.2
  | fuel, [], _, st => by cases fuel <;> exact evolves_refl st
  | 0, _ :: _, _, st => evolves_refl st
  | fuel + 1, (n, t) :: rest, m, st => by
    simp only [copyTypeFields]
    exact evolves_trans (copyType_evolves fuel t m st)
      (copyTypeFields_evolves fuel rest _ _)

end

theorem instantiate_fold_evolves : ∀ (ids : List Nat)
    (acc : List (Nat × Ty) × TCState),
    Evolves acc.2 (ids.foldl
      (fun (acc : List (Nat × Ty) × TCState) id =>
        let r := freshTypeVar acc.2
        (setAssoc acc.1 id r.1, r.2)) acc).2
  | [], acc => evolves_refl acc.2
  | id :: rest, acc => by
    rw [List.foldl_cons]
    exact evolves_trans (evolves_fresh acc.2)
      (instantiate_fold_evolves rest
        (setAssoc acc.1 id (freshTypeVar acc.2).1, (freshTypeVar acc.2).2))

theorem instantiate_evolves (scheme : TypeScheme) (st : TCState) :
    Evolves st (instantiate scheme st).2 := by
  simp only [instantiate]
  exact evolves_trans (instantiate_fold_evolves scheme.typeVars ([], st))
    (copyType_evolves tcFuel scheme.type _ _)

theorem resolveTypeName_evolves (name : String) (st : TCState) :
    Evolves st (resolveTypeName name st).2 := by
  unfold resolveTypeName
  split_ifs <;> first | exact evolves_refl st | exact evolves_fresh st

mutual

theorem typeExprToType_evolves : ∀ (fuel : Nat) (te : TypeExpr)
    (st : TCState), Evolves st (typeExprToType fuel te st).2
  | 0, _, st => evolves_refl st
  | fuel + 1, .typeIdent name _, st => by
      simp only [typeExprToType]
      exact resolveTypeName_evolves name st
  | fuel + 1, .funcType ps rt _, st => by
      simp only [typeExprToType]
      exact evolves_trans (typeExprListToTypes_evolves fuel ps st)
        (typeExprToType_evolves fuel rt _)
  | fuel + 1, .recordType fs _, st => by
      simp only [typeExprToType]
      exact typeExprFieldsToTypes_evolves fuel fs st
  | fuel + 1, .listType et _, st => by
      simp only [typeExprToType]
      exact typeExprToType_evolves fuel et st
  | fuel + 1, .genericType _ args _, st => by
      simp only [typeExprToType]
      exact typeExprListToTypes_evolves fuel args st
  | fuel + 1, .parenType t _, st => by
      simp only [typeExprToType]
      exact typeExprToType_evolves fuel t st

theorem typeExprListToTypes_evolves : ∀ (fuel : Nat) (ts : List TypeExpr)
    (st : TCState), Evolves st (typeExprListToTypes fuel ts st).2
  | fuel, [], st => by cases fuel <;> exact evolves_refl st
  | 0, _ :: _, st => evolves_refl st
  | fuel + 1, t :: rest, st => by
      simp only [typeExprListToTypes]
      exact evolves_trans (typeExprToType_evolves fuel t st)
        (typeExprListToTypes_evolves fuel rest _)

theorem typeExprFieldsToTypes_evolves : ∀ (fuel : Nat)
    (fs : List (String × TypeExpr)) (st : TCState),
    Evolves st (typeExprFieldsToTypes fuel fs st).2
  | fuel, [], st => by cases fuel <;> exact evolves_refl st
  | 0, _ :: _, st => evolves_refl st
  | fuel + 1, (n, t) :: rest, st => by
      simp only [typeExprFieldsToTypes]
      exact evolves_trans (typeExprToType_evolves fuel t st)
        (typeExprFieldsToTypes_evolves fuel rest _)

end

theorem placeholderLoop_evolves : ∀ (pairs : List (Expr × Ty)) (st : TCState),
    Evolves st (placeholderLoop pairs st).2.2
  | [], st => evolves_refl st
  | (a, t) :: rest, st => by
    simp only [placeholderLoop]
    split
    · exact evolves_trans (evolves_fresh st) (placeholderLoop_evolves rest _)
    · exact placeholderLoop_evolves rest st

theorem inferIdentifier_evolves (name : String) (span : Span) (env : TypeEnv)
    (st : TCState) : Evolves st (inferIdentifier name span env st).2 := by
  unfold inferIdentifier
  split <;>
    first
      | exact instantiate_evolves _ st
      | exact evolves_trans (noAlloc_evolves (noAlloc_pushErr st _))
          (evolves_fresh _)

theorem checkPattern_state (p : Pattern) (t : Ty) (env : TypeEnv)
    (st : TCState) : (checkPattern p t env st).2 = st := by
  cases p <;> rfl

theorem bindPattern_state (p : Pattern) (t : Ty) (env : TypeEnv)
    (st : TCState) : (bindPattern p t env st).2 = st :=
  checkPattern_state p t env st

theorem inferFuncParams_evolves : ∀ (ps : List Pattern) (env : TypeEnv)
    (st : TCState), Evolves st (inferFuncParams ps env st).2.2
  | [], _, st => evolves_refl st
  | p :: rest, env, st => by
    simp only [inferFuncParams]
    rw [bindPattern_state]
    exact evolves_trans (evolves_fresh st)
      (inferFuncParams_evolves rest _ _)

mutual

theorem inferExpr_evolves : ∀ (fuel : Nat) (e : Expr) (env : TypeEnv)
    (st : TCState), Evolves st (inferExpr fuel e env st).2
  | 0, _, _, st => evolves_refl st
  | fuel + 1, .lit _ _ _, _, st => by
      simp only [inferExpr]; exact evolves_refl st
  | fuel + 1, .ident name sp, env, st => by
      simp only [inferExpr]; exact inferIdentifier_evolves name sp env st
  | fuel + 1, .listE es sp, env, st => by
      simp only [inferExpr]; exact inferList_evolves fuel es sp env st
  | fuel + 1, .funcE ps b _, env, st => by
      simp only [inferExpr]; exact inferFunction_evolves fuel ps b env st
  | fuel + 1, .call c args sp, env, st => by
      simp only [inferExpr]; exact inferCall_evolves fuel c args sp env st
  | fuel + 1, .binary op l r sp, env, st => by
      simp only [inferExpr]; exact inferBinary_evolves fuel op l r sp env st
  | fuel + 1, .pipeline l r sp, env, st => by
      simp only [inferExpr]; exact inferPipeline_evolves fuel l r sp env st
  | fuel + 1, .placeholder _, _, st => by
      simp only [inferExpr]; exact evolves_fresh st

theorem inferExprList_evolves : ∀ (fuel : Nat) (es : List Expr)
    (env : TypeEnv) (st : TCState),
    Evolves st (inferExprList fuel es env st).2
  | fuel, [], _, st => by cases fuel <;> exact evolves_refl st
  | 0, _ :: _, _, st => evolves_refl st
  | fuel + 1, e :: rest, env, st => by
    simp only [inferExprList]
    exact evolves_trans (inferExpr_evolves fuel e env st)
      (inferExprList_evolves fuel rest env _)

theorem inferList_evolves : ∀ (fuel : Nat) (es : List Expr) (span : Span)
    (env : TypeEnv) (st : TCState),
    Evolves st (inferList fuel es span env st).2
  | fuel, [], _, _, st => by cases fuel <;> exact evolves_fresh st
  | 0, _ :: _, _, _, st => evolves_refl st
  | fuel + 1, e0 :: rest, _, env, st => by
    simp only [inferList]
    exact evolves_trans (inferExpr_evolves fuel e0 env st)
      (inferListRest_evolves fuel rest _ env _)

theorem inferListRest_evolves : ∀ (fuel : Nat) (es : List Expr) (t : Ty)
    (env : TypeEnv) (st : TCState),
    Evolves st (inferListRest fuel es t env st)
  | fuel, [], _, _, st => by cases fuel <;> exact evolves_refl st
  | 0, _ :: _, _, _, st => evolves_refl st
  | fuel + 1, e :: rest, t, env, st => by
    simp only [inferListRest]
    exact evolves_trans (evolves_trans (inferExpr_evolves fuel e env st)
      (noAlloc_evolves (unify_noAlloc unifyFuel _ _ _ _)))
      (inferListRest_evolves fuel rest t env _)

theorem inferFunction_evolves : ∀ (fuel : Nat) (ps : List Pattern) (b : Expr)
    (env : TypeEnv) (st : TCState),
    Evolves st (inferFunction fuel ps b env st).2
  | 0, _, _, _, st => evolves_refl st
  | fuel + 1, ps, b, env, st => by
    simp only [inferFunction]
    exact evolves_trans (inferFuncParams_evolves ps (envExtend env) st)
      (inferExpr_evolves fuel b _ _)

theorem inferCall_evolves : ∀ (fuel : Nat) (callee : Expr)
    (args : List Expr) (span : Span) (env : TypeEnv) (st : TCState),
    Evolves st (inferCall fuel callee args span env st).2
  | 0, _, _, _, _, st => evolves_refl st
  | fuel + 1, callee, args, span, env, st => by
    simp only [inferCall]
    split
    · exact evolves_trans (evolves_trans (evolves_trans (evolves_trans
        (inferExpr_evolves fuel callee env st)
        (inferExprList_evolves fuel args env _))
        (evolves_fresh _))
        (placeholderLoop_evolves _ _))
        (noAlloc_evolves (unify_noAlloc unifyFuel _ _ span _))
    · exact evolves_trans (evolves_trans (evolves_trans
        (inferExpr_evolves fuel callee env st)
        (inferExprList_evolves fuel args env _))
        (evolves_fresh _))
        (noAlloc_evolves (unify_noAlloc unifyFuel _ _ span _))

theorem inferBinary_evolves : ∀ (fuel : Nat) (op : String) (l r : Expr)
    (span : Span) (env : TypeEnv) (st : TCState),
    Evolves st (inferBinary fuel op l r span env st).2
  | 0, _, _, _, _, _, st => evolves_refl st
  | fuel + 1, op, l, r, span, env, st => by
    simp only [inferBinary]
    have h2 : Evolves st (inferExpr fuel r env (inferExpr fuel l env st).2).2 :=
      evolves_trans (inferExpr_evolves fuel l env st)
        (inferExpr_evolves fuel r env _)
    split_ifs
    · exact evolves_trans h2 (noAlloc_evolves (unify_noAlloc unifyFuel _ _ span _))
    · exact evolves_trans h2 (noAlloc_evolves (unify_noAlloc unifyFuel _ _ span _))
    · exact evolves_trans h2 (noAlloc_evolves (unify_noAlloc unifyFuel _ _ span _))
    · exact evolves_trans h2 (noAlloc_evolves (noAlloc_trans
        (unify_noAlloc unifyFuel _ _ _ _) (unify_noAlloc unifyFuel _ _ _ _)))
    · exact h2
    · exact evolves_trans h2 (evolves_fresh _)

theorem inferPipeline_evolves : ∀ (fuel : Nat) (l r : Expr) (span : Span)
    (env : TypeEnv) (st : TCState),
    Evolves st (inferPipeline fuel l r span env st).2
  | 0, _, _, _, _, st => evolves_refl st
  | fuel + 1, l, r, span, env, st => by
    simp only [inferPipeline]
    have h3 : Evolves st
        (freshTypeVar (inferExpr fuel r env (inferExpr fuel l env st).2).2).2 :=
      evolves_trans (evolves_trans (inferExpr_evolves fuel l env st)
        (inferExpr_evolves fuel r env _)) (evolves_fresh _)
    repeat' split
    all_goals
      exact evolves_trans h3
        (noAlloc_evolves (unify_noAlloc unifyFuel _ _ span _))

end

theorem checkLetStatement_evolves (name : String) (ann : Option TypeExpr)
    (value : Expr) (span : Span) (env : TypeEnv) (st : TCState) :
    Evolves st (checkLetStatement name ann value span env st).2 := by
  cases ann with
  | none => exact inferExpr_evolves inferFuel value env st
  | some te =>
    exact evolves_trans (evolves_trans (typeExprToType_evolves teFuel te st)
      (inferExpr_evolves inferFuel value env _))
      (noAlloc_evolves (unify_noAlloc unifyFuel _ _ span _))

theorem checkStatement_evolves (s : Stmt) (env : TypeEnv) (st : TCState) :
    Evolves st (checkStatement s env st).2 := by
  cases s with
  | letStmt p name ann value span =>
    exact checkLetStatement_evolves name ann value span env st
  | exprStmt e sp => exact inferExpr_evolves inferFuel e env st

theorem checkStatements_evolves : ∀ (ss : List Stmt) (env : TypeEnv)
    (st : TCState), Evolves st (checkStatements ss env st).2
  | [], _, st => evolves_refl st
  | s :: rest, env, st => by
    simp only [checkStatements]
    exact evolves_trans (checkStatement_evolves s env st)
      (checkStatements_evolves rest _ _)

theorem checkModule_evolves (m : ModuleDecl) (env : TypeEnv) (st : TCState) :
    Evolves st (checkModule m env st) :=
  checkStatements_evolves m.body (envExtend env) st

theorem checkModules_evolves : ∀ (ms : List ModuleDecl) (env : TypeEnv)
    (st : TCState), Evolves st (checkModules ms env st)
  | [], _, st => evolves_refl st
  | m :: rest, env, st => by
    simp only [checkModules]
    exact evolves_trans (checkModule_evolves m env st)
      (checkModules_evolves rest env _)

/- The constructor's eleven builtin-scheme allocations carry the ids
`c .. c+10` when the module-global counter starts at `c`. -/

theorem createGlobalEnv_allocated (c : Nat) :
    (createGlobalEnv (initTCState c)).2.allocated.map Prod.snd =
      List.range' c 11 := rfl

theorem createGlobalEnv_counter (c : Nat) :
    (createGlobalEnv (initTCState c)).2.typeVarCounter = c + 11 := rfl

/-- **C4 (amended).**  `check` resets the module-global `typeVarCounter` to 0
only after the `TypeChecker` constructor has already allocated the eleven
builtin-scheme variables with ids `c..c+10` (`c` the counter value at
construction).  Every variable allocated after the reset receives the then
current counter value, so on any program the ids of the post-reset
allocations are exactly the consecutive block `0..k-1` — pairwise distinct
among themselves, but free to collide with the builtin ids whenever `c < 11`
(the uniqueness the spec asserts holds only within a single segment,
not across the reset). -/
theorem typevar_reset_allocation_discipline (c : Nat) (p : Program) :
    ∃ k, (typeCheckRun c p).state.allocated.map Prod.snd =
        List.range' c 11 ++ List.range' 0 k ∧
      (((typeCheckRun c p).state.allocated.map Prod.snd).drop 11).Nodup ∧
      (resetTypeVarCounter (createGlobalEnv (initTCState c)).2).typeVarCounter
        = 0 := by
  simp only [typeCheckRun]
  set st0 := resetTypeVarCounter (createGlobalEnv (initTCState c)).2 with hst0
  set r := checkStatements p.statements (createGlobalEnv (initTCState c)).1 st0
    with hr
  set st2 := checkModules p.modules r.1 r.2 with hst2
  have h : Evolves st0 st2 :=
    evolves_trans (checkStatements_evolves _ _ _) (checkModules_evolves _ _ _)
  obtain ⟨hcle, ha, -⟩ := h
  have hall : st0.allocated.map Prod.snd = List.range' c 11 :=
    createGlobalEnv_allocated c
  have hcnt : st0.typeVarCounter = 0 := rfl
  rw [hall, hcnt, Nat.sub_zero] at ha
  refine ⟨st2.typeVarCounter, ha, ?_, rfl⟩
  rw [ha, List.drop_left' (by simp : (List.range' c 11).length = 11)]
  exact List.nodup_range' _ _

/-! ## Claim C9 (general) : independence from the module-global counter

The two runs being compared start with different counter values, so after
`check`'s reset they differ only in (a) the ids of the eleven builtin-scheme
variables sitting in the global environment and (b) the `allocated`
instrumentation trace, which no checker function reads.  `coreEq` relates
two states agreeing on everything the checker reads; `TyLive` says a type
mentions only post-constructor cells (`≥ 11`), so pruning it never consults
a builtin cell; `stLive` is the invariant making the builtin schemes inert:
the instance table binds only live cells, to live types. -/

def coreEq (st1 st2 : TCState) : Prop :=
  st1.typeVarCounter = st2.typeVarCounter ∧ st1.nextCell = st2.nextCell ∧
  st1.inst = st2.inst ∧ st1.errors = st2.errors

inductive TyLive : Ty → Prop where
  | tvar : ∀ cell id, 11 ≤ cell → TyLive (.tvar cell id)
  | tconst : ∀ n, TyLive (.tconst n)
  | tfunc : ∀ ps r, (∀ p ∈ ps, TyLive p) → TyLive r → TyLive (.tfunc ps r)
  | trecord : ∀ fs o, (∀ f ∈ fs, TyLive f.2) → TyLive (.trecord fs o)
  | tlist : ∀ e, TyLive e → TyLive (.tlist e)
  | tapp : ∀ n args, (∀ a ∈ args, TyLive a) → TyLive (.tapp n args)

def instLive (st : TCState) : Prop := ∀ p ∈ st.inst, 11 ≤ p.1 ∧ TyLive p.2

def stLive (st : TCState) : Prop := 11 ≤ st.nextCell ∧ instLive st

theorem TyLive.cell {cell id : Nat} (h : TyLive (.tvar cell id)) :
    11 ≤ cell := by cases h; assumption

theorem TyLive.funcParams {ps : List Ty} {r : Ty}
    (h : TyLive (.tfunc ps r)) : ∀ p ∈ ps, TyLive p := by cases h; assumption

theorem TyLive.funcRet {ps : List Ty} {r : Ty}
    (h : TyLive (.tfunc ps r)) : TyLive r := by cases h; assumption

theorem TyLive.recordFields {fs : List (String × Ty)} {o : Bool}
    (h : TyLive (.trecord fs o)) : ∀ f ∈ fs, TyLive f.2 := by
  cases h; assumption

theorem TyLive.listElem {e : Ty} (h : TyLive (.tlist e)) : TyLive e := by
  cases h; assumption

theorem TyLive.appArgs {n : String} {args : List Ty}
    (h : TyLive (.tapp n args)) : ∀ a ∈ args, TyLive a := by
  cases h; assumption

theorem coreEq_rfl (st : TCState) : coreEq st st := ⟨rfl, rfl, rfl, rfl⟩

theorem coreEq_fresh {st1 st2 : TCState} (h : coreEq st1 st2) :
    (freshTypeVar st1).1 = (freshTypeVar st2).1 ∧
    coreEq (freshTypeVar st1).2 (freshTypeVar st2).2 := by
  obtain ⟨h1, h2, h3, h4⟩ := h
  exact ⟨by simp [freshTypeVar, h1, h2],
    by simp [freshTypeVar, coreEq, h1, h2, h3, h4]⟩

theorem stLive_fresh {st : TCState} (h : stLive st) :
    stLive (freshTypeVar st).2 ∧ TyLive (freshTypeVar st).1 := by
  obtain ⟨hn, hi⟩ := h
  exact ⟨⟨by simp only [freshTypeVar]; omega, fun p hp => hi p hp⟩,
    TyLive.tvar _ _ hn⟩

theorem coreEq_pushErr {st1 st2 : TCState} (h : coreEq st1 st2) (d : Diag) :
    coreEq (pushErr st1 d) (pushErr st2 d) := by
  obtain ⟨h1, h2, h3, h4⟩ := h
  exact ⟨h1, h2, h3, by simp [pushErr, h4]⟩

theorem stLive_pushErr {st : TCState} (h : stLive st) (d : Diag) :
    stLive (pushErr st d) := ⟨h.1, fun p hp => h.2 p hp⟩

theorem lookup_small {l : List (Nat × Ty)}
    (h : ∀ p ∈ l, 11 ≤ p.1 ∧ TyLive p.2) {k : Nat} (hk : k < 11) :
    l.lookup k = none := by
  induction l with
  | nil => rfl
  | cons p rest ih =>
    have h1 := h p (List.mem_cons_self _ _)
    have hne : (k == p.1) = false := by
      simp only [beq_eq_false_iff_ne, ne_eq]
      omega
    simp only [List.lookup, hne]
    exact ih (fun q hq => h q (List.mem_cons_of_mem _ hq))

theorem lookup_mem {α β : Type} [BEq α] [LawfulBEq α] :
    ∀ (l : List (α × β)) (k : α) (v : β),
    l.lookup k = some v → (k, v) ∈ l
  | [], _, _, h => by simp [List.lookup] at h
  | (a, b) :: es, k, v, h => by
    cases hk : (k == a) with
    | true =>
      simp only [List.lookup, hk] at h
      have hka : k = a := eq_of_beq hk
      subst hka
      rw [Option.some.injEq] at h
      subst h
      exact List.mem_cons_self _ _
    | false =>
      simp only [List.lookup, hk] at h
      exact List.mem_cons_of_mem _ (lookup_mem es k v h)

theorem pruneGo_live : ∀ (fuel : Nat) (l : List (Nat × Ty)),
    (∀ p ∈ l, 11 ≤ p.1 ∧ TyLive p.2) → ∀ (t : Ty), TyLive t →
    TyLive (pruneGo fuel l t)
  | 0, _, _, _, ht => ht
  | fuel + 1, l, hl, t, ht => by
    cases t with
    | tvar cell id =>
      cases hc : l.lookup cell with
      | none => simp only [pruneGo, hc]; exact ht
      | some t2 =>
        simp only [pruneGo, hc]
        exact pruneGo_live fuel l hl t2 (hl _ (lookup_mem l cell t2 hc)).2
    | tconst n => exact ht
    | tfunc ps r => exact ht
    | trecord fs o => exact ht
    | tlist e => exact ht
    | tapp n args => exact ht

theorem prune_live {st : TCState} (h : instLive st) {t : Ty}
    (ht : TyLive t) : TyLive (prune st t) :=
  pruneGo_live _ _ h t ht

theorem setAssoc_live : ∀ (l : List (Nat × Ty)),
    (∀ p ∈ l, 11 ≤ p.1 ∧ TyLive p.2) → ∀ (k : Nat) (v : Ty),
    11 ≤ k → TyLive v → ∀ p ∈ setAssoc l k v, 11 ≤ p.1 ∧ TyLive p.2
  | [], _, k, v, hk, hv => by
    intro p hp
    simp only [setAssoc, List.mem_singleton] at hp
    subst hp
    exact ⟨hk, hv⟩
  | (k2, v2) :: rest, hl, k, v, hk, hv => by
    intro p hp
    simp only [setAssoc] at hp
    split at hp
    · rcases List.mem_cons.mp hp with h | h
      · subst h
        exact ⟨(hl (k2, v2) (List.mem_cons_self _ _)).1, hv⟩
      · exact hl p (List.mem_cons_of_mem _ h)
    · rcases List.mem_cons.mp hp with h | h
      · subst h
        exact hl (k2, v2) (List.mem_cons_self _ _)
      · exact setAssoc_live rest
          (fun q hq => hl q (List.mem_cons_of_mem _ hq)) k v hk hv p h

theorem prune_congr {st1 st2 : TCState} (h : st1.inst = st2.inst) (t : Ty) :
    prune st1 t = prune st2 t := by
  unfold prune
  rw [h]

theorem occursIn_congr {st1 st2 : TCState} (h : st1.inst = st2.inst) :
    ∀ (fuel : Nat) (id : Nat) (t : Ty),
    occursIn fuel st1 id t = occursIn fuel st2 id t
  | 0, _, _ => rfl
  | fuel + 1, id, t => by
    have hf : ∀ (u : Ty), occursIn fuel st1 id u = occursIn fuel st2 id u :=
      occursIn_congr h fuel id
    simp only [occursIn]
    rw [prune_congr h t]
    cases prune st2 t <;> simp only [hf]

theorem typeToString_congr {st1 st2 : TCState} (h : st1.inst = st2.inst) :
    ∀ (fuel : Nat) (t : Ty), typeToString fuel st1 t = typeToString fuel st2 t
  | 0, _ => rfl
  | fuel + 1, t => by
    have hf : ∀ (u : Ty), typeToString fuel st1 u = typeToString fuel st2 u :=
      typeToString_congr h fuel
    have hfun : typeToString fuel st1 = typeToString fuel st2 := funext hf
    simp only [typeToString]
    rw [prune_congr h t]
    cases prune st2 t <;> simp only [hf, hfun]

theorem freeTyVars_congr {st1 st2 : TCState} (h : st1.inst = st2.inst) :
    ∀ (fuel : Nat) (t : Ty) (acc : List Nat),
    freeTyVars fuel st1 t acc = freeTyVars fuel st2 t acc
  | 0, _, _ => rfl
  | fuel + 1, t, acc => by
    have hf : ∀ (u : Ty) (a : List Nat),
        freeTyVars fuel st1 u a = freeTyVars fuel st2 u a :=
      freeTyVars_congr h fuel
    have hfun : (fun (a : List Nat) (p : Ty) => freeTyVars fuel st1 p a) =
        (fun a p => freeTyVars fuel st2 p a) := by
      funext a p; exact hf p a
    have hfun2 : (fun (a : List Nat) (f : String × Ty) =>
        freeTyVars fuel st1 f.2 a) =
        (fun a f => freeTyVars fuel st2 f.2 a) := by
      funext a f; exact hf f.2 a
    simp only [freeTyVars]
    rw [prune_congr h t]
    cases prune st2 t <;> simp only [hf, hfun, hfun2]

/- Unification acts identically on core-equal states and preserves the
liveness invariant: it binds only cells of variables occurring in the (live)
types being unified. -/

mutual

theorem unify_R : ∀ (fuel : Nat) (a b : Ty) (span : Span) (st1 st2 : TCState),
    coreEq st1 st2 → stLive st1 → TyLive a → TyLive b →
    (unify fuel a b span st1).1 = (unify fuel a b span st2).1 ∧
    coreEq (unify fuel a b span st1).2 (unify fuel a b span st2).2 ∧
    stLive (unify fuel a b span st1).2
  | 0, _, _, _, _, _, hc, hl, _, _ => ⟨rfl, hc, hl⟩
  | fuel + 1, a0, b0, span, st1, st2, hc, hl, ha, hb => by
    obtain ⟨hcnt, hcell, hinst, herr⟩ := hc
    have hla : TyLive (prune st1 a0) := prune_live hl.2 ha
    have hlb : TyLive (prune st1 b0) := prune_live hl.2 hb
    simp only [unify]
    rw [← prune_congr hinst a0, ← prune_congr hinst b0]
    simp only [← occursIn_congr hinst, ← typeToString_congr hinst, ← hinst]
    set pa := prune st1 a0
    set pb := prune st1 b0
    clear_value pa pb
    split
    · -- left side prunes to a variable
      split_ifs
      · exact ⟨rfl, ⟨hcnt, hcell, hinst, herr⟩, hl⟩
      · exact ⟨rfl, coreEq_pushErr ⟨hcnt, hcell, hinst, herr⟩ _,
          stLive_pushErr hl _⟩
      · exact ⟨rfl, ⟨hcnt, hcell, rfl, herr⟩, hl.1,
          setAssoc_live _ hl.2 _ _ hla.cell hlb⟩
    · -- right side prunes to a variable: swap
      exact unify_R fuel _ _ span st1 st2 ⟨hcnt, hcell, hinst, herr⟩ hl hlb hla
    · -- constant vs constant
      split_ifs
      · exact ⟨rfl, coreEq_pushErr ⟨hcnt, hcell, hinst, herr⟩ _,
          stLive_pushErr hl _⟩
      · exact ⟨rfl, ⟨hcnt, hcell, hinst, herr⟩, hl⟩
    · -- function vs function
      split
      · exact ⟨rfl, coreEq_pushErr ⟨hcnt, hcell, hinst, herr⟩ _,
          stLive_pushErr hl _⟩
      · obtain ⟨hu1, hu2, hu3⟩ := unifyPairs_R fuel _ _ span st1 st2
          ⟨hcnt, hcell, hinst, herr⟩ hl hla.funcParams hlb.funcParams
        rw [← hu1]
        split
        · exact unify_R fuel _ _ span _ _ hu2 hu3 hla.funcRet hlb.funcRet
        · exact ⟨rfl, hu2, hu3⟩
    · -- record vs record
      exact unifyRecordFields_R fuel _ _ _ span st1 st2
        ⟨hcnt, hcell, hinst, herr⟩ hl hla.recordFields hlb.recordFields
    · -- list vs list
      exact unify_R fuel _ _ span st1 st2 ⟨hcnt, hcell, hinst, herr⟩ hl
        hla.listElem hlb.listElem
    · -- application vs application
      split_ifs
      · exact ⟨rfl, coreEq_pushErr ⟨hcnt, hcell, hinst, herr⟩ _,
          stLive_pushErr hl _⟩
      · exact ⟨rfl, ⟨hcnt, hcell, hinst, herr⟩, hl⟩
      · exact unifyPairs_R fuel _ _ span st1 st2
          ⟨hcnt, hcell, hinst, herr⟩ hl hla.appArgs hlb.appArgs
    all_goals
      exact ⟨rfl, coreEq_pushErr ⟨hcnt, hcell, hinst, herr⟩ _,
        stLive_pushErr hl _⟩

theorem unifyPairs_R : ∀ (fuel : Nat) (as2 bs : List Ty) (span : Span)
    (st1 st2 : TCState), coreEq st1 st2 → stLive st1 →
    (∀ t ∈ as2, TyLive t) → (∀ t ∈ bs, TyLive t) →
    (unifyPairs fuel as2 bs span st1).1 =
      (unifyPairs fuel as2 bs span st2).1 ∧
    coreEq (unifyPairs fuel as2 bs span st1).2
      (unifyPairs fuel as2 bs span st2).2 ∧
    stLive (unifyPairs fuel as2 bs span st1).2
  | fuel, [], _, _, st1, st2, hc, hl, _, _ => by
    cases fuel <;> exact ⟨rfl, hc, hl⟩
  | fuel, _ :: _, [], _, st1, st2, hc, hl, _, _ => by
    cases fuel <;> exact ⟨rfl, hc, hl⟩
  | 0, _ :: _, _ :: _, _, st1, st2, hc, hl, _, _ => ⟨rfl, hc, hl⟩
  | fuel + 1, a :: as2, b :: bs, span, st1, st2, hc, hl, hAs, hBs => by
    simp only [unifyPairs]
    obtain ⟨h1, h2, h3⟩ := unify_R fuel a b span st1 st2 hc hl
      (hAs a (List.mem_cons_self _ _)) (hBs b (List.mem_cons_self _ _))
    rw [← h1]
    split
    · exact unifyPairs_R fuel as2 bs span _ _ h2 h3
        (fun t ht => hAs t (List.mem_cons_of_mem _ ht))
        (fun t ht => hBs t (List.mem_cons_of_mem _ ht))
    · exact ⟨rfl, h2, h3⟩

theorem unifyRecordFields_R : ∀ (fuel : Nat)
    (aFields bFields : List (String × Ty)) (bOpen : Bool) (span : Span)
    (st1 st2 : TCState), coreEq st1 st2 → stLive st1 →
    (∀ f ∈ aFields, TyLive f.2) → (∀ f ∈ bFields, TyLive f.2) →
    (unifyRecordFields fuel aFields bFields bOpen span st1).1 =
      (unifyRecordFields fuel aFields bFields bOpen span st2).1 ∧
    coreEq (unifyRecordFields fuel aFields bFields bOpen span st1).2
      (unifyRecordFields fuel aFields bFields bOpen span st2).2 ∧
    stLive (unifyRecordFields fuel aFields bFields bOpen span st1).2
  | fuel, [], _, _, _, st1, st2, hc, hl, _, _ => by
    cases fuel <;> exact ⟨rfl, hc, hl⟩
  | 0, _ :: _, _, _, _, st1, st2, hc, hl, _, _ => ⟨rfl, hc, hl⟩
  | fuel + 1, (name, aType) :: rest, bFields, bOpen, span, st1, st2, hc, hl,
      hAs, hBs => by
    simp only [unifyRecordFields]
    cases hlk : bFields.lookup name with
    | some bType =>
      simp only [hlk]
      obtain ⟨h1, h2, h3⟩ := unify_R fuel aType bType span st1 st2 hc hl
        (hAs (name, aType) (List.mem_cons_self _ _))
        (hBs _ (lookup_mem bFields name bType hlk))
      rw [← h1]
      split
      · exact unifyRecordFields_R fuel rest bFields bOpen span _ _ h2 h3
          (fun f hf => hAs f (List.mem_cons_of_mem _ hf)) hBs
      · exact ⟨rfl, h2, h3⟩
    | none =>
      simp only [hlk]
      split
      · exact ⟨rfl, coreEq_pushErr hc _, stLive_pushErr hl _⟩
      · exact unifyRecordFields_R fuel rest bFields bOpen span st1 st2 hc hl
          (fun f hf => hAs f (List.mem_cons_of_mem _ hf)) hBs

end

/- `copyType` (the engine of `instantiate`) acts identically on core-equal
states, produces live types, and keeps the mapping's values live. -/

theorem setAssoc_values_live {l : List (Nat × Ty)}
    (hl : ∀ p ∈ l, TyLive p.2) {k : Nat} {v : Ty} (hv : TyLive v) :
    ∀ p ∈ setAssoc l k v, TyLive p.2 := by
  induction l with
  | nil =>
    intro p hp
    simp only [setAssoc, List.mem_singleton] at hp
    subst hp
    exact hv
  | cons q rest ih =>
    intro p hp
    obtain ⟨k2, v2⟩ := q
    simp only [setAssoc] at hp
    split at hp
    · rcases List.mem_cons.mp hp with h | h
      · subst h; exact hv
      · exact hl p (List.mem_cons_of_mem _ h)
    · rcases List.mem_cons.mp hp with h | h
      · subst h; exact hl (k2, v2) (List.mem_cons_self _ _)
      · exact ih (fun q hq => hl q (List.mem_cons_of_mem _ hq)) p h

mutual

theorem copyType_R : ∀ (fuel : Nat) (t : Ty) (m : List (Nat × Ty))
    (st1 st2 : TCState), coreEq st1 st2 → stLive st1 → TyLive t →
    (∀ p ∈ m, TyLive p.2) →
    (copyType fuel t m st1).1 = (copyType fuel t m st2).1 ∧
    (copyType fuel t m st1).2.1 = (copyType fuel t m st2).2.1 ∧
    coreEq (copyType fuel t m st1).2.2 (copyType fuel t m st2).2.2 ∧
    stLive (copyType fuel t m st1).2.2 ∧
    TyLive (copyType fuel t m st1).1 ∧
    (∀ p ∈ (copyType fuel t m st1).2.1, TyLive p.2)
  | 0, _, _, _, _, hc, hl, ht, hm => ⟨rfl, rfl, hc, hl, ht, hm⟩
  | fuel + 1, t, m, st1, st2, hc, hl, ht, hm => by
    obtain ⟨hcnt, hcell, hinst, herr⟩ := hc
    have hlt : TyLive (prune st1 t) := prune_live hl.2 ht
    simp only [copyType]
    rw [← prune_congr hinst t]
    set pt := prune st1 t
    clear_value pt
    split
    · -- variable: copy from the mapping or allocate
      rename_i vid
      cases hlk : m.lookup vid with
      | some copy =>
        simp only [hlk]
        exact ⟨trivial, trivial, ⟨hcnt, hcell, hinst, herr⟩, hl,
          hm _ (lookup_mem m vid copy hlk), hm⟩
      | none =>
        simp only [hlk]
        refine ⟨(coreEq_fresh ⟨hcnt, hcell, hinst, herr⟩).1, ?_,
          (coreEq_fresh ⟨hcnt, hcell, hinst, herr⟩).2,
          (stLive_fresh hl).1, (stLive_fresh hl).2, ?_⟩
        · rw [(coreEq_fresh ⟨hcnt, hcell, hinst, herr⟩).1]
        · intro p hp
          rcases List.mem_append.mp hp with h | h
          · exact hm p h
          · rw [List.mem_singleton] at h
            subst h
            exact (stLive_fresh hl).2
    · -- constant
      exact ⟨rfl, rfl, ⟨hcnt, hcell, hinst, herr⟩, hl, TyLive.tconst _, hm⟩
    · -- function
      obtain ⟨he1, he2, he3, he4, he5, he6⟩ := copyTypeList_R fuel _ m st1 st2
        ⟨hcnt, hcell, hinst, herr⟩ hl hlt.funcParams hm
      rw [← he1, ← he2]
      obtain ⟨hf1, hf2, hf3, hf4, hf5, hf6⟩ := copyType_R fuel _ _ _ _
        he3 he4 hlt.funcRet he6
      rw [← hf1, ← hf2]
      exact ⟨rfl, rfl, hf3, hf4, TyLive.tfunc _ _ he5 hf5, hf6⟩
    · -- record
      obtain ⟨he1, he2, he3, he4, he5, he6⟩ := copyTypeFields_R fuel _ m st1
        st2 ⟨hcnt, hcell, hinst, herr⟩ hl hlt.recordFields hm
      rw [← he1, ← he2]
      exact ⟨rfl, rfl, he3, he4, TyLive.trecord _ _ he5, he6⟩
    · -- list
      obtain ⟨he1, he2, he3, he4, he5, he6⟩ := copyType_R fuel _ m st1 st2
        ⟨hcnt, hcell, hinst, herr⟩ hl hlt.listElem hm
      rw [← he1, ← he2]
      exact ⟨rfl, rfl, he3, he4, TyLive.tlist _ he5, he6⟩
    · -- application
      obtain ⟨he1, he2, he3, he4, he5, he6⟩ := copyTypeList_R fuel _ m st1 st2
        ⟨hcnt, hcell, hinst, herr⟩ hl hlt.appArgs hm
      rw [← he1, ← he2]
      exact ⟨rfl, rfl, he3, he4, TyLive.tapp _ _ he5, he6⟩

theorem copyTypeList_R : ∀ (fuel : Nat) (ts : List Ty) (m : List (Nat × Ty))
    (st1 st2 : TCState), coreEq st1 st2 → stLive st1 →
    (∀ u ∈ ts, TyLive u) → (∀ p ∈ m, TyLive p.2) →
    (copyTypeList fuel ts m st1).1 = (copyTypeList fuel ts m st2).1 ∧
    (copyTypeList fuel ts m st1).2.1 = (copyTypeList fuel ts m st2).2.1 ∧
    coreEq (copyTypeList fuel ts m st1).2.2
      (copyTypeList fuel ts m st2).2.2 ∧
    stLive (copyTypeList fuel ts m st1).2.2 ∧
    (∀ u ∈ (copyTypeList fuel ts m st1).1, TyLive u) ∧
    (∀ p ∈ (copyTypeList fuel ts m st1).2.1, TyLive p.2)
  | fuel, [], _, st1, st2, hc, hl, _, hm => by
    cases fuel <;>
      exact ⟨rfl, rfl, hc, hl, fun u hu => absurd hu (List.not_mem_nil u), hm⟩
  | 0, t :: rest, _, st1, st2, hc, hl, hts, hm =>
    ⟨rfl, rfl, hc, hl, hts, hm⟩
  | fuel + 1, t :: rest, m, st1, st2, hc, hl, hts, hm => by
    simp only [copyTypeList]
    obtain ⟨he1, he2, he3, he4, he5, he6⟩ := copyType_R fuel t m st1 st2 hc hl
      (hts t (List.mem_cons_self _ _)) hm
    rw [← he1, ← he2]
    obtain ⟨hf1, hf2, hf3, hf4, hf5, hf6⟩ := copyTypeList_R fuel rest _ _ _
      he3 he4 (fun u hu => hts u (List.mem_cons_of_mem _ hu)) he6
    rw [← hf1, ← hf2]
    refine ⟨rfl, rfl, hf3, hf4, ?_, hf6⟩
    intro u hu
    rcases List.mem_cons.mp hu with h | h
    · subst h; exact he5
    · exact hf5 u h

theorem copyTypeFields_R : ∀ (fuel : Nat) (fs : List (String × Ty))
    (m : List (Nat × Ty)) (st1 st2 : TCState), coreEq st1 st2 → stLive st1 →
    (∀ f ∈ fs, TyLive f.2) → (∀ p ∈ m, TyLive p.2) →
    (copyTypeFields fuel fs m st1).1 = (copyTypeFields fuel fs m st2).1 ∧
    (copyTypeFields fuel fs m st1).2.1 =
      (copyTypeFields fuel fs m st2).2.1 ∧
    coreEq (copyTypeFields fuel fs m st1).2.2
      (copyTypeFields fuel fs m st2).2.2 ∧
    stLive (copyTypeFields fuel fs m st1).2.2 ∧
    (∀ f ∈ (copyTypeFields fuel fs m st1).1, TyLive f.2) ∧
    (∀ p ∈ (copyTypeFields fuel fs m st1).2.1, TyLive p.2)
  | fuel, [], _, st1, st2, hc, hl, _, hm => by
    cases fuel <;>
      exact ⟨rfl, rfl, hc, hl, fun u hu => absurd hu (List.not_mem_nil u), hm⟩
  | 0, f :: rest, _, st1, st2, hc, hl, hfs, hm =>
    ⟨rfl, rfl, hc, hl, hfs, hm⟩
  | fuel + 1, (n, t) :: rest, m, st1, st2, hc, hl, hfs, hm => by
    simp only [copyTypeFields]
    obtain ⟨he1, he2, he3, he4, he5, he6⟩ := copyType_R fuel t m st1 st2 hc hl
      (hfs (n, t) (List.mem_cons_self _ _)) hm
    rw [← he1, ← he2]
    obtain ⟨hf1, hf2, hf3, hf4, hf5, hf6⟩ := copyTypeFields_R fuel rest _ _ _
      he3 he4 (fun f hf => hfs f (List.mem_cons_of_mem _ hf)) he6
    rw [← hf1, ← hf2]
    refine ⟨rfl, rfl, hf3, hf4, ?_, hf6⟩
    intro f hf
    rcases List.mem_cons.mp hf with h | h
    · subst h; exact he5
    · exact hf5 f h

end

theorem instantiate_fold_R : ∀ (ids : List Nat) (m1 m2 : List (Nat × Ty))
    (st1 st2 : TCState), m1 = m2 → coreEq st1 st2 → stLive st1 →
    (∀ p ∈ m1, TyLive p.2) →
    (ids.foldl (fun (acc : List (Nat × Ty) × TCState) id =>
        let r := freshTypeVar acc.2
        (setAssoc acc.1 id r.1, r.2)) (m1, st1)).1 =
      (ids.foldl (fun acc id =>
        let r := freshTypeVar acc.2
        (setAssoc acc.1 id r.1, r.2)) (m2, st2)).1 ∧
    coreEq (ids.foldl (fun acc id =>
        let r := freshTypeVar acc.2
        (setAssoc acc.1 id r.1, r.2)) (m1, st1)).2
      (ids.foldl (fun acc id =>
        let r := freshTypeVar acc.2
        (setAssoc acc.1 id r.1, r.2)) (m2, st2)).2 ∧
    stLive (ids.foldl (fun acc id =>
        let r := freshTypeVar acc.2
        (setAssoc acc.1 id r.1, r.2)) (m1, st1)).2 ∧
    (∀ p ∈ (ids.foldl (fun acc id =>
        let r := freshTypeVar acc.2
        (setAssoc acc.1 id r.1, r.2)) (m1, st1)).1, TyLive p.2)
  | [], m1, m2, st1, st2, hm12, hc, hl, hm => by
    subst hm12
    exact ⟨rfl, hc, hl, hm⟩
  | id :: rest, m1, m2, st1, st2, hm12, hc, hl, hm => by
    rw [List.foldl_cons, List.foldl_cons]
    exact instantiate_fold_R rest _ _ _ _
      (by rw [hm12, (coreEq_fresh hc).1]) (coreEq_fresh hc).2
      (stLive_fresh hl).1 (setAssoc_values_live hm (stLive_fresh hl).2)

theorem instantiate_R_eq (s : TypeScheme) {st1 st2 : TCState}
    (hc : coreEq st1 st2) (hl : stLive st1) (ht : TyLive s.type) :
    (instantiate s st1).1 = (instantiate s st2).1 ∧
    coreEq (instantiate s st1).2 (instantiate s st2).2 ∧
    stLive (instantiate s st1).2 ∧ TyLive (instantiate s st1).1 := by
  simp only [instantiate]
  obtain ⟨h1, h2, h3, h4⟩ := instantiate_fold_R s.typeVars [] [] st1 st2 rfl
    hc hl (fun p hp => absurd hp (List.not_mem_nil p))
  rw [← h1]
  obtain ⟨hc1, hc2, hc3, hc4, hc5, hc6⟩ := copyType_R tcFuel s.type _ _ _
    h2 h3 ht h4
  rw [← hc1]
  exact ⟨rfl, hc3, hc4, hc5⟩

/- Pruning reduces on each head shape (a non-variable is returned as-is; a
variable whose cell is below 11 is unbound whenever the instance table is
live). -/

theorem prune_small {st : TCState} (h : instLive st) {cell id : Nat}
    (hc : cell < 11) : prune st (.tvar cell id) = .tvar cell id := by
  unfold prune
  simp only [pruneGo, lookup_small h hc]

theorem prune_tconst (st : TCState) (n : String) :
    prune st (.tconst n) = .tconst n := by
  unfold prune; simp only [pruneGo]

theorem prune_tfunc (st : TCState) (ps : List Ty) (r : Ty) :
    prune st (.tfunc ps r) = .tfunc ps r := by
  unfold prune; simp only [pruneGo]

theorem prune_trecord (st : TCState) (fs : List (String × Ty)) (o : Bool) :
    prune st (.trecord fs o) = .trecord fs o := by
  unfold prune; simp only [pruneGo]

theorem prune_tlist (st : TCState) (e : Ty) :
    prune st (.tlist e) = .tlist e := by
  unfold prune; simp only [pruneGo]

theorem prune_tapp (st : TCState) (n : String) (args : List Ty) :
    prune st (.tapp n args) = .tapp n args := by
  unfold prune; simp only [pruneGo]

/- The ten builtin schemes `createGlobalEnv` installs, as functions of the
counter value `c` at construction (cells are allocation order, 0..10). -/

def mapSchemeAt (c : Nat) : TypeScheme :=
  createScheme [c, c + 1]
    (createFuncType [createFuncType [.tvar 0 c] (.tvar 1 (c + 1)),
      createListType (.tvar 0 c)] (createListType (.tvar 1 (c + 1))))

def filterSchemeAt (c : Nat) : TypeScheme :=
  createScheme [c + 2]
    (createFuncType [createFuncType [.tvar 2 (c + 2)] TYPE_BOOL,
      createListType (.tvar 2 (c + 2))] (createListType (.tvar 2 (c + 2))))

def foldSchemeAt (c : Nat) : TypeScheme :=
  createScheme [c + 3, c + 4]
    (createFuncType [createFuncType [.tvar 4 (c + 4), .tvar 3 (c + 3)]
        (.tvar 4 (c + 4)), .tvar 4 (c + 4), createListType (.tvar 3 (c + 3))]
      (.tvar 4 (c + 4)))

def sumScheme : TypeScheme :=
  createScheme [] (createFuncType [createListType TYPE_INT] TYPE_INT)

def lengthSchemeAt (c : Nat) : TypeScheme :=
  createScheme [c + 5]
    (createFuncType [createListType (.tvar 5 (c + 5))] TYPE_INT)

def showSchemeAt (c : Nat) : TypeScheme :=
  createScheme [c + 6] (createFuncType [.tvar 6 (c + 6)] TYPE_STRING)

def identitySchemeAt (c : Nat) : TypeScheme :=
  createScheme [c + 7] (createFuncType [.tvar 7 (c + 7)] (.tvar 7 (c + 7)))

def headSchemeAt (c : Nat) : TypeScheme :=
  createScheme [c + 8]
    (createFuncType [createListType (.tvar 8 (c + 8))]
      (createTypeApp "Option" [.tvar 8 (c + 8)]))

def tailSchemeAt (c : Nat) : TypeScheme :=
  createScheme [c + 9]
    (createFuncType [createListType (.tvar 9 (c + 9))]
      (createTypeApp "Option" [createListType (.tvar 9 (c + 9))]))

def tapSchemeAt (c : Nat) : TypeScheme :=
  createScheme [c + 10]
    (createFuncType [createFuncType [.tvar 10 (c + 10)] TYPE_UNIT,
      .tvar 10 (c + 10)] (.tvar 10 (c + 10)))

def globalEnvAt (c : Nat) : TypeEnv :=
  [[("tap", tapSchemeAt c), ("tail", tailSchemeAt c),
    ("head", headSchemeAt c), ("identity", identitySchemeAt c),
    ("show", showSchemeAt c), ("length", lengthSchemeAt c),
    ("sum", sumScheme), ("fold", foldSchemeAt c),
    ("filter", filterSchemeAt c), ("map", mapSchemeAt c)]]

theorem createGlobalEnv_env (c : Nat) :
    (createGlobalEnv (initTCState c)).1 = globalEnvAt c := rfl

/- `instantiate` on each builtin scheme, in closed form: the result mentions
only the fresh variables (independent of the scheme's own ids) and the state
advances by one `freshTypeVar` per quantified variable.  The instance table
must be live so that the builtin cells prune to themselves. -/

set_option maxHeartbeats 1000000 in
theorem instantiate_mapSchemeAt (c : Nat) (st : TCState) (h : instLive st) :
    instantiate (mapSchemeAt c) st =
      (.tfunc [.tfunc [.tvar st.nextCell st.typeVarCounter]
          (.tvar (st.nextCell + 1) (st.typeVarCounter + 1)),
        .tlist (.tvar st.nextCell st.typeVarCounter)]
        (.tlist (.tvar (st.nextCell + 1) (st.typeVarCounter + 1))),
       (freshTypeVar (freshTypeVar st).2).2) := by
  have hcc : (c == c + 1) = false := by rw [beq_eq_false_iff_ne]; omega
  have hcc2 : (c + 1 == c) = false := by rw [beq_eq_false_iff_ne]; omega
  have h2 : instLive (freshTypeVar (freshTypeVar st).2).2 :=
    fun p hp => h p hp
  have hp0 : ∀ id2, prune (freshTypeVar (freshTypeVar st).2).2
      (.tvar 0 id2) = .tvar 0 id2 := fun id2 => prune_small h2 (by omega)
  have hp1 : ∀ id2, prune (freshTypeVar (freshTypeVar st).2).2
      (.tvar 1 id2) = .tvar 1 id2 := fun id2 => prune_small h2 (by omega)
  simp only [instantiate, mapSchemeAt, createScheme, List.foldl_cons,
    List.foldl_nil, tcFuel, setAssoc, hcc, Bool.false_eq_true, if_false,
    beq_self_eq_true, if_true]
  simp only [copyType, copyTypeList, hp0, hp1, prune_tconst, prune_tfunc,
    prune_tlist, prune_tapp, createFuncType, createListType, List.lookup,
    beq_self_eq_true, hcc, hcc2]
  rfl

set_option maxHeartbeats 1000000 in
theorem instantiate_filterSchemeAt (c : Nat) (st : TCState)
    (h : instLive st) :
    instantiate (filterSchemeAt c) st =
      (.tfunc [.tfunc [.tvar st.nextCell st.typeVarCounter]
          (.tconst "Bool"), .tlist (.tvar st.nextCell st.typeVarCounter)]
        (.tlist (.tvar st.nextCell st.typeVarCounter)),
       (freshTypeVar st).2) := by
  have h2 : instLive (freshTypeVar st).2 := fun p hp => h p hp
  have hp2 : ∀ id2, prune (freshTypeVar st).2 (.tvar 2 id2) = .tvar 2 id2 :=
    fun id2 => prune_small h2 (by omega)
  simp only [instantiate, filterSchemeAt, createScheme, List.foldl_cons,
    List.foldl_nil, tcFuel, setAssoc]
  simp only [copyType, copyTypeList, hp2, prune_tconst, prune_tfunc,
    prune_tlist, prune_tapp, createFuncType, createListType, TYPE_BOOL,
    List.lookup, beq_self_eq_true]
  rfl

set_option maxHeartbeats 1000000 in
theorem instantiate_foldSchemeAt (c : Nat) (st : TCState) (h : instLive st) :
    instantiate (foldSchemeAt c) st =
      (.tfunc [.tfunc [.tvar (st.nextCell + 1) (st.typeVarCounter + 1),
          .tvar st.nextCell st.typeVarCounter]
          (.tvar (st.nextCell + 1) (st.typeVarCounter + 1)),
        .tvar (st.nextCell + 1) (st.typeVarCounter + 1),
        .tlist (.tvar st.nextCell st.typeVarCounter)]
        (.tvar (st.nextCell + 1) (st.typeVarCounter + 1)),
       (freshTypeVar (freshTypeVar st).2).2) := by
  have hcc : (c + 3 == c + 4) = false := by rw [beq_eq_false_iff_ne]; omega
  have hcc2 : (c + 4 == c + 3) = false := by rw [beq_eq_false_iff_ne]; omega
  have h2 : instLive (freshTypeVar (freshTypeVar st).2).2 :=
    fun p hp => h p hp
  have hp3 : ∀ id2, prune (freshTypeVar (freshTypeVar st).2).2
      (.tvar 3 id2) = .tvar 3 id2 := fun id2 => prune_small h2 (by omega)
  have hp4 : ∀ id2, prune (freshTypeVar (freshTypeVar st).2).2
      (.tvar 4 id2) = .tvar 4 id2 := fun id2 => prune_small h2 (by omega)
  simp only [instantiate, foldSchemeAt, createScheme, List.foldl_cons,
    List.foldl_nil, tcFuel, setAssoc, hcc, Bool.false_eq_true, if_false,
    beq_self_eq_true, if_true]
  simp only [copyType, copyTypeList, hp3, hp4, prune_tconst, prune_tfunc,
    prune_tlist, prune_tapp, createFuncType, createListType, List.lookup,
    beq_self_eq_true, hcc, hcc2]
  rfl

set_option maxHeartbeats 1000000 in
theorem instantiate_lengthSchemeAt (c : Nat) (st : TCState)
    (h : instLive st) :
    instantiate (lengthSchemeAt c) st =
      (.tfunc [.tlist (.tvar st.nextCell st.typeVarCounter)] (.tconst "Int"),
       (freshTypeVar st).2) := by
  have h2 : instLive (freshTypeVar st).2 := fun p hp => h p hp
  have hp5 : ∀ id2, prune (freshTypeVar st).2 (.tvar 5 id2) = .tvar 5 id2 :=
    fun id2 => prune_small h2 (by omega)
  simp only [instantiate, lengthSchemeAt, createScheme, List.foldl_cons,
    List.foldl_nil, tcFuel, setAssoc]
  simp only [copyType, copyTypeList, hp5, prune_tconst, prune_tfunc,
    prune_tlist, prune_tapp, createFuncType, createListType, TYPE_INT,
    List.lookup, beq_self_eq_true]
  rfl

set_option maxHeartbeats 1000000 in
theorem instantiate_showSchemeAt (c : Nat) (st : TCState) (h : instLive st) :
    instantiate (showSchemeAt c) st =
      (.tfunc [.tvar st.nextCell st.typeVarCounter] (.tconst "String"),
       (freshTypeVar st).2) := by
  have h2 : instLive (freshTypeVar st).2 := fun p hp => h p hp
  have hp6 : ∀ id2, prune (freshTypeVar st).2 (.tvar 6 id2) = .tvar 6 id2 :=
    fun id2 => prune_small h2 (by omega)
  simp only [instantiate, showSchemeAt, createScheme, List.foldl_cons,
    List.foldl_nil, tcFuel, setAssoc]
  simp only [copyType, copyTypeList, hp6, prune_tconst, prune_tfunc,
    prune_tlist, prune_tapp, createFuncType, createListType, TYPE_STRING,
    List.lookup, beq_self_eq_true]
  rfl

set_option maxHeartbeats 1000000 in
theorem instantiate_identitySchemeAt (c : Nat) (st : TCState)
    (h : instLive st) :
    instantiate (identitySchemeAt c) st =
      (.tfunc [.tvar st.nextCell st.typeVarCounter]
        (.tvar st.nextCell st.typeVarCounter),
       (freshTypeVar st).2) := by
  have h2 : instLive (freshTypeVar st).2 := fun p hp => h p hp
  have hp7 : ∀ id2, prune (freshTypeVar st).2 (.tvar 7 id2) = .tvar 7 id2 :=
    fun id2 => prune_small h2 (by omega)
  simp only [instantiate, identitySchemeAt, createScheme, List.foldl_cons,
    List.foldl_nil, tcFuel, setAssoc]
  simp only [copyType, copyTypeList, hp7, prune_tconst, prune_tfunc,
    prune_tlist, prune_tapp, createFuncType, createListType, List.lookup,
    beq_self_eq_true]
  rfl

set_option maxHeartbeats 1000000 in
theorem instantiate_headSchemeAt (c : Nat) (st : TCState) (h : instLive st) :
    instantiate (headSchemeAt c) st =
      (.tfunc [.tlist (.tvar st.nextCell st.typeVarCounter)]
        (.tapp "Option" [.tvar st.nextCell st.typeVarCounter]),
       (freshTypeVar st).2) := by
  have h2 : instLive (freshTypeVar st).2 := fun p hp => h p hp
  have hp8 : ∀ id2, prune (freshTypeVar st).2 (.tvar 8 id2) = .tvar 8 id2 :=
    fun id2 => prune_small h2 (by omega)
  simp only [instantiate, headSchemeAt, createScheme, List.foldl_cons,
    List.foldl_nil, tcFuel, setAssoc]
  simp only [copyType, copyTypeList, hp8, prune_tconst, prune_tfunc,
    prune_tlist, prune_tapp, createFuncType, createListType, createTypeApp,
    List.lookup, beq_self_eq_true]
  rfl

set_option maxHeartbeats 1000000 in
theorem instantiate_tailSchemeAt (c : Nat) (st : TCState) (h : instLive st) :
    instantiate (tailSchemeAt c) st =
      (.tfunc [.tlist (.tvar st.nextCell st.typeVarCounter)]
        (.tapp "Option" [.tlist (.tvar st.nextCell st.typeVarCounter)]),
       (freshTypeVar st).2) := by
  have h2 : instLive (freshTypeVar st).2 := fun p hp => h p hp
  have hp9 : ∀ id2, prune (freshTypeVar st).2 (.tvar 9 id2) = .tvar 9 id2 :=
    fun id2 => prune_small h2 (by omega)
  simp only [instantiate, tailSchemeAt, createScheme, List.foldl_cons,
    List.foldl_nil, tcFuel, setAssoc]
  simp only [copyType, copyTypeList, hp9, prune_tconst, prune_tfunc,
    prune_tlist, prune_tapp, createFuncType, createListType, createTypeApp,
    List.lookup, beq_self_eq_true]
  rfl

set_option maxHeartbeats 1000000 in
theorem instantiate_tapSchemeAt (c : Nat) (st : TCState) (h : instLive st) :
    instantiate (tapSchemeAt c) st =
      (.tfunc [.tfunc [.tvar st.nextCell st.typeVarCounter]
          (.tconst "Unit"), .tvar st.nextCell st.typeVarCounter]
        (.tvar st.nextCell st.typeVarCounter),
       (freshTypeVar st).2) := by
  have h2 : instLive (freshTypeVar st).2 := fun p hp => h p hp
  have hp10 : ∀ id2, prune (freshTypeVar st).2 (.tvar 10 id2) =
      .tvar 10 id2 := fun id2 => prune_small h2 (by omega)
  simp only [instantiate, tapSchemeAt, createScheme, List.foldl_cons,
    List.foldl_nil, tcFuel, setAssoc]
  simp only [copyType, copyTypeList, hp10, prune_tconst, prune_tfunc,
    prune_tlist, prune_tapp, createFuncType, createListType, TYPE_UNIT,
    List.lookup, beq_self_eq_true]
  rfl

/- A builtin scheme contributes nothing to `envFreeTypeVars`: every id free
in its type is quantified by it.  `IdsIn S t` says every variable of `t` has
a small (builtin) cell and an id in `S`. -/

inductive IdsIn (S : List Nat) : Ty → Prop where
  | tvar : ∀ cell id, cell < 11 → id ∈ S → IdsIn S (.tvar cell id)
  | tconst : ∀ n, IdsIn S (.tconst n)
  | tfunc : ∀ ps r, (∀ p ∈ ps, IdsIn S p) → IdsIn S r → IdsIn S (.tfunc ps r)
  | trecord : ∀ fs o, (∀ f ∈ fs, IdsIn S f.2) → IdsIn S (.trecord fs o)
  | tlist : ∀ e, IdsIn S e → IdsIn S (.tlist e)
  | tapp : ∀ n args, (∀ a ∈ args, IdsIn S a) → IdsIn S (.tapp n args)

theorem addIfAbsent_mem {acc : List Nat} {id x : Nat}
    (hx : x ∈ addIfAbsent acc id) : x ∈ acc ∨ x = id := by
  unfold addIfAbsent at hx
  split at hx
  · exact Or.inl hx
  · rcases List.mem_append.mp hx with h | h
    · exact Or.inl h
    · exact Or.inr (List.mem_singleton.mp h)

theorem contains_of_mem {l : List Nat} {x : Nat} (h : x ∈ l) :
    l.contains x = true := by
  induction l with
  | nil => cases h
  | cons a rest ih =>
    rcases List.mem_cons.mp h with rfl | h2
    · simp [List.contains_cons]
    · simp only [List.contains_cons, ih h2, Bool.or_true]

theorem freeTyVars_ids : ∀ (fuel : Nat) {st : TCState}, instLive st →
    ∀ {t : Ty} {S : List Nat}, IdsIn S t →
    ∀ (acc : List Nat), (∀ x ∈ acc, x ∈ S) →
    ∀ x ∈ freeTyVars fuel st t acc, x ∈ S
  | 0, _, _, _, _, _, _, hacc => hacc
  | fuel + 1, st, h, t, S, hS, acc, hacc => by
    have hfold : ∀ (ts : List Ty), (∀ p ∈ ts, IdsIn S p) →
        ∀ (acc2 : List Nat), (∀ x ∈ acc2, x ∈ S) →
        ∀ x ∈ ts.foldl (fun a p => freeTyVars fuel st p a) acc2, x ∈ S := by
      intro ts
      induction ts with
      | nil => exact fun _ _ hacc2 => hacc2
      | cons p rest ih =>
        intro hts acc2 hacc2
        rw [List.foldl_cons]
        exact ih (fun q hq => hts q (List.mem_cons_of_mem _ hq)) _
          (freeTyVars_ids fuel h (hts p (List.mem_cons_self _ _)) acc2 hacc2)
    have hfoldf : ∀ (fs : List (String × Ty)), (∀ f ∈ fs, IdsIn S f.2) →
        ∀ (acc2 : List Nat), (∀ x ∈ acc2, x ∈ S) →
        ∀ x ∈ fs.foldl (fun a f => freeTyVars fuel st f.2 a) acc2, x ∈ S := by
      intro fs
      induction fs with
      | nil => exact fun _ _ hacc2 => hacc2
      | cons f rest ih =>
        intro hfs acc2 hacc2
        rw [List.foldl_cons]
        exact ih (fun q hq => hfs q (List.mem_cons_of_mem _ hq)) _
          (freeTyVars_ids fuel h (hfs f (List.mem_cons_self _ _)) acc2 hacc2)
    cases hS with
    | tvar cell id hc hid =>
      simp only [freeTyVars, prune_small h hc]
      intro x hx
      rcases addIfAbsent_mem hx with h1 | h1
      · exact hacc x h1
      · subst h1; exact hid
    | tconst n =>
      simp only [freeTyVars, prune_tconst]
      exact hacc
    | tfunc ps r hps hr =>
      simp only [freeTyVars, prune_tfunc]
      exact freeTyVars_ids fuel h hr _ (hfold ps hps acc hacc)
    | trecord fs o hfs =>
      simp only [freeTyVars, prune_trecord]
      exact hfoldf fs hfs acc hacc
    | tlist e he =>
      simp only [freeTyVars, prune_tlist]
      exact freeTyVars_ids fuel h he acc hacc
    | tapp n args hargs =>
      simp only [freeTyVars, prune_tapp]
      exact hfold args hargs acc hacc

theorem foldl_filter_id {tv : List Nat} : ∀ (l : List Nat),
    (∀ v ∈ l, tv.contains v = true) → ∀ (acc : List Nat),
    l.foldl (fun acc2 v => if tv.contains v then acc2
      else addIfAbsent acc2 v) acc = acc
  | [], _, _ => rfl
  | v :: rest, h, acc => by
    rw [List.foldl_cons]
    simp only [h v (List.mem_cons_self _ _), if_true]
    exact foldl_filter_id rest (fun q hq => h q (List.mem_cons_of_mem _ hq))
      acc

theorem envContrib_builtin {S : List Nat} {t : Ty} (hS : IdsIn S t)
    {st : TCState} (h : instLive st) (acc : List Nat) :
    (freeTyVars tcFuel st t []).foldl
      (fun acc2 v => if S.contains v then acc2
        else addIfAbsent acc2 v) acc = acc := by
  apply foldl_filter_id
  intro v hv
  exact contains_of_mem (freeTyVars_ids tcFuel h hS []
    (fun x hx => absurd hx (List.not_mem_nil x)) v hv)

theorem IdsIn_mapSchemeAt (c : Nat) :
    IdsIn (mapSchemeAt c).typeVars (mapSchemeAt c).type := by
  refine IdsIn.tfunc _ _ ?_ (.tlist _ (.tvar _ _ (by omega) (by simp [mapSchemeAt, createScheme])))
  intro p hp
  simp only [List.mem_cons, List.not_mem_nil, or_false] at hp
  rcases hp with rfl | rfl
  · refine IdsIn.tfunc _ _ ?_ (.tvar _ _ (by omega) (by simp [mapSchemeAt, createScheme]))
    intro q hq
    simp only [List.mem_singleton] at hq
    subst hq
    exact .tvar _ _ (by omega) (by simp [mapSchemeAt, createScheme])
  · exact .tlist _ (.tvar _ _ (by omega) (by simp [mapSchemeAt, createScheme]))

theorem IdsIn_filterSchemeAt (c : Nat) :
    IdsIn (filterSchemeAt c).typeVars (filterSchemeAt c).type := by
  refine IdsIn.tfunc _ _ ?_ (.tlist _ (.tvar _ _ (by omega) (by simp [filterSchemeAt, createScheme])))
  intro p hp
  simp only [List.mem_cons, List.not_mem_nil, or_false] at hp
  rcases hp with rfl | rfl
  · refine IdsIn.tfunc _ _ ?_ (.tconst _)
    intro q hq
    simp only [List.mem_singleton] at hq
    subst hq
    exact .tvar _ _ (by omega) (by simp [filterSchemeAt, createScheme])
  · exact .tlist _ (.tvar _ _ (by omega) (by simp [filterSchemeAt, createScheme]))

theorem IdsIn_foldSchemeAt (c : Nat) :
    IdsIn (foldSchemeAt c).typeVars (foldSchemeAt c).type := by
  refine IdsIn.tfunc _ _ ?_ (.tvar _ _ (by omega) (by simp [foldSchemeAt, createScheme]))
  intro p hp
  simp only [List.mem_cons, List.not_mem_nil, or_false] at hp
  rcases hp with rfl | rfl | rfl
  · refine IdsIn.tfunc _ _ ?_ (.tvar _ _ (by omega) (by simp [foldSchemeAt, createScheme]))
    intro q hq
    simp only [List.mem_cons, List.not_mem_nil, or_false] at hq
    rcases hq with rfl | rfl
    · exact .tvar _ _ (by omega) (by simp [foldSchemeAt, createScheme])
    · exact .tvar _ _ (by omega) (by simp [foldSchemeAt, createScheme])
  · exact .tvar _ _ (by omega) (by simp [foldSchemeAt, createScheme])
  · exact .tlist _ (.tvar _ _ (by omega) (by simp [foldSchemeAt, createScheme]))

theorem IdsIn_lengthSchemeAt (c : Nat) :
    IdsIn (lengthSchemeAt c).typeVars (lengthSchemeAt c).type := by
  refine IdsIn.tfunc _ _ ?_ (.tconst _)
  intro p hp
  simp only [List.mem_singleton] at hp
  subst hp
  exact .tlist _ (.tvar _ _ (by omega) (by simp [lengthSchemeAt, createScheme]))

theorem IdsIn_showSchemeAt (c : Nat) :
    IdsIn (showSchemeAt c).typeVars (showSchemeAt c).type := by
  refine IdsIn.tfunc _ _ ?_ (.tconst _)
  intro p hp
  simp only [List.mem_singleton] at hp
  subst hp
  exact .tvar _ _ (by omega) (by simp [showSchemeAt, createScheme])

theorem IdsIn_identitySchemeAt (c : Nat) :
    IdsIn (identitySchemeAt c).typeVars (identitySchemeAt c).type := by
  refine IdsIn.tfunc _ _ ?_ (.tvar _ _ (by omega) (by simp [identitySchemeAt, createScheme]))
  intro p hp
  simp only [List.mem_singleton] at hp
  subst hp
  exact .tvar _ _ (by omega) (by simp [identitySchemeAt, createScheme])

theorem IdsIn_headSchemeAt (c : Nat) :
    IdsIn (headSchemeAt c).typeVars (headSchemeAt c).type := by
  refine IdsIn.tfunc _ _ ?_ (.tapp _ _ ?_)
  · intro p hp
    simp only [List.mem_singleton] at hp
    subst hp
    exact .tlist _ (.tvar _ _ (by omega) (by simp [headSchemeAt, createScheme]))
  · intro a ha
    simp only [List.mem_singleton] at ha
    subst ha
    exact .tvar _ _ (by omega) (by simp [headSchemeAt, createScheme])

theorem IdsIn_tailSchemeAt (c : Nat) :
    IdsIn (tailSchemeAt c).typeVars (tailSchemeAt c).type := by
  refine IdsIn.tfunc _ _ ?_ (.tapp _ _ ?_)
  · intro p hp
    simp only [List.mem_singleton] at hp
    subst hp
    exact .tlist _ (.tvar _ _ (by omega) (by simp [tailSchemeAt, createScheme]))
  · intro a ha
    simp only [List.mem_singleton] at ha
    subst ha
    exact .tlist _ (.tvar _ _ (by omega) (by simp [tailSchemeAt, createScheme]))

theorem IdsIn_tapSchemeAt (c : Nat) :
    IdsIn (tapSchemeAt c).typeVars (tapSchemeAt c).type := by
  refine IdsIn.tfunc _ _ ?_ (.tvar _ _ (by omega) (by simp [tapSchemeAt, createScheme]))
  intro p hp
  simp only [List.mem_cons, List.not_mem_nil, or_false] at hp
  rcases hp with rfl | rfl
  · refine IdsIn.tfunc _ _ ?_ (.tconst _)
    intro q hq
    simp only [List.mem_singleton] at hq
    subst hq
    exact .tvar _ _ (by omega) (by simp [tapSchemeAt, createScheme])
  · exact .tvar _ _ (by omega) (by simp [tapSchemeAt, createScheme])

theorem TyLive_sumScheme : TyLive sumScheme.type := by
  refine TyLive.tfunc _ _ ?_ (.tconst _)
  intro p hp
  simp only [List.mem_singleton] at hp
  subst hp
  exact .tlist _ (.tconst _)

/- Two schemes are related when they are the same (live) scheme, or the
same builtin scheme built at two different counter values. -/

inductive SchemeR : TypeScheme → TypeScheme → Prop where
  | user : ∀ s, TyLive s.type → SchemeR s s
  | mapS : ∀ c c2, SchemeR (mapSchemeAt c) (mapSchemeAt c2)
  | filterS : ∀ c c2, SchemeR (filterSchemeAt c) (filterSchemeAt c2)
  | foldS : ∀ c c2, SchemeR (foldSchemeAt c) (foldSchemeAt c2)
  | lengthS : ∀ c c2, SchemeR (lengthSchemeAt c) (lengthSchemeAt c2)
  | showS : ∀ c c2, SchemeR (showSchemeAt c) (showSchemeAt c2)
  | identityS : ∀ c c2, SchemeR (identitySchemeAt c) (identitySchemeAt c2)
  | headS : ∀ c c2, SchemeR (headSchemeAt c) (headSchemeAt c2)
  | tailS : ∀ c c2, SchemeR (tailSchemeAt c) (tailSchemeAt c2)
  | tapS : ∀ c c2, SchemeR (tapSchemeAt c) (tapSchemeAt c2)

theorem stLive_of_coreEq {st1 st2 : TCState} (hc : coreEq st1 st2)
    (hl : stLive st1) : stLive st2 := by
  obtain ⟨h1, h2, h3, h4⟩ := hc
  exact ⟨h2 ▸ hl.1, fun p hp => hl.2 p (h3 ▸ hp)⟩

theorem TyLive_pair {a b : Ty} (ha : TyLive a) (hb : TyLive b) :
    ∀ p ∈ [a, b], TyLive p := by
  intro p hp
  simp only [List.mem_cons, List.not_mem_nil, or_false] at hp
  rcases hp with rfl | rfl
  exacts [ha, hb]

theorem TyLive_one {a : Ty} (ha : TyLive a) : ∀ p ∈ [a], TyLive p := by
  intro p hp
  simp only [List.mem_singleton] at hp
  subst hp
  exact ha

theorem TyLive_three {a b c : Ty} (ha : TyLive a) (hb : TyLive b)
    (hc : TyLive c) : ∀ p ∈ [a, b, c], TyLive p := by
  intro p hp
  simp only [List.mem_cons, List.not_mem_nil, or_false] at hp
  rcases hp with rfl | rfl | rfl
  exacts [ha, hb, hc]


/-- `instantiate` on related schemes with core-equal live states: the results
are equal, live, and the states stay core-equal and live. -/
theorem instantiate_SchemeR {s1 s2 : TypeScheme} (hr : SchemeR s1 s2)
    {st1 st2 : TCState} (hc : coreEq st1 st2) (hl : stLive st1) :
    (instantiate s1 st1).1 = (instantiate s2 st2).1 ∧
    coreEq (instantiate s1 st1).2 (instantiate s2 st2).2 ∧
    stLive (instantiate s1 st1).2 ∧ TyLive (instantiate s1 st1).1 := by
  have hl2 := stLive_of_coreEq hc hl
  obtain ⟨hcnt, hcell, hinst, herr⟩ := hc
  have hv1 : TyLive (.tvar st1.nextCell st1.typeVarCounter) :=
    TyLive.tvar _ _ hl.1
  have hv2 : TyLive (.tvar (st1.nextCell + 1) (st1.typeVarCounter + 1)) :=
    TyLive.tvar _ _ (Nat.le_succ_of_le hl.1)
  cases hr with
  | user => exact instantiate_R_eq s1 ⟨hcnt, hcell, hinst, herr⟩ hl (by assumption)
  | mapS c c2 =>
    rw [instantiate_mapSchemeAt c st1 hl.2, instantiate_mapSchemeAt c2 st2
      hl2.2]
    exact ⟨by simp only [hcnt, hcell],
      (coreEq_fresh (coreEq_fresh ⟨hcnt, hcell, hinst, herr⟩).2).2,
      (stLive_fresh (stLive_fresh hl).1).1,
      TyLive.tfunc _ _
        (TyLive_pair (TyLive.tfunc _ _ (TyLive_one hv1) hv2)
          (TyLive.tlist _ hv1)) (TyLive.tlist _ hv2)⟩
  | filterS c c2 =>
    rw [instantiate_filterSchemeAt c st1 hl.2, instantiate_filterSchemeAt c2
      st2 hl2.2]
    exact ⟨by simp only [hcnt, hcell],
      (coreEq_fresh ⟨hcnt, hcell, hinst, herr⟩).2, (stLive_fresh hl).1,
      TyLive.tfunc _ _
        (TyLive_pair (TyLive.tfunc _ _ (TyLive_one hv1) (.tconst _))
          (TyLive.tlist _ hv1)) (TyLive.tlist _ hv1)⟩
  | foldS c c2 =>
    rw [instantiate_foldSchemeAt c st1 hl.2, instantiate_foldSchemeAt c2 st2
      hl2.2]
    exact ⟨by simp only [hcnt, hcell],
      (coreEq_fresh (coreEq_fresh ⟨hcnt, hcell, hinst, herr⟩).2).2,
      (stLive_fresh (stLive_fresh hl).1).1,
      TyLive.tfunc _ _
        (TyLive_three (TyLive.tfunc _ _ (TyLive_pair hv2 hv1) hv2) hv2
          (TyLive.tlist _ hv1)) hv2⟩
  | lengthS c c2 =>
    rw [instantiate_lengthSchemeAt c st1 hl.2, instantiate_lengthSchemeAt c2
      st2 hl2.2]
    exact ⟨by simp only [hcnt, hcell],
      (coreEq_fresh ⟨hcnt, hcell, hinst, herr⟩).2, (stLive_fresh hl).1,
      TyLive.tfunc _ _ (TyLive_one (TyLive.tlist _ hv1)) (.tconst _)⟩
  | showS c c2 =>
    rw [instantiate_showSchemeAt c st1 hl.2, instantiate_showSchemeAt c2 st2
      hl2.2]
    exact ⟨by simp only [hcnt, hcell],
      (coreEq_fresh ⟨hcnt, hcell, hinst, herr⟩).2, (stLive_fresh hl).1,
      TyLive.tfunc _ _ (TyLive_one hv1) (.tconst _)⟩
  | identityS c c2 =>
    rw [instantiate_identitySchemeAt c st1 hl.2,
      instantiate_identitySchemeAt c2 st2 hl2.2]
    exact ⟨by simp only [hcnt, hcell],
      (coreEq_fresh ⟨hcnt, hcell, hinst, herr⟩).2, (stLive_fresh hl).1,
      TyLive.tfunc _ _ (TyLive_one hv1) hv1⟩
  | headS c c2 =>
    rw [instantiate_headSchemeAt c st1 hl.2, instantiate_headSchemeAt c2 st2
      hl2.2]
    exact ⟨by simp only [hcnt, hcell],
      (coreEq_fresh ⟨hcnt, hcell, hinst, herr⟩).2, (stLive_fresh hl).1,
      TyLive.tfunc _ _ (TyLive_one (TyLive.tlist _ hv1))
        (TyLive.tapp _ _ (TyLive_one hv1))⟩
  | tailS c c2 =>
    rw [instantiate_tailSchemeAt c st1 hl.2, instantiate_tailSchemeAt c2 st2
      hl2.2]
    exact ⟨by simp only [hcnt, hcell],
      (coreEq_fresh ⟨hcnt, hcell, hinst, herr⟩).2, (stLive_fresh hl).1,
      TyLive.tfunc _ _ (TyLive_one (TyLive.tlist _ hv1))
        (TyLive.tapp _ _ (TyLive_one (TyLive.tlist _ hv1)))⟩
  | tapS c c2 =>
    rw [instantiate_tapSchemeAt c st1 hl.2, instantiate_tapSchemeAt c2 st2
      hl2.2]
    exact ⟨by simp only [hcnt, hcell],
      (coreEq_fresh ⟨hcnt, hcell, hinst, herr⟩).2, (stLive_fresh hl).1,
      TyLive.tfunc _ _
        (TyLive_pair (TyLive.tfunc _ _ (TyLive_one hv1) (.tconst _)) hv1)
        hv1⟩


theorem bindContrib_R {st1 st2 : TCState} (hinst : st1.inst = st2.inst)
    (hl : instLive st1) {t1 t2 : TypeScheme} (hs : SchemeR t1 t2)
    (acc : List Nat) :
    (freeTyVars tcFuel st1 t1.type []).foldl
      (fun acc2 v => if t1.typeVars.contains v then acc2
        else addIfAbsent acc2 v) acc =
    (freeTyVars tcFuel st2 t2.type []).foldl
      (fun acc2 v => if t2.typeVars.contains v then acc2
        else addIfAbsent acc2 v) acc := by
  have hl2 : instLive st2 := fun p hp => hl p (hinst ▸ hp)
  cases hs with
  | user => rw [freeTyVars_congr hinst]
  | mapS c c2 =>
    rw [envContrib_builtin (IdsIn_mapSchemeAt c) hl acc,
      envContrib_builtin (IdsIn_mapSchemeAt c2) hl2 acc]
  | filterS c c2 =>
    rw [envContrib_builtin (IdsIn_filterSchemeAt c) hl acc,
      envContrib_builtin (IdsIn_filterSchemeAt c2) hl2 acc]
  | foldS c c2 =>
    rw [envContrib_builtin (IdsIn_foldSchemeAt c) hl acc,
      envContrib_builtin (IdsIn_foldSchemeAt c2) hl2 acc]
  | lengthS c c2 =>
    rw [envContrib_builtin (IdsIn_lengthSchemeAt c) hl acc,
      envContrib_builtin (IdsIn_lengthSchemeAt c2) hl2 acc]
  | showS c c2 =>
    rw [envContrib_builtin (IdsIn_showSchemeAt c) hl acc,
      envContrib_builtin (IdsIn_showSchemeAt c2) hl2 acc]
  | identityS c c2 =>
    rw [envContrib_builtin (IdsIn_identitySchemeAt c) hl acc,
      envContrib_builtin (IdsIn_identitySchemeAt c2) hl2 acc]
  | headS c c2 =>
    rw [envContrib_builtin (IdsIn_headSchemeAt c) hl acc,
      envContrib_builtin (IdsIn_headSchemeAt c2) hl2 acc]
  | tailS c c2 =>
    rw [envContrib_builtin (IdsIn_tailSchemeAt c) hl acc,
      envContrib_builtin (IdsIn_tailSchemeAt c2) hl2 acc]
  | tapS c c2 =>
    rw [envContrib_builtin (IdsIn_tapSchemeAt c) hl acc,
      envContrib_builtin (IdsIn_tapSchemeAt c2) hl2 acc]

def ScopeR (s1 s2 : Scope) : Prop :=
  List.Forall₂ (fun a b => a.1 = b.1 ∧ SchemeR a.2 b.2) s1 s2

def EnvR (env1 env2 : TypeEnv) : Prop := List.Forall₂ ScopeR env1 env2

theorem scopeLookup_R {s1 s2 : Scope} (h : ScopeR s1 s2) (name : String) :
    (s1.lookup name = none ∧ s2.lookup name = none) ∨
    (∃ t1 t2, s1.lookup name = some t1 ∧ s2.lookup name = some t2 ∧
      SchemeR t1 t2) := by
  induction h with
  | nil => exact Or.inl ⟨rfl, rfl⟩
  | @cons a b r1 r2 hab hrest ih =>
    obtain ⟨k1, v1⟩ := a
    obtain ⟨k2, v2⟩ := b
    obtain ⟨hn, hs⟩ := hab
    simp only at hn
    subst hn
    cases hnm : (name == k1) with
    | true =>
      exact Or.inr ⟨v1, v2, by simp [List.lookup, hnm],
        by simp [List.lookup, hnm], hs⟩
    | false =>
      rcases ih with ⟨h1, h2⟩ | ⟨t1, t2, h1, h2, h3⟩
      · exact Or.inl ⟨by simp [List.lookup, hnm, h1],
          by simp [List.lookup, hnm, h2]⟩
      · exact Or.inr ⟨t1, t2, by simp [List.lookup, hnm, h1],
          by simp [List.lookup, hnm, h2], h3⟩

theorem envLookup_R {env1 env2 : TypeEnv} (h : EnvR env1 env2)
    (name : String) :
    (envLookup env1 name = none ∧ envLookup env2 name = none) ∨
    (∃ t1 t2, envLookup env1 name = some t1 ∧
      envLookup env2 name = some t2 ∧ SchemeR t1 t2) := by
  induction h with
  | nil => exact Or.inl ⟨rfl, rfl⟩
  | @cons a b r1 r2 hab hrest ih =>
    rcases scopeLookup_R hab name with ⟨h1, h2⟩ | ⟨t1, t2, h1, h2, h3⟩
    · rcases ih with ⟨h3, h4⟩ | ⟨t1, t2, h3, h4, h5⟩
      · exact Or.inl ⟨by simp [envLookup, h1, h3],
          by simp [envLookup, h2, h4]⟩
      · exact Or.inr ⟨t1, t2, by simp [envLookup, h1, h3],
          by simp [envLookup, h2, h4], h5⟩
    · exact Or.inr ⟨t1, t2, by simp [envLookup, h1],
        by simp [envLookup, h2], h3⟩


theorem scopeContrib_R {st1 st2 : TCState} (hinst : st1.inst = st2.inst)
    (hl : instLive st1) : ∀ {s1 s2 : Scope}, ScopeR s1 s2 →
    ∀ (acc : List Nat),
    s1.foldl (fun acc b => (freeTyVars tcFuel st1 b.2.type []).foldl
      (fun acc2 v => if b.2.typeVars.contains v then acc2
        else addIfAbsent acc2 v) acc) acc =
    s2.foldl (fun acc b => (freeTyVars tcFuel st2 b.2.type []).foldl
      (fun acc2 v => if b.2.typeVars.contains v then acc2
        else addIfAbsent acc2 v) acc) acc := by
  intro s1 s2 h
  induction h with
  | nil =>
    intro acc
    rw [List.foldl_nil, List.foldl_nil]
  | @cons a b r1 r2 hab hrest ih =>
    intro acc
    simp only [List.foldl_cons]
    rw [bindContrib_R hinst hl hab.2 acc]
    exact ih _

theorem envContrib_env_R {st1 st2 : TCState} (hinst : st1.inst = st2.inst)
    (hl : instLive st1) : ∀ {e1 e2 : TypeEnv}, EnvR e1 e2 →
    ∀ (acc : List Nat),
    e1.foldl (fun acc scope =>
      scope.foldl (fun acc b => (freeTyVars tcFuel st1 b.2.type []).foldl
        (fun acc2 v => if b.2.typeVars.contains v then acc2
          else addIfAbsent acc2 v) acc) acc) acc =
    e2.foldl (fun acc scope =>
      scope.foldl (fun acc b => (freeTyVars tcFuel st2 b.2.type []).foldl
        (fun acc2 v => if b.2.typeVars.contains v then acc2
          else addIfAbsent acc2 v) acc) acc) acc := by
  intro e1 e2 h
  induction h with
  | nil =>
    intro acc
    rw [List.foldl_nil, List.foldl_nil]
  | @cons a b r1 r2 hab hrest ih =>
    intro acc
    simp only [List.foldl_cons]
    rw [scopeContrib_R hinst hl hab acc]
    exact ih _

theorem envFreeTypeVars_R {st1 st2 : TCState} (hinst : st1.inst = st2.inst)
    (hl : instLive st1) {env1 env2 : TypeEnv} (hr : EnvR env1 env2) :
    envFreeTypeVars st1 env1 = envFreeTypeVars st2 env2 := by
  simp only [envFreeTypeVars]
  exact envContrib_env_R hinst hl hr []

theorem TyLive_inferLiteral (k : LitKind) : TyLive (inferLiteral k) := by
  cases k <;> exact TyLive.tconst _

theorem inferIdentifier_R (name : String) (span : Span)
    {env1 env2 : TypeEnv} (hr : EnvR env1 env2) {st1 st2 : TCState}
    (hc : coreEq st1 st2) (hl : stLive st1) :
    (inferIdentifier name span env1 st1).1 =
      (inferIdentifier name span env2 st2).1 ∧
    coreEq (inferIdentifier name span env1 st1).2
      (inferIdentifier name span env2 st2).2 ∧
    stLive (inferIdentifier name span env1 st1).2 ∧
    TyLive (inferIdentifier name span env1 st1).1 := by
  unfold inferIdentifier
  rcases envLookup_R hr name with ⟨h1, h2⟩ | ⟨t1, t2, h1, h2, h3⟩
  · simp only [h1, h2]
    exact ⟨(coreEq_fresh (coreEq_pushErr hc _)).1,
      (coreEq_fresh (coreEq_pushErr hc _)).2,
      (stLive_fresh (stLive_pushErr hl _)).1,
      (stLive_fresh (stLive_pushErr hl _)).2⟩
  · simp only [h1, h2]
    exact instantiate_SchemeR h3 hc hl

theorem envDefine_R {env1 env2 : TypeEnv} (hr : EnvR env1 env2)
    (name : String) {s1 s2 : TypeScheme} (hs : SchemeR s1 s2) :
    EnvR (envDefine env1 name s1) (envDefine env2 name s2) := by
  cases hr with
  | nil =>
    exact List.Forall₂.cons (List.Forall₂.cons ⟨rfl, hs⟩ List.Forall₂.nil)
      List.Forall₂.nil
  | cons hab hrest => exact List.Forall₂.cons (List.Forall₂.cons ⟨rfl, hs⟩ hab) hrest

theorem bindPattern_R (p : Pattern) (t : Ty) (ht : TyLive t)
    {env1 env2 : TypeEnv} (hr : EnvR env1 env2) (st1 st2 : TCState) :
    EnvR (bindPattern p t env1 st1).1 (bindPattern p t env2 st2).1 := by
  cases p with
  | identifierPat name sp => exact envDefine_R hr name (SchemeR.user _ ht)
  | wildcardPat sp => exact hr

theorem inferFuncParams_R : ∀ (ps : List Pattern) {env1 env2 : TypeEnv},
    EnvR env1 env2 → ∀ {st1 st2 : TCState}, coreEq st1 st2 → stLive st1 →
    (inferFuncParams ps env1 st1).1 = (inferFuncParams ps env2 st2).1 ∧
    EnvR (inferFuncParams ps env1 st1).2.1
      (inferFuncParams ps env2 st2).2.1 ∧
    coreEq (inferFuncParams ps env1 st1).2.2
      (inferFuncParams ps env2 st2).2.2 ∧
    stLive (inferFuncParams ps env1 st1).2.2 ∧
    (∀ u ∈ (inferFuncParams ps env1 st1).1, TyLive u)
  | [], env1, env2, hr, st1, st2, hc, hl =>
    ⟨rfl, hr, hc, hl, fun u hu => absurd hu (List.not_mem_nil u)⟩
  | p :: rest, env1, env2, hr, st1, st2, hc, hl => by
    simp only [inferFuncParams]
    rw [bindPattern_state, bindPattern_state]
    have hf := coreEq_fresh hc
    rw [← hf.1]
    obtain ⟨h1, h2, h3, h4, h5⟩ := inferFuncParams_R rest
      (bindPattern_R p (freshTypeVar st1).1 (stLive_fresh hl).2 hr
        (freshTypeVar st1).2 (freshTypeVar st2).2)
      hf.2 (stLive_fresh hl).1
    rw [h1]
    refine ⟨rfl, h2, h3, h4, ?_⟩
    intro u hu
    rw [← h1] at hu
    rcases List.mem_cons.mp hu with rfl | hu2
    · exact (stLive_fresh hl).2
    · exact h5 u hu2

theorem placeholderLoop_R : ∀ (pairs : List (Expr × Ty)) (st1 st2 : TCState),
    coreEq st1 st2 → stLive st1 → (∀ q ∈ pairs, TyLive q.2) →
    (placeholderLoop pairs st1).1 = (placeholderLoop pairs st2).1 ∧
    (placeholderLoop pairs st1).2.1 = (placeholderLoop pairs st2).2.1 ∧
    coreEq (placeholderLoop pairs st1).2.2
      (placeholderLoop pairs st2).2.2 ∧
    stLive (placeholderLoop pairs st1).2.2 ∧
    (∀ u ∈ (placeholderLoop pairs st1).1, TyLive u) ∧
    (∀ u ∈ (placeholderLoop pairs st1).2.1, TyLive u)
  | [], st1, st2, hc, hl, _ =>
    ⟨rfl, rfl, hc, hl, fun u hu => absurd hu (List.not_mem_nil u),
      fun u hu => absurd hu (List.not_mem_nil u)⟩
  | (a, t) :: rest, st1, st2, hc, hl, hq => by
    simp only [placeholderLoop]
    split
    · have hf := coreEq_fresh hc
      rw [← hf.1]
      obtain ⟨h1, h2, h3, h4, h5, h6⟩ := placeholderLoop_R rest
        (freshTypeVar st1).2 (freshTypeVar st2).2 hf.2 (stLive_fresh hl).1
        (fun q hqm => hq q (List.mem_cons_of_mem _ hqm))
      rw [h1, h2]
      refine ⟨rfl, rfl, h3, h4, ?_, ?_⟩
      · intro u hu
        rw [← h1] at hu
        rcases List.mem_cons.mp hu with rfl | hu2
        · exact (stLive_fresh hl).2
        · exact h5 u hu2
      · intro u hu
        rw [← h2] at hu
        rcases List.mem_cons.mp hu with rfl | hu2
        · exact (stLive_fresh hl).2
        · exact h6 u hu2
    · obtain ⟨h1, h2, h3, h4, h5, h6⟩ := placeholderLoop_R rest st1 st2 hc hl
        (fun q hqm => hq q (List.mem_cons_of_mem _ hqm))
      rw [h1, h2]
      refine ⟨rfl, rfl, h3, h4, ?_, ?_⟩
      · intro u hu
        rw [← h1] at hu
        exact h5 u hu
      · intro u hu
        rw [← h2] at hu
        rcases List.mem_cons.mp hu with hu1 | hu2
        · rw [hu1]; exact hq (a, t) (List.mem_cons_self _ _)
        · exact h6 u hu2

mutual

theorem inferExpr_R : ∀ (fuel : Nat) (e : Expr) (env1 env2 : TypeEnv),
    EnvR env1 env2 → ∀ (st1 st2 : TCState), coreEq st1 st2 → stLive st1 →
    (inferExpr fuel e env1 st1).1 = (inferExpr fuel e env2 st2).1 ∧
    coreEq (inferExpr fuel e env1 st1).2 (inferExpr fuel e env2 st2).2 ∧
    stLive (inferExpr fuel e env1 st1).2 ∧
    TyLive (inferExpr fuel e env1 st1).1
  | 0, _, _, _, _, _, _, hc, hl => ⟨rfl, hc, hl, TyLive.tconst _⟩
  | fuel + 1, .lit k v sp, env1, env2, hr, st1, st2, hc, hl => by
    simp only [inferExpr]
    exact ⟨trivial, hc, hl, TyLive_inferLiteral k⟩
  | fuel + 1, .ident name sp, env1, env2, hr, st1, st2, hc, hl => by
    simp only [inferExpr]
    exact inferIdentifier_R name sp hr hc hl
  | fuel + 1, .listE es sp, env1, env2, hr, st1, st2, hc, hl => by
    simp only [inferExpr]
    exact inferList_R fuel es sp env1 env2 hr st1 st2 hc hl
  | fuel + 1, .funcE ps b sp, env1, env2, hr, st1, st2, hc, hl => by
    simp only [inferExpr]
    exact inferFunction_R fuel ps b env1 env2 hr st1 st2 hc hl
  | fuel + 1, .call c args sp, env1, env2, hr, st1, st2, hc, hl => by
    simp only [inferExpr]
    exact inferCall_R fuel c args sp env1 env2 hr st1 st2 hc hl
  | fuel + 1, .binary op l r sp, env1, env2, hr, st1, st2, hc, hl => by
    simp only [inferExpr]
    exact inferBinary_R fuel op l r sp env1 env2 hr st1 st2 hc hl
  | fuel + 1, .pipeline l r sp, env1, env2, hr, st1, st2, hc, hl => by
    simp only [inferExpr]
    exact inferPipeline_R fuel l r sp env1 env2 hr st1 st2 hc hl
  | fuel + 1, .placeholder sp, env1, env2, hr, st1, st2, hc, hl => by
    simp only [inferExpr]
    exact ⟨(coreEq_fresh hc).1, (coreEq_fresh hc).2, (stLive_fresh hl).1,
      (stLive_fresh hl).2⟩

theorem inferExprList_R : ∀ (fuel : Nat) (es : List Expr)
    (env1 env2 : TypeEnv), EnvR env1 env2 → ∀ (st1 st2 : TCState),
    coreEq st1 st2 → stLive st1 →
    (inferExprList fuel es env1 st1).1 =
      (inferExprList fuel es env2 st2).1 ∧
    coreEq (inferExprList fuel es env1 st1).2
      (inferExprList fuel es env2 st2).2 ∧
    stLive (inferExprList fuel es env1 st1).2 ∧
    (∀ u ∈ (inferExprList fuel es env1 st1).1, TyLive u)
  | fuel, [], _, _, _, st1, st2, hc, hl => by
    cases fuel <;>
      exact ⟨rfl, hc, hl, fun u hu => absurd hu (List.not_mem_nil u)⟩
  | 0, _ :: _, _, _, _, st1, st2, hc, hl =>
    ⟨rfl, hc, hl, fun u hu => absurd hu (List.not_mem_nil u)⟩
  | fuel + 1, e :: rest, env1, env2, hr, st1, st2, hc, hl => by
    simp only [inferExprList]
    obtain ⟨h1, h2, h3, h4⟩ := inferExpr_R fuel e env1 env2 hr st1 st2 hc hl
    rw [← h1]
    obtain ⟨g1, g2, g3, g4⟩ := inferExprList_R fuel rest env1 env2 hr _ _
      h2 h3
    rw [← g1]
    refine ⟨rfl, g2, g3, ?_⟩
    intro u hu
    rcases List.mem_cons.mp hu with hu1 | hu2
    · rw [hu1]; exact h4
    · exact g4 u hu2

theorem inferList_R : ∀ (fuel : Nat) (es : List Expr) (span : Span)
    (env1 env2 : TypeEnv), EnvR env1 env2 → ∀ (st1 st2 : TCState),
    coreEq st1 st2 → stLive st1 →
    (inferList fuel es span env1 st1).1 =
      (inferList fuel es span env2 st2).1 ∧
    coreEq (inferList fuel es span env1 st1).2
      (inferList fuel es span env2 st2).2 ∧
    stLive (inferList fuel es span env1 st1).2 ∧
    TyLive (inferList fuel es span env1 st1).1
  | fuel, [], _, _, _, _, st1, st2, hc, hl => by
    cases fuel <;>
      exact ⟨congrArg createListType (coreEq_fresh hc).1, (coreEq_fresh hc).2,
        (stLive_fresh hl).1, TyLive.tlist _ (stLive_fresh hl).2⟩
  | 0, _ :: _, _, _, _, _, st1, st2, hc, hl => ⟨rfl, hc, hl, TyLive.tconst _⟩
  | fuel + 1, e0 :: rest, sp, env1, env2, hr, st1, st2, hc, hl => by
    simp only [inferList]
    obtain ⟨h1, h2, h3, h4⟩ := inferExpr_R fuel e0 env1 env2 hr st1 st2 hc hl
    rw [← h1]
    obtain ⟨g1, g2⟩ := inferListRest_R fuel rest
      (inferExpr fuel e0 env1 st1).1 h4 env1 env2 hr _ _ h2 h3
    exact ⟨rfl, g1, g2, TyLive.tlist _ h4⟩

theorem inferListRest_R : ∀ (fuel : Nat) (es : List Expr) (t : Ty),
    TyLive t → ∀ (env1 env2 : TypeEnv), EnvR env1 env2 →
    ∀ (st1 st2 : TCState), coreEq st1 st2 → stLive st1 →
    coreEq (inferListRest fuel es t env1 st1)
      (inferListRest fuel es t env2 st2) ∧
    stLive (inferListRest fuel es t env1 st1)
  | fuel, [], _, _, _, _, _, st1, st2, hc, hl => by
    cases fuel <;> exact ⟨hc, hl⟩
  | 0, _ :: _, _, _, _, _, _, st1, st2, hc, hl => ⟨hc, hl⟩
  | fuel + 1, e :: rest, t, ht, env1, env2, hr, st1, st2, hc, hl => by
    simp only [inferListRest]
    obtain ⟨h1, h2, h3, h4⟩ := inferExpr_R fuel e env1 env2 hr st1 st2 hc hl
    rw [← h1]
    obtain ⟨hu1, hu2, hu3⟩ := unify_R unifyFuel t
      (inferExpr fuel e env1 st1).1 e.span _ _ h2 h3 ht h4
    exact inferListRest_R fuel rest t ht env1 env2 hr _ _ hu2 hu3

theorem inferFunction_R : ∀ (fuel : Nat) (ps : List Pattern) (b : Expr)
    (env1 env2 : TypeEnv), EnvR env1 env2 → ∀ (st1 st2 : TCState),
    coreEq st1 st2 → stLive st1 →
    (inferFunction fuel ps b env1 st1).1 =
      (inferFunction fuel ps b env2 st2).1 ∧
    coreEq (inferFunction fuel ps b env1 st1).2
      (inferFunction fuel ps b env2 st2).2 ∧
    stLive (inferFunction fuel ps b env1 st1).2 ∧
    TyLive (inferFunction fuel ps b env1 st1).1
  | 0, _, _, _, _, _, st1, st2, hc, hl => ⟨rfl, hc, hl, TyLive.tconst _⟩
  | fuel + 1, ps, b, env1, env2, hr, st1, st2, hc, hl => by
    simp only [inferFunction, envExtend]
    obtain ⟨h1, h2, h3, h4, h5⟩ := inferFuncParams_R ps
      (List.Forall₂.cons List.Forall₂.nil hr) hc hl
    rw [← h1]
    obtain ⟨hb1, hb2, hb3, hb4⟩ := inferExpr_R fuel b _ _ h2 _ _ h3 h4
    rw [← hb1]
    exact ⟨rfl, hb2, hb3, TyLive.tfunc _ _ h5 hb4⟩

theorem inferCall_R : ∀ (fuel : Nat) (callee : Expr) (args : List Expr)
    (span : Span) (env1 env2 : TypeEnv), EnvR env1 env2 →
    ∀ (st1 st2 : TCState), coreEq st1 st2 → stLive st1 →
    (inferCall fuel callee args span env1 st1).1 =
      (inferCall fuel callee args span env2 st2).1 ∧
    coreEq (inferCall fuel callee args span env1 st1).2
      (inferCall fuel callee args span env2 st2).2 ∧
    stLive (inferCall fuel callee args span env1 st1).2 ∧
    TyLive (inferCall fuel callee args span env1 st1).1
  | 0, _, _, _, _, _, _, st1, st2, hc, hl => ⟨rfl, hc, hl, TyLive.tconst _⟩
  | fuel + 1, callee, args, span, env1, env2, hr, st1, st2, hc, hl => by
    simp only [inferCall]
    obtain ⟨h1, h2, h3, h4⟩ := inferExpr_R fuel callee env1 env2 hr st1 st2
      hc hl
    rw [← h1]
    obtain ⟨he1, he2, he3, he4⟩ := inferExprList_R fuel args env1 env2 hr _ _
      h2 h3
    rw [← he1]
    have hf := coreEq_fresh he2
    rw [← hf.1]
    rw [← prune_congr h2.2.2.1 (inferExpr fuel callee env1 st1).1]
    have hct : TyLive (prune (inferExpr fuel callee env1 st1).2
        (inferExpr fuel callee env1 st1).1) := prune_live h3.2 h4
    split
    · have hzl : ∀ q ∈ args.zip (inferExprList fuel args env1
          (inferExpr fuel callee env1 st1).2).1, TyLive q.2 := by
        intro q hqm
        exact he4 q.2 (List.of_mem_zip hqm).2
      obtain ⟨hp1, hp2, hp3, hp4, hp5, hp6⟩ := placeholderLoop_R _ _ _ hf.2
        (stLive_fresh he3).1 hzl
      rw [← hp1, ← hp2]
      obtain ⟨hu1, hu2, hu3⟩ := unify_R unifyFuel _ _ span _ _ hp3 hp4 hct
        (TyLive.tfunc _ _ hp6 (stLive_fresh he3).2)
      exact ⟨rfl, hu2, hu3, TyLive.tfunc _ _ hp5 (stLive_fresh he3).2⟩
    · obtain ⟨hu1, hu2, hu3⟩ := unify_R unifyFuel _ _ span _ _ hf.2
        (stLive_fresh he3).1 hct (TyLive.tfunc _ _ he4 (stLive_fresh he3).2)
      exact ⟨rfl, hu2, hu3, (stLive_fresh he3).2⟩

theorem inferBinary_R : ∀ (fuel : Nat) (op : String) (l r : Expr)
    (span : Span) (env1 env2 : TypeEnv), EnvR env1 env2 →
    ∀ (st1 st2 : TCState), coreEq st1 st2 → stLive st1 →
    (inferBinary fuel op l r span env1 st1).1 =
      (inferBinary fuel op l r span env2 st2).1 ∧
    coreEq (inferBinary fuel op l r span env1 st1).2
      (inferBinary fuel op l r span env2 st2).2 ∧
    stLive (inferBinary fuel op l r span env1 st1).2 ∧
    TyLive (inferBinary fuel op l r span env1 st1).1
  | 0, _, _, _, _, _, _, _, st1, st2, hc, hl => ⟨rfl, hc, hl, TyLive.tconst _⟩
  | fuel + 1, op, l, r, span, env1, env2, hr, st1, st2, hc, hl => by
    simp only [inferBinary]
    obtain ⟨h1, h2, h3, h4⟩ := inferExpr_R fuel l env1 env2 hr st1 st2 hc hl
    rw [← h1]
    obtain ⟨g1, g2, g3, g4⟩ := inferExpr_R fuel r env1 env2 hr _ _ h2 h3
    rw [← g1]
    split_ifs
    · obtain ⟨hu1, hu2, hu3⟩ := unify_R unifyFuel _ _ span _ _ g2 g3 h4 g4
      exact ⟨rfl, hu2, hu3, h4⟩
    · obtain ⟨hu1, hu2, hu3⟩ := unify_R unifyFuel _ _ span _ _ g2 g3 h4 g4
      exact ⟨rfl, hu2, hu3, TyLive.tconst _⟩
    · obtain ⟨hu1, hu2, hu3⟩ := unify_R unifyFuel _ _ span _ _ g2 g3 h4 g4
      exact ⟨rfl, hu2, hu3, TyLive.tconst _⟩
    · obtain ⟨hu1, hu2, hu3⟩ := unify_R unifyFuel _ _ l.span _ _ g2 g3 h4
        (TyLive.tconst _)
      obtain ⟨hv1, hv2, hv3⟩ := unify_R unifyFuel _ _ r.span _ _ hu2 hu3 g4
        (TyLive.tconst _)
      exact ⟨rfl, hv2, hv3, TyLive.tconst _⟩
    · exact ⟨rfl, g2, g3, h4⟩
    · exact ⟨(coreEq_fresh g2).1, (coreEq_fresh g2).2, (stLive_fresh g3).1,
        (stLive_fresh g3).2⟩

theorem inferPipeline_R : ∀ (fuel : Nat) (l r : Expr) (span : Span)
    (env1 env2 : TypeEnv), EnvR env1 env2 → ∀ (st1 st2 : TCState),
    coreEq st1 st2 → stLive st1 →
    (inferPipeline fuel l r span env1 st1).1 =
      (inferPipeline fuel l r span env2 st2).1 ∧
    coreEq (inferPipeline fuel l r span env1 st1).2
      (inferPipeline fuel l r span env2 st2).2 ∧
    stLive (inferPipeline fuel l r span env1 st1).2 ∧
    TyLive (inferPipeline fuel l r span env1 st1).1
  | 0, _, _, _, _, _, _, st1, st2, hc, hl => ⟨rfl, hc, hl, TyLive.tconst _⟩
  | fuel + 1, l, r, span, env1, env2, hr, st1, st2, hc, hl => by
    simp only [inferPipeline]
    obtain ⟨h1, h2, h3, h4⟩ := inferExpr_R fuel l env1 env2 hr st1 st2 hc hl
    rw [← h1]
    obtain ⟨g1, g2, g3, g4⟩ := inferExpr_R fuel r env1 env2 hr _ _ h2 h3
    rw [← g1]
    have hf := coreEq_fresh g2
    rw [← hf.1]
    rw [← prune_congr g2.2.2.1
      (inferExpr fuel r env1 (inferExpr fuel l env1 st1).2).1]
    have hrt : TyLive (prune
        (inferExpr fuel r env1 (inferExpr fuel l env1 st1).2).2
        (inferExpr fuel r env1 (inferExpr fuel l env1 st1).2).1) :=
      prune_live g3.2 g4
    set pt := prune (inferExpr fuel r env1 (inferExpr fuel l env1 st1).2).2
      (inferExpr fuel r env1 (inferExpr fuel l env1 st1).2).1
    clear_value pt
    split
    · rename_i params funcRet
      cases hg : params.getLast? with
      | some lastParamType =>
        simp only [hg]
        obtain ⟨hu1, hu2, hu3⟩ := unify_R unifyFuel lastParamType
          (inferExpr fuel l env1 st1).1 span _ _ hf.2 (stLive_fresh g3).1
          (hrt.funcParams lastParamType (List.mem_of_mem_getLast? hg)) h4
        exact ⟨trivial, hu2, hu3, hrt.funcRet⟩
      | none =>
        simp only [hg]
        obtain ⟨hu1, hu2, hu3⟩ := unify_R unifyFuel _ _ span _ _ hf.2
          (stLive_fresh g3).1 hrt
          (TyLive.tfunc _ _ (TyLive_one h4) (stLive_fresh g3).2)
        exact ⟨trivial, hu2, hu3, (stLive_fresh g3).2⟩
    · obtain ⟨hu1, hu2, hu3⟩ := unify_R unifyFuel _ _ span _ _ hf.2
        (stLive_fresh g3).1 hrt
        (TyLive.tfunc _ _ (TyLive_one h4) (stLive_fresh g3).2)
      exact ⟨rfl, hu2, hu3, (stLive_fresh g3).2⟩

end


theorem resolveTypeName_R (name : String) {st1 st2 : TCState}
    (hc : coreEq st1 st2) (hl : stLive st1) :
    (resolveTypeName name st1).1 = (resolveTypeName name st2).1 ∧
    coreEq (resolveTypeName name st1).2 (resolveTypeName name st2).2 ∧
    stLive (resolveTypeName name st1).2 ∧
    TyLive (resolveTypeName name st1).1 := by
  unfold resolveTypeName
  split_ifs
  · exact ⟨rfl, hc, hl, TyLive.tconst _⟩
  · exact ⟨rfl, hc, hl, TyLive.tconst _⟩
  · exact ⟨rfl, hc, hl, TyLive.tconst _⟩
  · exact ⟨rfl, hc, hl, TyLive.tconst _⟩
  · exact ⟨rfl, hc, hl, TyLive.tconst _⟩
  · exact ⟨rfl, hc, hl, TyLive.tconst _⟩
  · exact ⟨(coreEq_fresh hc).1, (coreEq_fresh hc).2, (stLive_fresh hl).1,
      (stLive_fresh hl).2⟩

mutual

theorem typeExprToType_R : ∀ (fuel : Nat) (te : TypeExpr) (st1 st2 : TCState),
    coreEq st1 st2 → stLive st1 →
    (typeExprToType fuel te st1).1 = (typeExprToType fuel te st2).1 ∧
    coreEq (typeExprToType fuel te st1).2 (typeExprToType fuel te st2).2 ∧
    stLive (typeExprToType fuel te st1).2 ∧
    TyLive (typeExprToType fuel te st1).1
  | 0, _, st1, st2, hc, hl => ⟨rfl, hc, hl, TyLive.tconst _⟩
  | fuel + 1, .typeIdent name _, st1, st2, hc, hl => by
    simp only [typeExprToType]
    exact resolveTypeName_R name hc hl
  | fuel + 1, .funcType ps rt _, st1, st2, hc, hl => by
    simp only [typeExprToType]
    obtain ⟨h1, h2, h3, h4⟩ := typeExprListToTypes_R fuel ps st1 st2 hc hl
    rw [← h1]
    obtain ⟨g1, g2, g3, g4⟩ := typeExprToType_R fuel rt _ _ h2 h3
    rw [← g1]
    exact ⟨rfl, g2, g3, TyLive.tfunc _ _ h4 g4⟩
  | fuel + 1, .recordType fs _, st1, st2, hc, hl => by
    simp only [typeExprToType]
    obtain ⟨h1, h2, h3, h4⟩ := typeExprFieldsToTypes_R fuel fs st1 st2 hc hl
    rw [← h1]
    exact ⟨rfl, h2, h3, TyLive.trecord _ _ h4⟩
  | fuel + 1, .listType et _, st1, st2, hc, hl => by
    simp only [typeExprToType]
    obtain ⟨h1, h2, h3, h4⟩ := typeExprToType_R fuel et st1 st2 hc hl
    rw [← h1]
    exact ⟨rfl, h2, h3, TyLive.tlist _ h4⟩
  | fuel + 1, .genericType n args _, st1, st2, hc, hl => by
    simp only [typeExprToType]
    obtain ⟨h1, h2, h3, h4⟩ := typeExprListToTypes_R fuel args st1 st2 hc hl
    rw [← h1]
    exact ⟨rfl, h2, h3, TyLive.tapp _ _ h4⟩
  | fuel + 1, .parenType t _, st1, st2, hc, hl => by
    simp only [typeExprToType]
    exact typeExprToType_R fuel t st1 st2 hc hl

theorem typeExprListToTypes_R : ∀ (fuel : Nat) (ts : List TypeExpr)
    (st1 st2 : TCState), coreEq st1 st2 → stLive st1 →
    (typeExprListToTypes fuel ts st1).1 =
      (typeExprListToTypes fuel ts st2).1 ∧
    coreEq (typeExprListToTypes fuel ts st1).2
      (typeExprListToTypes fuel ts st2).2 ∧
    stLive (typeExprListToTypes fuel ts st1).2 ∧
    (∀ u ∈ (typeExprListToTypes fuel ts st1).1, TyLive u)
  | fuel, [], st1, st2, hc, hl => by
    cases fuel <;>
      exact ⟨rfl, hc, hl, fun u hu => absurd hu (List.not_mem_nil u)⟩
  | 0, t :: rest, st1, st2, hc, hl => by
    refine ⟨rfl, hc, hl, ?_⟩
    intro u hu
    rcases List.mem_map.mp hu with ⟨x, hx, hxe⟩
    rw [← hxe]
    exact TyLive.tconst _
  | fuel + 1, t :: rest, st1, st2, hc, hl => by
    simp only [typeExprListToTypes]
    obtain ⟨h1, h2, h3, h4⟩ := typeExprToType_R fuel t st1 st2 hc hl
    rw [← h1]
    obtain ⟨g1, g2, g3, g4⟩ := typeExprListToTypes_R fuel rest _ _ h2 h3
    rw [← g1]
    refine ⟨rfl, g2, g3, ?_⟩
    intro u hu
    rcases List.mem_cons.mp hu with hu1 | hu2
    · rw [hu1]; exact h4
    · exact g4 u hu2

theorem typeExprFieldsToTypes_R : ∀ (fuel : Nat)
    (fs : List (String × TypeExpr)) (st1 st2 : TCState),
    coreEq st1 st2 → stLive st1 →
    (typeExprFieldsToTypes fuel fs st1).1 =
      (typeExprFieldsToTypes fuel fs st2).1 ∧
    coreEq (typeExprFieldsToTypes fuel fs st1).2
      (typeExprFieldsToTypes fuel fs st2).2 ∧
    stLive (typeExprFieldsToTypes fuel fs st1).2 ∧
    (∀ f ∈ (typeExprFieldsToTypes fuel fs st1).1, TyLive f.2)
  | fuel, [], st1, st2, hc, hl => by
    cases fuel <;>
      exact ⟨rfl, hc, hl, fun u hu => absurd hu (List.not_mem_nil u)⟩
  | 0, f :: rest, st1, st2, hc, hl => by
    refine ⟨rfl, hc, hl, ?_⟩
    intro u hu
    rcases List.mem_map.mp hu with ⟨x, hx, hxe⟩
    rw [← hxe]
    exact TyLive.tconst _
  | fuel + 1, (n, t) :: rest, st1, st2, hc, hl => by
    simp only [typeExprFieldsToTypes]
    obtain ⟨h1, h2, h3, h4⟩ := typeExprToType_R fuel t st1 st2 hc hl
    rw [← h1]
    obtain ⟨g1, g2, g3, g4⟩ := typeExprFieldsToTypes_R fuel rest _ _ h2 h3
    rw [← g1]
    refine ⟨rfl, g2, g3, ?_⟩
    intro u hu
    rcases List.mem_cons.mp hu with hu1 | hu2
    · rw [hu1]; exact h4
    · exact g4 u hu2

end

theorem generalize_R {st1 st2 : TCState} (hinst : st1.inst = st2.inst)
    {t1 t2 : Ty} (ht : t1 = t2) {e1 e2 : List Nat} (he : e1 = e2) :
    generalize st1 t1 e1 = generalize st2 t2 e2 := by
  subst ht
  subst he
  unfold generalize
  rw [freeTyVars_congr hinst]

theorem checkLetStatement_R (name : String) (ann : Option TypeExpr)
    (value : Expr) (span : Span) {env1 env2 : TypeEnv} (hr : EnvR env1 env2)
    {st1 st2 : TCState} (hc : coreEq st1 st2) (hl : stLive st1) :
    EnvR (checkLetStatement name ann value span env1 st1).1
      (checkLetStatement name ann value span env2 st2).1 ∧
    coreEq (checkLetStatement name ann value span env1 st1).2
      (checkLetStatement name ann value span env2 st2).2 ∧
    stLive (checkLetStatement name ann value span env1 st1).2 := by
  cases ann with
  | none =>
    simp only [checkLetStatement]
    obtain ⟨h1, h2, h3, h4⟩ := inferExpr_R inferFuel value env1 env2 hr
      st1 st2 hc hl
    refine ⟨?_, h2, h3⟩
    have hs := generalize_R h2.2.2.1 h1 (envFreeTypeVars_R h2.2.2.1 h3.2 hr)
    rw [← hs]
    exact envDefine_R hr name (SchemeR.user _ h4)
  | some te =>
    simp only [checkLetStatement]
    obtain ⟨t1e, t2e, t3e, t4e⟩ := typeExprToType_R teFuel te st1 st2 hc hl
    rw [← t1e]
    obtain ⟨h1, h2, h3, h4⟩ := inferExpr_R inferFuel value env1 env2 hr _ _
      t2e t3e
    rw [← h1]
    obtain ⟨hu1, hu2, hu3⟩ := unify_R unifyFuel _ _ span _ _ h2 h3 t4e h4
    refine ⟨?_, hu2, hu3⟩
    have hs := generalize_R hu2.2.2.1
      (Eq.refl (inferExpr inferFuel value env1 (typeExprToType teFuel te st1).2).1)
      (envFreeTypeVars_R hu2.2.2.1 hu3.2 hr)
    rw [← hs]
    exact envDefine_R hr name (SchemeR.user _ h4)

theorem checkStatement_R (s : Stmt) {env1 env2 : TypeEnv}
    (hr : EnvR env1 env2) {st1 st2 : TCState} (hc : coreEq st1 st2)
    (hl : stLive st1) :
    EnvR (checkStatement s env1 st1).1 (checkStatement s env2 st2).1 ∧
    coreEq (checkStatement s env1 st1).2 (checkStatement s env2 st2).2 ∧
    stLive (checkStatement s env1 st1).2 := by
  cases s with
  | letStmt p name ann value span =>
    exact checkLetStatement_R name ann value span hr hc hl
  | exprStmt e sp =>
    obtain ⟨h1, h2, h3, h4⟩ := inferExpr_R inferFuel e env1 env2 hr st1 st2
      hc hl
    exact ⟨hr, h2, h3⟩

theorem checkStatements_R : ∀ (ss : List Stmt) {env1 env2 : TypeEnv},
    EnvR env1 env2 → ∀ {st1 st2 : TCState}, coreEq st1 st2 → stLive st1 →
    EnvR (checkStatements ss env1 st1).1 (checkStatements ss env2 st2).1 ∧
    coreEq (checkStatements ss env1 st1).2
      (checkStatements ss env2 st2).2 ∧
    stLive (checkStatements ss env1 st1).2
  | [], _, _, hr, _, _, hc, hl => ⟨hr, hc, hl⟩
  | s :: rest, env1, env2, hr, st1, st2, hc, hl => by
    simp only [checkStatements]
    obtain ⟨h1, h2, h3⟩ := checkStatement_R s hr hc hl
    exact checkStatements_R rest h1 h2 h3

theorem checkModule_R (m : ModuleDecl) {env1 env2 : TypeEnv}
    (hr : EnvR env1 env2) {st1 st2 : TCState} (hc : coreEq st1 st2)
    (hl : stLive st1) :
    coreEq (checkModule m env1 st1) (checkModule m env2 st2) ∧
    stLive (checkModule m env1 st1) := by
  obtain ⟨h1, h2, h3⟩ := checkStatements_R m.body
    (List.Forall₂.cons List.Forall₂.nil hr) hc hl
  exact ⟨h2, h3⟩

theorem checkModules_R : ∀ (ms : List ModuleDecl) {env1 env2 : TypeEnv},
    EnvR env1 env2 → ∀ {st1 st2 : TCState}, coreEq st1 st2 → stLive st1 →
    coreEq (checkModules ms env1 st1) (checkModules ms env2 st2) ∧
    stLive (checkModules ms env1 st1)
  | [], _, _, _, _, _, hc, hl => ⟨hc, hl⟩
  | m :: rest, env1, env2, hr, st1, st2, hc, hl => by
    simp only [checkModules]
    obtain ⟨h1, h2⟩ := checkModule_R m hr hc hl
    exact checkModules_R rest hr h1 h2

theorem globalEnvAt_R (c c2 : Nat) : EnvR (globalEnvAt c) (globalEnvAt c2) := by
  refine List.Forall₂.cons ?_ List.Forall₂.nil
  refine List.Forall₂.cons ⟨rfl, SchemeR.tapS c c2⟩ ?_
  refine List.Forall₂.cons ⟨rfl, SchemeR.tailS c c2⟩ ?_
  refine List.Forall₂.cons ⟨rfl, SchemeR.headS c c2⟩ ?_
  refine List.Forall₂.cons ⟨rfl, SchemeR.identityS c c2⟩ ?_
  refine List.Forall₂.cons ⟨rfl, SchemeR.showS c c2⟩ ?_
  refine List.Forall₂.cons ⟨rfl, SchemeR.lengthS c c2⟩ ?_
  refine List.Forall₂.cons ⟨rfl, SchemeR.user sumScheme TyLive_sumScheme⟩ ?_
  refine List.Forall₂.cons ⟨rfl, SchemeR.foldS c c2⟩ ?_
  refine List.Forall₂.cons ⟨rfl, SchemeR.filterS c c2⟩ ?_
  exact List.Forall₂.cons ⟨rfl, SchemeR.mapS c c2⟩ List.Forall₂.nil

theorem typeCheckRun_errors_independent (c c2 : Nat) (p : Program) :
    (typeCheckRun c p).errors = (typeCheckRun c2 p).errors := by
  simp only [typeCheckRun]
  have henv : EnvR (createGlobalEnv (initTCState c)).1
      (createGlobalEnv (initTCState c2)).1 := by
    rw [createGlobalEnv_env, createGlobalEnv_env]
    exact globalEnvAt_R c c2
  have hc0 : coreEq
      (resetTypeVarCounter (createGlobalEnv (initTCState c)).2)
      (resetTypeVarCounter (createGlobalEnv (initTCState c2)).2) :=
    ⟨rfl, rfl, rfl, rfl⟩
  have hl0 : stLive (resetTypeVarCounter (createGlobalEnv (initTCState c)).2) :=
    ⟨Nat.le.refl, fun p hp => absurd hp (List.not_mem_nil p)⟩
  obtain ⟨h1, h2, h3⟩ := checkStatements_R p.statements henv hc0 hl0
  obtain ⟨g1, g2⟩ := checkModules_R p.modules h1 h2 h3
  exact g1.2.2.2

/-- **C9.**  The result record of a compilation — `success`, the emitted
`code` string, and the `errors` and `warnings` vectors with their codes,
messages, severities and spans in order — is identical across invocations
regardless of the value the module-global `typeVarCounter` holds when the
run starts; in particular two successive invocations of `compile` on the
same program in the same process (the second starting from whatever counter
value the first left behind) produce byte-identical code and identical
diagnostics. -/
theorem compile_invocations_deterministic (s : String) (f : Option String)
    (c c2 : Nat) (p : Program) :
    (compileFromProgram s f c p).1 = (compileFromProgram s f c2 p).1 := by
  simp only [compileFromProgram]
  rw [typeCheckRun_errors_independent c c2 p]
  split <;> rfl

end Lambdawg
